import Mathlib

/-! Event cache and session registry of the ziti control plane.

A shallow embedding of `common/event_cache.go` (the two `EventCache`
implementations) and of the session registry of `router/state/manager.go`
(network-session counts and tombstones, API sessions, removal listeners,
channel bindings, the sync marker, key lookup and session validation),
followed by theorems about them.

Conventions of the embedding:

* Go `uint64` / `uint32` values are `Nat`; every addition the source performs
  on them is followed by an explicit `% 2 ^ 64` / `% 2 ^ 32`.
* A Go `map[K]V` is an association list with distinct keys (`GoMap`).
* A Go pointer that may be `nil` is an `Option`.
* A Go function that may panic returns `Go α` (a value or the panic), and
  `Store`, which also has effects, returns a `StoreOutcome`.
* The mutex of each cache is not modelled: every operation holds it from entry
  to exit, so operations are atomic state transformers.
* The methods of the manager are modelled one call at a time, without
  interleaving of other goroutines; a `go` statement is recorded, not run, and a
  callback is a number that names it. Instants and durations are counted in
  nanoseconds.
-/

namespace Ziti

/-! ## Go maps -/

/-- A Go map as an association list; the operations below keep keys distinct. -/
abbrev GoMap (κ ν : Type) := List (κ × ν)

namespace GoMap

variable {κ ν : Type} [DecidableEq κ]

/-- The lookup `v, ok := m[k]`; `none` when the key is absent. -/
def get (m : GoMap κ ν) (k : κ) : Option ν :=
  match m with
  | [] => none
  | (k', v) :: rest => if k' = k then some v else get rest k

/-- The builtin `delete(m, k)`. -/
def delete (m : GoMap κ ν) (k : κ) : GoMap κ ν :=
  m.filter (fun p => decide (p.1 ≠ k))

/-- The assignment `m[k] = v`. -/
def set (m : GoMap κ ν) (k : κ) (v : ν) : GoMap κ ν :=
  m.filter (fun p => decide (p.1 ≠ k)) ++ [(k, v)]

/-- The keys of the map. -/
def keys (m : GoMap κ ν) : List κ :=
  m.map Prod.fst

/-- The builtin `len(m)`. -/
def len (m : GoMap κ ν) : Nat :=
  m.length

/-- The test `_, ok := m[k]`. -/
def has (m : GoMap κ ν) (k : κ) : Bool :=
  (get m k).isSome

end GoMap

/-! ## Events, callbacks, outcomes -/

/-- The message `edge_ctrl_pb.DataState_Event`: its `Index` (a `uint64`) and the
rest of its fields, which the cache never inspects, as one payload value. -/
structure Event where
  Index : Nat
  Payload : Nat
deriving DecidableEq, Repr

/-- The type `OnStoreSuccess`: a Go func value, `none` for `nil`. The function
acts on the caller's state `W`, which is what the callback mutates. -/
abbrev OnStoreSuccess (W : Type) := Option (Nat → Event → W → W)

/-- Run-time panics the modelled code can raise. -/
inductive Panic where
  | nilFuncCall
  | divideByZero
  | indexOutOfRange
  | sliceBoundsOutOfRange
  | nilPointerDereference
  | invalidArgument
deriving DecidableEq, Repr

/-- A Go computation that returns a value or panics. -/
inductive Go (α : Type) where
  | ret (a : α)
  | panic (p : Panic)
deriving DecidableEq, Repr

/-- The error built by `fmt.Errorf("out of order event detected, ...")`, with
the three numbers it formats. -/
structure OutOfOrder where
  currentIndex : Nat
  expectedIndex : Nat
  receivedIndex : Nat
deriving DecidableEq, Repr

/-- How a `Store` call ends: `return nil`, `return fmt.Errorf(...)`, or a panic. -/
inductive StoreReturn where
  | nil
  | err (e : OutOfOrder)
  | panic (p : Panic)
deriving DecidableEq, Repr

/-- One invocation of the `onSuccess` callback: its two arguments and the cache
state at the moment of the call. -/
structure Call (C : Type) where
  index : Nat
  event : Event
  cache : C
deriving DecidableEq, Repr

/-- Everything a `Store` call does: the cache state it leaves (also when it
panics, since Go does not roll back), the caller's state after the callbacks it
ran, the callback invocations in order, and how it ended. -/
structure StoreOutcome (C W : Type) where
  cache : C
  world : W
  calls : List (Call C)
  result : StoreReturn

/-! ## ForgetfulEventCache -/

/-- The struct `ForgetfulEventCache`; `index` is a `*uint64`. -/
structure ForgetfulEventCache where
  index : Option Nat
deriving DecidableEq, Repr

/-- The constructor `NewForgetfulEventCache`. -/
def NewForgetfulEventCache : ForgetfulEventCache :=
  { index := none }

namespace ForgetfulEventCache

/-- The method `ForgetfulEventCache.Store`. -/
def Store {W : Type} (cache : ForgetfulEventCache) (event : Event)
    (onSuccess : OnStoreSuccess W) (w : W) : StoreOutcome ForgetfulEventCache W :=
  let accept : StoreOutcome ForgetfulEventCache W :=
    let cache' : ForgetfulEventCache := { index := some event.Index }
    match onSuccess with
    | some cb =>
      { cache := cache', world := cb event.Index event w,
        calls := [{ index := event.Index, event := event, cache := cache' }],
        result := StoreReturn.nil }
    | none => { cache := cache', world := w, calls := [], result := StoreReturn.nil }
  match cache.index with
  | some i =>
    if (i + 1) % 2 ^ 64 ≠ event.Index then
      { cache := cache, world := w, calls := [],
        result := StoreReturn.err
          { currentIndex := i, expectedIndex := (i + 1) % 2 ^ 64,
            receivedIndex := event.Index } }
    else accept
  | none => accept

/-- The method `ForgetfulEventCache.ReplayFrom`. -/
def ReplayFrom (_cache : ForgetfulEventCache) (_startIndex : Nat) :
    List (Option Event) × Bool :=
  ([], false)

/-- The method `ForgetfulEventCache.CurrentIndex`. -/
def CurrentIndex (cache : ForgetfulEventCache) : Nat × Bool :=
  match cache.index with
  | none => (0, false)
  | some i => (i, true)

end ForgetfulEventCache

/-! ## LoggingEventCache -/

/-- The struct `LoggingEventCache`. -/
structure LoggingEventCache where
  HeadLogIndex : Nat
  LogSize : Nat
  Log : List Nat
  Events : GoMap Nat Event
deriving DecidableEq, Repr

/-- The constructor `NewLoggingEventCache`: `make([]uint64, logSize)` is a slice
of `logSize` zeroes. -/
def NewLoggingEventCache (logSize : Nat) : LoggingEventCache :=
  { HeadLogIndex := 0
    LogSize := logSize
    Log := List.replicate logSize 0
    Events := [] }

/-- The loop of `ReplayFrom` that searches the slot array: the position of the
first slot holding `startIndex`. -/
def findLogIndex (startIndex : Nat) : List Nat → Option Nat
  | [] => none
  | eventIndex :: rest =>
    if eventIndex = startIndex then some 0
    else (findLogIndex startIndex rest).map (· + 1)

namespace LoggingEventCache

/-- The unexported method `LoggingEventCache.currentIndex`. -/
def currentIndex (cache : LoggingEventCache) : Go (Nat × Bool) :=
  if cache.Log.length = 0 then Go.ret (0, false)
  else
    match cache.Log[cache.HeadLogIndex]? with
    | some v => Go.ret (v, true)
    | none => Go.panic Panic.indexOutOfRange

/-- The method `LoggingEventCache.CurrentIndex`. -/
def CurrentIndex (cache : LoggingEventCache) : Go (Nat × Bool) :=
  cache.currentIndex

/-- The method `LoggingEventCache.Store`. -/
def Store {W : Type} (cache : LoggingEventCache) (event : Event)
    (onSuccess : OnStoreSuccess W) (w : W) : StoreOutcome LoggingEventCache W :=
  match cache.currentIndex with
  | Go.panic p => { cache := cache, world := w, calls := [], result := StoreReturn.panic p }
  | Go.ret (currentIndex, ok) =>
    let expectedIndex := (currentIndex + 1) % 2 ^ 64
    if ok && decide (expectedIndex ≠ event.Index) then
      { cache := cache, world := w, calls := [],
        result := StoreReturn.err
          { currentIndex := currentIndex, expectedIndex := expectedIndex,
            receivedIndex := event.Index } }
    else if cache.LogSize = 0 then
      { cache := cache, world := w, calls := [],
        result := StoreReturn.panic Panic.divideByZero }
    else
      let targetLogIndex := ((cache.HeadLogIndex + 1) % 2 ^ 64) % cache.LogSize
      match cache.Log[targetLogIndex]? with
      | none =>
        { cache := cache, world := w, calls := [],
          result := StoreReturn.panic Panic.indexOutOfRange }
      | some prevKey =>
        let events1 := if prevKey ≠ 0 then GoMap.delete cache.Events prevKey else cache.Events
        let cache' : LoggingEventCache :=
          { HeadLogIndex := targetLogIndex
            LogSize := cache.LogSize
            Log := cache.Log.set targetLogIndex event.Index
            Events := GoMap.set events1 event.Index event }
        match onSuccess with
        | none =>
          { cache := cache', world := w, calls := [],
            result := StoreReturn.panic Panic.nilFuncCall }
        | some cb =>
          { cache := cache', world := cb event.Index event w,
            calls := [{ index := event.Index, event := event, cache := cache' }],
            result := StoreReturn.nil }

/-- The method `LoggingEventCache.ReplayFrom`. An element of the result is the
pointer `cache.Events[key]`, `none` when the key is absent from the map. -/
def ReplayFrom (cache : LoggingEventCache) (startIndex : Nat) :
    Go (List (Option Event) × Bool) :=
  match GoMap.get cache.Events startIndex with
  | none => Go.ret ([], false)
  | some _ =>
    match findLogIndex startIndex cache.Log with
    | none => Go.ret ([], false)
    | some startLogIndex =>
      if startLogIndex = cache.HeadLogIndex then Go.ret ([], true)
      else if startLogIndex < cache.HeadLogIndex then
        if cache.Log.length < cache.HeadLogIndex then Go.panic Panic.sliceBoundsOutOfRange
        else
          Go.ret
            (((cache.Log.drop startLogIndex).take (cache.HeadLogIndex - startLogIndex)).map
              (GoMap.get cache.Events), true)
      else
        Go.ret
          ((cache.Log.drop startLogIndex ++ cache.Log.take cache.HeadLogIndex).map
            (GoMap.get cache.Events), true)

end LoggingEventCache

/-! ## Sequences of `Store` calls -/

/-- A client that performs the given `Store` calls one after the other on the
same cache (a panicking call is recovered and the next call still runs):
the final cache, the final caller state, and how each call ended. -/
def runStores {C W : Type} (store : C → Event → OnStoreSuccess W → W → StoreOutcome C W)
    (cache : C) (w : W) : List (Event × OnStoreSuccess W) → C × W × List StoreReturn
  | [] => (cache, w, [])
  | (event, onSuccess) :: rest =>
    let o := store cache event onSuccess w
    let r := runStores store o.cache o.world rest
    (r.1, r.2.1, o.result :: r.2.2)

/-- The events with indices `1, 2, ..., M` in that order; the one with index
`j` carries the payload `p j`. -/
def eventsUpTo (p : Nat → Nat) (M : Nat) : List Event :=
  (List.range' 1 M).map (fun j => { Index := j, Payload := p j })

/-- The calls `Store(e, cb)` for the events with indices `1, ..., M`, all with
a non-nil callback: the call for the index `j` passes `cb j`. -/
def storesUpTo {W : Type} (p : Nat → Nat) (cb : Nat → Nat → Event → W → W) (M : Nat) :
    List (Event × OnStoreSuccess W) :=
  (eventsUpTo p M).map (fun e => (e, some (cb e.Index)))

/-! ## The session registry (`router/state/manager.go`) -/

/-- The method `cmap.ConcurrentMap.Upsert`: `cb` receives whether the key
exists, the value in the map (the zero value when absent) and `value`; its
result is stored under the key. -/
def GoMap.upsert {κ ν : Type} [DecidableEq κ] (m : GoMap κ ν) (zero : ν) (k : κ) (value : ν)
    (cb : Bool → ν → ν → ν) : GoMap κ ν :=
  match GoMap.get m k with
  | some v => GoMap.set m k (cb true v value)
  | none => GoMap.set m k (cb false zero value)

/-- The generic function `contains`. -/
def contains {T : Type} [DecidableEq T] (values : List T) (element : T) : Bool :=
  match values with
  | [] => false
  | val :: rest => if val = element then true else contains rest element

/-- Lexicographic comparison of code-point sequences. -/
def lexLE : List Char → List Char → Bool
  | [], _ => true
  | _ :: _, [] => false
  | a :: as, b :: bs =>
    if a.toNat < b.toNat then true
    else if b.toNat < a.toNat then false
    else lexLE as bs

/-- The Go comparison `a <= b` of two strings: byte-wise lexicographic, which
for UTF-8 text is the order of the code-point sequences. -/
def stringLE (a b : String) : Bool :=
  lexLE a.toList b.toList

/-- Wrap-around of a mathematical integer to Go's `int64` (the type behind
`time.Duration`). -/
def wrap64 (x : Int) : Int :=
  (x + 2 ^ 63) % 2 ^ 64 - 2 ^ 63

/-- The method `Time.Sub` on instants counted in nanoseconds: the difference,
saturated to the range of `time.Duration`. -/
def timeSub (t u : Nat) : Int :=
  if (t : Int) - (u : Int) > 2 ^ 63 - 1 then 2 ^ 63 - 1
  else if (t : Int) - (u : Int) < -(2 ^ 63) then -(2 ^ 63)
  else (t : Int) - (u : Int)

/-- The constant `time.Minute`, in nanoseconds. -/
def Minute : Int := 60000000000

/-- A `go` statement that was executed, by what the new goroutine runs. -/
inductive Spawned where
  | callBack (callBack : Nat) (token : String)
  | removeListener (eventName : String) (listener : Nat)
deriving DecidableEq, Repr

/-- A listener closure registered with the event emitter: its identity, the
callback and token it captured, and whether it runs the callback in a new
goroutine (`go callBack(token)`, the network-session listeners) or calls it
directly (`callBack(token)`, the API-session listeners). -/
structure Listener where
  id : Nat
  callBack : Nat
  token : String
  async : Bool
deriving DecidableEq, Repr

/-- The message `edge_ctrl_pb.ApiSession`. -/
structure PbApiSession where
  Token : String
  Id : String
  CertFingerprints : List String
deriving DecidableEq, Repr

/-- The struct `common.AccessClaims`, with the fields this file reads; `Type_`
is its field `Type`. -/
structure AccessClaims where
  Type_ : String
  Subject : String
  ApiSessionId : String
deriving DecidableEq, Repr

/-- A value in the header of a JWT (`map[string]interface{}`): a string, or a
value of another dynamic type, kept by the name of that type. -/
inductive HeaderValue where
  | string (s : String)
  | other (typeName : String)
deriving DecidableEq, Repr

/-- The struct `jwt.Token`, with the field this file reads. -/
structure JwtToken where
  Header : GoMap String HeaderValue
deriving DecidableEq, Repr

set_option linter.dupNamespace false

/-- The struct `ApiSession` of the package `state`; its three fields are
pointers. -/
structure ApiSession where
  ApiSession : Option PbApiSession
  JwtToken : Option JwtToken
  Claims : Option AccessClaims
deriving DecidableEq, Repr

/-- A `channel.Channel` value: the identity of the channel object, which is what
a map keyed by the interface compares, and the string its method `Id()` returns. -/
structure Channel where
  ptr : Nat
  Id : String
deriving DecidableEq, Repr

/-- The enum `edge_ctrl_pb.DataState_PublicKey_Usage`. -/
inductive PublicKeyUsage where
  | JWTValidation
  | ClientX509CertValidation
  | other (n : Nat)
deriving DecidableEq, Repr

/-- The enum `edge_ctrl_pb.DataState_PublicKey_Format`. -/
inductive PublicKeyFormat where
  | X509CertDer
  | PKIXPublicKey
  | other (n : Nat)
deriving DecidableEq, Repr

/-- The message `edge_ctrl_pb.DataState_PublicKey`. -/
structure PublicKey where
  Kid : String
  Data : List Nat
  Usages : List PublicKeyUsage
  Format : PublicKeyFormat
deriving DecidableEq, Repr

/-- The struct `common.RouterDataModel`, with the field this file reads: the
concurrent map `PublicKeys`, in the order an iteration visits it. -/
structure RouterDataModel where
  PublicKeys : GoMap String PublicKey
deriving DecidableEq, Repr

/-- The struct `ManagerImpl`, with the fields the modelled methods use.
`sessions` holds `uint32` counts, `recentlyRemovedSessions` holds removal
times (instants in nanoseconds), `listeners` is the state of the embedded
`events.EventEmmiter` (per event name, the listeners in registration order).
`activeApiSessions` maps a token to the map of its `MapWithMutex` (channel to
close callback, `none` for a nil func), `activeChannels` maps a channel id to
an `*ApiSession`, `routerDataModel` is the atomic pointer, `certCache` maps a
key id to a parsed certificate.
`nextId` numbers the closures and `sync.Once` values created so far, `onceDone`
lists the `sync.Once` values that have fired, `spawned` records the `go`
statements executed, `invoked` the listeners the emitter has called and
`closed` the close callbacks called, each in order. -/
structure ManagerImpl where
  sessions : GoMap String Nat
  recentlyRemovedSessions : GoMap String Nat
  listeners : GoMap String (List Listener)
  nextId : Nat
  onceDone : List Nat
  spawned : List Spawned
  apiSessionsByToken : GoMap String PbApiSession
  activeApiSessions : GoMap String (GoMap Channel (Option Nat))
  activeChannels : GoMap String (Option ApiSession)
  currentSync : String
  routerDataModel : Option RouterDataModel
  certCache : GoMap String Nat
  invoked : List Listener
  closed : List Nat
deriving DecidableEq, Repr

/-- The constructor `NewManager`, restricted to the fields modelled. -/
def NewManager : ManagerImpl :=
  { sessions := []
    recentlyRemovedSessions := []
    listeners := []
    nextId := 0
    onceDone := []
    spawned := []
    apiSessionsByToken := []
    activeApiSessions := []
    activeChannels := []
    currentSync := ""
    routerDataModel := none
    certCache := []
    invoked := []
    closed := [] }

/-- The func type `RemoveListener`, by the closure it holds: `func() {}`, the
closure built at the end of `AddEdgeSessionRemovedListener`, or the one built
at the end of `AddApiSessionRemovedListener`. -/
inductive RemoveListener where
  | noop
  | closeSession (once : Nat) (token : String) (eventName : String) (listener : Nat)
  | removeOnly (eventName : String) (listener : Nat)
deriving DecidableEq, Repr

/-- The errors `UpdateChApiSession` returns, with the values they format. -/
inductive UpdateError where
  | nilApiSession
  | nilClaims
  | invalidType (expected got : String)
  | subjectMismatch (current new : String)
  | apiSessionIdMismatch (current new : String)
deriving DecidableEq, Repr

/-- The errors `pubKeyLookup` and `parsePublicKey` return; `x509` is an error
returned by the package `crypto/x509`. -/
inductive KeyError where
  | kidHeaderMissing
  | kidNotString (typeName : String)
  | publicKeyNotFound
  | derEmpty
  | unsupportedFormat (format : PublicKeyFormat)
  | x509 (msg : String)
deriving DecidableEq, Repr

/-- The functions of `crypto/x509` that `parsePublicKey` calls. A certificate is
kept by its field `PublicKey`, a key by a number. -/
structure X509 where
  ParseCertificates : List Nat → Except String (List Nat)
  ParsePKIXPublicKey : List Nat → Except String Nat

/-- The error `VerifyClientCert` returns. -/
inductive VerifyError where
  | couldNotVerify
deriving DecidableEq, Repr

/-- The constant `time.Millisecond`, in nanoseconds. -/
def Millisecond : Int := 1000000

/-- The constant `time.Second`, in nanoseconds. -/
def Second : Int := 1000000000

/-- The update of `waitTime` at the end of an iteration of
`GetApiSessionWithTimeout`, in `int64` arithmetic. -/
def nextWaitTime (waitTime : Int) : Int :=
  if waitTime < Second then wrap64 (waitTime * 2) else waitTime

/-- What the environment decides during one pass of `ValidateSessions`: whether
`proto.Marshal` accepts a request, whether the `i`-th `ch.Send` succeeds, and
the raw 63-bit value behind the `i`-th call of `rand.Int63n`. -/
structure ValidateEnv where
  marshalOk : List String → Bool
  sendOk : Nat → Bool
  rand : Nat → Nat

/-- What one pass of `ValidateSessions` does, step by step. -/
inductive ValidateStep where
  | marshalFailed (chunk : List String)
  | send (chunk : List String) (ok : Bool)
  | sleep (interval : Int)
  | panic (p : Panic)
deriving DecidableEq, Repr

/-- The function `rand.Int63n`: it panics on `n <= 0`, and otherwise reduces the
raw value it accepted modulo `n`. -/
def Int63n (raw : Nat) (n : Int) : Go Int :=
  if n ≤ 0 then Go.panic Panic.invalidArgument
  else Go.ret ((raw : Int) % n)

/-- The interval `ValidateSessions` sleeps between two chunks, in `int64`
arithmetic: `interval := minInterval`, and under `minInterval < maxInterval`,
`interval += minInterval + time.Duration(delta)`. -/
def jitterInterval (raw : Nat) (minInterval maxInterval : Int) : Go Int :=
  if minInterval < maxInterval then
    match Int63n raw (wrap64 (maxInterval - minInterval)) with
    | Go.panic p => Go.panic p
    | Go.ret delta => Go.ret (wrap64 (minInterval + wrap64 (minInterval + delta)))
  else Go.ret minInterval

/-- The loop of `ValidateSessions` on the remaining `sessionTokens`, at its
`i`-th iteration, with `fuel` iterations allowed; `none` when they do not
suffice. -/
def validateLoop (env : ValidateEnv) (chunkSize : Nat) (minInterval maxInterval : Int) :
    Nat → Nat → List String → Option (List ValidateStep)
  | _, _, [] => some []
  | 0, _, _ :: _ => none
  | fuel + 1, i, tok :: toks =>
    let sessionTokens := tok :: toks
    let chunk :=
      if sessionTokens.length > chunkSize then sessionTokens.take chunkSize else sessionTokens
    let rest :=
      if sessionTokens.length > chunkSize then sessionTokens.drop chunkSize else []
    if !env.marshalOk chunk then some [ValidateStep.marshalFailed chunk]
    else if !env.sendOk i then some [ValidateStep.send chunk false]
    else if rest.length > 0 then
      match jitterInterval (env.rand i) minInterval maxInterval with
      | Go.panic p => some [ValidateStep.send chunk true, ValidateStep.panic p]
      | Go.ret interval =>
        (validateLoop env chunkSize minInterval maxInterval fuel (i + 1) rest).map
          (fun steps => ValidateStep.send chunk true :: ValidateStep.sleep interval :: steps)
    else
      (validateLoop env chunkSize minInterval maxInterval fuel (i + 1) rest).map
        (fun steps => ValidateStep.send chunk true :: steps)

/-- The chunks a pass sent, in order. -/
def sentChunks : List ValidateStep → List (List String)
  | [] => []
  | ValidateStep.send chunk _ :: rest => chunk :: sentChunks rest
  | _ :: rest => sentChunks rest

namespace ManagerImpl

/-- The method `getEdgeSessionRemovedEventName`; `EventRemovedEdgeSession` is
the constant `"RemovedEdgeSession"`. -/
def getEdgeSessionRemovedEventName (token : String) : String :=
  "RemovedEdgeSession" ++ "-" ++ token

/-- The method `getApiSessionRemovedEventName`; `EventRemovedApiSession` is the
constant `"RemovedApiSession"`. -/
def getApiSessionRemovedEventName (token : String) : String :=
  "RemovedApiSession" ++ "-" ++ token

/-- The method `WasSessionRecentlyRemoved`. -/
def WasSessionRecentlyRemoved (sm : ManagerImpl) (token : String) : Bool :=
  GoMap.has sm.recentlyRemovedSessions token

/-- The method `MarkSessionRecentlyRemoved` at time `now`. -/
def MarkSessionRecentlyRemoved (sm : ManagerImpl) (token : String) (now : Nat) : ManagerImpl :=
  { sm with recentlyRemovedSessions := GoMap.set sm.recentlyRemovedSessions token now }

/-- The method `AddListener` of the embedded event emitter. -/
def AddListener (sm : ManagerImpl) (eventName : String) (listener : Listener) : ManagerImpl :=
  { sm with
    listeners :=
      GoMap.set sm.listeners eventName
        (((GoMap.get sm.listeners eventName).getD []) ++ [listener]) }

/-- One call of a listener by the emitter: a network-session listener starts a
goroutine for its callback, an API-session listener calls its callback. -/
def invokeListener (sm : ManagerImpl) (l : Listener) : ManagerImpl :=
  if l.async then
    { sm with
      invoked := sm.invoked ++ [l]
      spawned := sm.spawned ++ [Spawned.callBack l.callBack l.token] }
  else { sm with invoked := sm.invoked ++ [l] }

/-- The method `Emit` of the embedded event emitter: it calls the listeners
registered for the event name, in registration order. -/
def Emit (sm : ManagerImpl) (eventName : String) : ManagerImpl :=
  ((GoMap.get sm.listeners eventName).getD []).foldl invokeListener sm

/-- The method `RemoveAllListeners` of the embedded event emitter. -/
def RemoveAllListeners (sm : ManagerImpl) (eventName : String) : ManagerImpl :=
  { sm with listeners := GoMap.delete sm.listeners eventName }

/-- The method `SessionConnectionClosed` at time `now`: the `Upsert`, then the
`RemoveCb` whose callback decides the removal and writes the tombstone. -/
def SessionConnectionClosed (sm : ManagerImpl) (token : String) (now : Nat) : ManagerImpl :=
  let sessions1 :=
    GoMap.upsert sm.sessions 0 token 0
      (fun exist valueInMap _newValue => if !exist then 0 else (valueInMap + 1) % 2 ^ 32)
  match GoMap.get sessions1 token with
  | none => { sm with sessions := sessions1 }
  | some v =>
    if v = 0 then
      { sm with
        sessions := GoMap.delete sessions1 token
        recentlyRemovedSessions := GoMap.set sm.recentlyRemovedSessions token now }
    else { sm with sessions := sessions1 }

/-- The method `AddEdgeSessionRemovedListener`. `IsBearerToken` is
`xgress_common.IsBearerToken`, `callBack` names the callback passed in. -/
def AddEdgeSessionRemovedListener (IsBearerToken : String → Bool) (sm : ManagerImpl)
    (token : String) (callBack : Nat) : ManagerImpl × RemoveListener :=
  if IsBearerToken token then (sm, RemoveListener.noop)
  else if GoMap.has sm.recentlyRemovedSessions token then
    ({ sm with spawned := sm.spawned ++ [Spawned.callBack callBack token] },
      RemoveListener.noop)
  else
    let sessions1 :=
      GoMap.upsert sm.sessions 0 token 0
        (fun exist valueInMap _newValue => if !exist then 1 else (valueInMap + 1) % 2 ^ 32)
    let eventName := getEdgeSessionRemovedEventName token
    let listener : Listener :=
      { id := sm.nextId, callBack := callBack, token := token, async := true }
    let sm1 := AddListener { sm with sessions := sessions1 } eventName listener
    ({ sm1 with nextId := sm.nextId + 2 },
      RemoveListener.closeSession (sm.nextId + 1) token eventName listener.id)

/-- The method `AddApiSessionRemovedListener`. -/
def AddApiSessionRemovedListener (sm : ManagerImpl) (token : String) (callBack : Nat) :
    ManagerImpl × RemoveListener :=
  let eventName := getApiSessionRemovedEventName token
  let listener : Listener :=
    { id := sm.nextId, callBack := callBack, token := token, async := false }
  let sm1 := AddListener sm eventName listener
  ({ sm1 with nextId := sm.nextId + 1 }, RemoveListener.removeOnly eventName listener.id)

/-- The method `RemoveApiSession`; `"RemovedApiSession"` is the constant
`EventRemovedApiSession`. -/
def RemoveApiSession (sm : ManagerImpl) (token : String) : ManagerImpl :=
  match GoMap.get sm.apiSessionsByToken token with
  | some _ns =>
    let sm1 := { sm with apiSessionsByToken := GoMap.delete sm.apiSessionsByToken token }
    let eventName := getApiSessionRemovedEventName token
    let sm2 := Emit sm1 eventName
    let sm3 := RemoveAllListeners sm2 eventName
    Emit sm3 "RemovedApiSession"
  | none => sm

/-- The method `RemoveMissingApiSessions`. -/
def RemoveMissingApiSessions (sm : ManagerImpl) (knownApiSessions : List PbApiSession)
    (beforeSessionId : String) : ManagerImpl :=
  let validTokens : GoMap String Bool :=
    knownApiSessions.foldl (fun m apiSession => GoMap.set m apiSession.Token true) []
  let tokensToRemove : List String :=
    (sm.apiSessionsByToken.filter
      (fun p =>
        !(GoMap.has validTokens p.1) &&
          (decide (beforeSessionId = "") || stringLE p.2.Id beforeSessionId))).map Prod.fst
  tokensToRemove.foldl RemoveApiSession sm

/-- The method `RemoveEdgeSession` at time `now`. -/
def RemoveEdgeSession (sm : ManagerImpl) (token : String) (now : Nat) : ManagerImpl :=
  let eventName := getEdgeSessionRemovedEventName token
  let sm1 := Emit sm eventName
  let sm2 := RemoveAllListeners sm1 eventName
  match GoMap.get sm2.sessions token with
  | some _ =>
    { sm2 with
      sessions := GoMap.delete sm2.sessions token
      recentlyRemovedSessions := GoMap.set sm2.recentlyRemovedSessions token now }
  | none => sm2

/-- The method `MarkSyncInProgress`. -/
def MarkSyncInProgress (sm : ManagerImpl) (trackerId : String) : ManagerImpl :=
  { sm with currentSync := trackerId }

/-- The method `MarkSyncStopped`. -/
def MarkSyncStopped (sm : ManagerImpl) (trackerId : String) : ManagerImpl :=
  if sm.currentSync = trackerId then { sm with currentSync := "" } else sm

/-- The method `IsSyncInProgress`. -/
def IsSyncInProgress (sm : ManagerImpl) : Bool :=
  decide (sm.currentSync = "")

/-- The method `GetApiSessionFromCh`. -/
def GetApiSessionFromCh (sm : ManagerImpl) (ch : Channel) : Option ApiSession :=
  match GoMap.get sm.activeChannels ch.Id with
  | some apiSession => apiSession
  | none => none

/-- The method `AddActiveChannel`. -/
def AddActiveChannel (sm : ManagerImpl) (ch : Channel) (session : Option ApiSession) :
    ManagerImpl :=
  { sm with activeChannels := GoMap.set sm.activeChannels ch.Id session }

/-- The method `UpdateChApiSession`: the state it leaves and the error it
returns (`none` for `nil`), or the panic of a nil dereference.
`TokenTypeAccess` is the constant `common.TokenTypeAccess`. -/
def UpdateChApiSession (TokenTypeAccess : String) (sm : ManagerImpl) (ch : Channel)
    (newApiSession : Option ApiSession) : ManagerImpl × Go (Option UpdateError) :=
  match newApiSession with
  | none => (sm, Go.ret (some UpdateError.nilApiSession))
  | some new =>
    match new.Claims with
    | none => (sm, Go.ret (some UpdateError.nilClaims))
    | some newClaims =>
      if newClaims.Type_ ≠ TokenTypeAccess then
        (sm, Go.ret (some (UpdateError.invalidType TokenTypeAccess newClaims.Type_)))
      else
        match GetApiSessionFromCh sm ch with
        | none => (sm, Go.panic Panic.nilPointerDereference)
        | some currentApiSession =>
          match currentApiSession.Claims with
          | none => (sm, Go.panic Panic.nilPointerDereference)
          | some currentClaims =>
            if newClaims.Subject ≠ currentClaims.Subject then
              (sm, Go.ret (some
                (UpdateError.subjectMismatch currentClaims.Subject newClaims.Subject)))
            else if newClaims.ApiSessionId ≠ currentClaims.ApiSessionId then
              (sm, Go.ret (some
                (UpdateError.apiSessionIdMismatch currentClaims.ApiSessionId
                  newClaims.ApiSessionId)))
            else
              ({ sm with activeChannels := GoMap.set sm.activeChannels ch.Id (some new) },
                Go.ret none)

/-- The method `parsePublicKey`. -/
def parsePublicKey (x : X509) (publicKey : PublicKey) : Except KeyError Nat :=
  match publicKey.Format with
  | PublicKeyFormat.X509CertDer =>
    match x.ParseCertificates publicKey.Data with
    | Except.error msg => Except.error (KeyError.x509 msg)
    | Except.ok certs =>
      match certs with
      | [] => Except.error KeyError.derEmpty
      | cert :: _ => Except.ok cert
  | PublicKeyFormat.PKIXPublicKey =>
    match x.ParsePKIXPublicKey publicKey.Data with
    | Except.error msg => Except.error (KeyError.x509 msg)
    | Except.ok key => Except.ok key
  | PublicKeyFormat.other n => Except.error (KeyError.unsupportedFormat (PublicKeyFormat.other n))

/-- The loop of `pubKeyLookup` over the public keys of the snapshot. -/
def pubKeyLookupLoop (x : X509) (kid : String) :
    List (String × PublicKey) → Except KeyError Nat
  | [] => Except.error KeyError.publicKeyNotFound
  | (_, val) :: rest =>
    if contains val.Usages PublicKeyUsage.JWTValidation then
      if kid = val.Kid then parsePublicKey x val
      else pubKeyLookupLoop x kid rest
    else pubKeyLookupLoop x kid rest

/-- The method `pubKeyLookup`. `TrimSpace` is `strings.TrimSpace`; the snapshot
is read with `routerDataModel.Load()`, which is nil until one is stored. -/
def pubKeyLookup (x : X509) (TrimSpace : String → String) (sm : ManagerImpl)
    (token : JwtToken) : Go (Except KeyError Nat) :=
  match GoMap.get token.Header "kid" with
  | none => Go.ret (Except.error KeyError.kidHeaderMissing)
  | some (HeaderValue.other typeName) => Go.ret (Except.error (KeyError.kidNotString typeName))
  | some (HeaderValue.string kidVal) =>
    let kid := TrimSpace kidVal
    match sm.routerDataModel with
    | none => Go.panic Panic.nilPointerDereference
    | some rdm => Go.ret (pubKeyLookupLoop x kid rdm.PublicKeys)

/-- The method `AddConnectedApiSessionWithChannel` (its loop retries only when
another goroutine sets the token in between). -/
def AddConnectedApiSessionWithChannel (sm : ManagerImpl) (token : String)
    (removeCB : Option Nat) (ch : Channel) : ManagerImpl :=
  match GoMap.get sm.activeApiSessions token with
  | some sessions =>
    { sm with
      activeApiSessions := GoMap.set sm.activeApiSessions token (GoMap.set sessions ch removeCB) }
  | none =>
    { sm with
      activeApiSessions := GoMap.set sm.activeApiSessions token (GoMap.set [] ch removeCB) }

/-- The method `RemoveConnectedApiSessionWithChannel`: the state it leaves, and
whether it returned or panicked on a nil close callback. -/
def RemoveConnectedApiSessionWithChannel (sm : ManagerImpl) (token : String) (ch : Channel) :
    ManagerImpl × Go Unit :=
  match GoMap.get sm.activeApiSessions token with
  | none => (sm, Go.ret ())
  | some sessions =>
    match GoMap.get sessions ch with
    | some none => (sm, Go.panic Panic.nilFuncCall)
    | some (some removeCB) =>
      let m := GoMap.delete sessions ch
      if GoMap.len m = 0 then
        ({ sm with
          closed := sm.closed ++ [removeCB]
          activeApiSessions := GoMap.delete sm.activeApiSessions token }, Go.ret ())
      else
        ({ sm with
          closed := sm.closed ++ [removeCB]
          activeApiSessions := GoMap.set sm.activeApiSessions token m }, Go.ret ())
    | none =>
      if GoMap.len sessions = 0 then
        ({ sm with activeApiSessions := GoMap.delete sm.activeApiSessions token }, Go.ret ())
      else (sm, Go.ret ())

/-- The method `getX509FromData`: the state it leaves (the certificate cache)
and its result. `ParseCertificate` is `x509.ParseCertificate`; a certificate is
kept by a number that identifies it. -/
def getX509FromData (ParseCertificate : List Nat → Except String Nat) (sm : ManagerImpl)
    (kid : String) (data : List Nat) : ManagerImpl × Except String Nat :=
  match GoMap.get sm.certCache kid with
  | some cert => (sm, Except.ok cert)
  | none =>
    match ParseCertificate data with
    | Except.error err => (sm, Except.error err)
    | Except.ok cert => ({ sm with certCache := GoMap.set sm.certCache kid cert }, Except.ok cert)

/-- The loop of `VerifyClientCert` over the public keys of the snapshot: the
state it leaves and the root pool it builds. Each certificate of the pool is
listed with the key id it was added for. -/
def buildRootPool (ParseCertificate : List Nat → Except String Nat) :
    ManagerImpl → List (String × Nat) → List (String × PublicKey) →
      ManagerImpl × List (String × Nat)
  | sm, rootPool, [] => (sm, rootPool)
  | sm, rootPool, (_, val) :: rest =>
    if contains val.Usages PublicKeyUsage.ClientX509CertValidation then
      match getX509FromData ParseCertificate sm val.Kid val.Data with
      | (sm1, Except.error _) => buildRootPool ParseCertificate sm1 rootPool rest
      | (sm1, Except.ok cert) =>
        buildRootPool ParseCertificate sm1 (rootPool ++ [(val.Kid, cert)]) rest
    else buildRootPool ParseCertificate sm rootPool rest

/-- The method `VerifyClientCert` on a non-nil certificate: the state it leaves
and the error it returns (`none` for `nil`), or the panic of reading the keys
of a nil snapshot. `Verify cert roots` is `cert.Verify` with the root pool
`roots` (the other options are fixed by the method). -/
def VerifyClientCert (ParseCertificate : List Nat → Except String Nat)
    (Verify : Nat → List Nat → Bool) (sm : ManagerImpl) (cert : Nat) :
    ManagerImpl × Go (Option VerifyError) :=
  match sm.routerDataModel with
  | none => (sm, Go.panic Panic.nilPointerDereference)
  | some rdm =>
    let r := buildRootPool ParseCertificate sm [] rdm.PublicKeys
    if Verify cert (r.2.map Prod.snd) then (r.1, Go.ret none)
    else (r.1, Go.ret (some VerifyError.couldNotVerify))

/-- The method `SetRouterDataModel` on a non-nil snapshot. -/
def SetRouterDataModel (sm : ManagerImpl) (model : RouterDataModel) : ManagerImpl :=
  { sm with routerDataModel := some model }

/-- The loop of `GetApiSessionWithTimeout`, entered with the clock at `now`
(nanoseconds) and the current `waitTime`, before its `i`-th call of
`GetApiSession`, with `fuel` iterations allowed: the session returned and the
durations slept, in order; `none` when the iterations do not suffice.
`lookup i` is what the `i`-th call of `GetApiSession` returns; the clock
advances by the duration of each sleep. -/
def apiSessionPollLoop (lookup : Nat → Option ApiSession) (deadline : Int) :
    Nat → Nat → Int → Int → Option (Option ApiSession × List Int)
  | fuel, i, now, waitTime =>
    if now < deadline then
      match fuel with
      | 0 => none
      | fuel + 1 =>
        match lookup i with
        | some session => some (some session, [])
        | none =>
          (apiSessionPollLoop lookup deadline fuel (i + 1) (now + waitTime)
            (nextWaitTime waitTime)).map (fun r => (r.1, waitTime :: r.2))
    else some (none, [])

/-- The method `GetApiSessionWithTimeout`, called at time `now`. -/
def GetApiSessionWithTimeout (lookup : Nat → Option ApiSession) (now timeout : Int)
    (fuel : Nat) : Option (Option ApiSession × List Int) :=
  let deadline := now + timeout
  match lookup 0 with
  | some session => some (some session, [])
  | none => apiSessionPollLoop lookup deadline fuel 1 now Millisecond

/-- The method `flushRecentlyRemoved` at time `now`. -/
def flushRecentlyRemoved (sm : ManagerImpl) (now : Nat) : ManagerImpl :=
  let toRemove : List String :=
    (sm.recentlyRemovedSessions.filter
      (fun p => decide (timeSub now p.2 ≥ 5 * Minute))).map Prod.fst
  { sm with recentlyRemovedSessions := toRemove.foldl GoMap.delete sm.recentlyRemovedSessions }

/-- The method `ValidateSessions`, with `fuel` loop iterations allowed:
the steps of the pass, `none` when the loop needs more iterations. -/
def ValidateSessions (sm : ManagerImpl) (env : ValidateEnv) (chunkSize : Nat)
    (minInterval maxInterval : Int) (fuel : Nat) : Option (List ValidateStep) :=
  validateLoop env chunkSize minInterval maxInterval fuel 0 (GoMap.keys sm.sessions)

end ManagerImpl

/-- Calling a `RemoveListener` value at time `now`. The closure of
`AddEdgeSessionRemovedListener` runs its body through `once.Do`, so only the
first call does anything. -/
def RemoveListener.call (f : RemoveListener) (sm : ManagerImpl) (now : Nat) : ManagerImpl :=
  match f with
  | RemoveListener.noop => sm
  | RemoveListener.closeSession once token eventName listener =>
    if once ∈ sm.onceDone then sm
    else
      let sm1 := ManagerImpl.SessionConnectionClosed { sm with onceDone := once :: sm.onceDone } token now
      { sm1 with spawned := sm1.spawned ++ [Spawned.removeListener eventName listener] }
  | RemoveListener.removeOnly eventName listener =>
    { sm with spawned := sm.spawned ++ [Spawned.removeListener eventName listener] }

/-- The calls `AddEdgeSessionRemovedListener(token, cb)` for each `cb` of
`callBacks` in order: the final state and the `RemoveListener` values returned. -/
def addEdgeListeners (IsBearerToken : String → Bool) (sm : ManagerImpl) (token : String) :
    List Nat → ManagerImpl × List RemoveListener
  | [] => (sm, [])
  | callBack :: rest =>
    let r := ManagerImpl.AddEdgeSessionRemovedListener IsBearerToken sm token callBack
    let rs := addEdgeListeners IsBearerToken r.1 token rest
    (rs.1, r.2 :: rs.2)

/-- Calling each of the given `RemoveListener` values once, in order. -/
def callAll (sm : ManagerImpl) (now : Nat) : List RemoveListener → ManagerImpl
  | [] => sm
  | f :: rest => callAll (f.call sm now) now rest

/-- The two calls `AddApiSessionRemovedListener(token, cb1)` and
`AddApiSessionRemovedListener(token, cb2)`: the state they leave. -/
def twoApiListeners (sm : ManagerImpl) (token : String) (cb1 cb2 : Nat) : ManagerImpl :=
  ((sm.AddApiSessionRemovedListener token cb1).1.AddApiSessionRemovedListener token cb2).1

/-- The two calls `AddEdgeSessionRemovedListener(token, cb1)` and
`AddEdgeSessionRemovedListener(token, cb2)`: the state they leave. -/
def twoEdgeListeners (IsBearerToken : String → Bool) (sm : ManagerImpl) (token : String)
    (cb1 cb2 : Nat) : ManagerImpl :=
  ((sm.AddEdgeSessionRemovedListener IsBearerToken token cb1).1.AddEdgeSessionRemovedListener
    IsBearerToken token cb2).1

/-- One call of a reference-counting operation of the session registry. -/
inductive RefOp where
  | add (token : String) (callBack : Nat)
  | closed (token : String) (now : Nat)
  | remove (token : String) (now : Nat)
deriving DecidableEq, Repr

/-- The state a reference-counting operation leaves. -/
def applyOp (IsBearerToken : String → Bool) (sm : ManagerImpl) : RefOp → ManagerImpl
  | RefOp.add token callBack => (sm.AddEdgeSessionRemovedListener IsBearerToken token callBack).1
  | RefOp.closed token now => sm.SessionConnectionClosed token now
  | RefOp.remove token now => sm.RemoveEdgeSession token now

/-- The states a sequence of reference-counting operations goes through: the
state before the first operation, then the state after each one. -/
def runStates (IsBearerToken : String → Bool) : ManagerImpl → List RefOp → List ManagerImpl
  | sm, [] => [sm]
  | sm, op :: rest => sm :: runStates IsBearerToken (applyOp IsBearerToken sm op) rest

/-- The wait of `GetApiSessionWithTimeout` before its `k`-th sleep when no
poll finds the session. -/
def waitAfter : Nat → Int
  | 0 => Millisecond
  | k + 1 => nextWaitTime (waitAfter k)

/-- The check `Certificate.Verify` of `crypto/x509` taken as an abstract check
against the pool: a certificate verifies when the certificate of its issuer is
a root of the pool. `issuerOf` names the issuer of a certificate. -/
def chainVerifies (issuerOf : Nat → Nat) (cert : Nat) (roots : List Nat) : Bool :=
  decide (issuerOf cert ∈ roots)

/-- A parser used in the examples below: one byte is a certificate, named by
that byte; anything else is malformed. -/
def sampleParseCertificate : List Nat → Except String Nat
  | [n] => Except.ok n
  | _ => Except.error "malformed"

/-- An issuer assignment used in the examples below: the certificate `100 + n`
is issued by the certificate `n`. -/
def sampleIssuerOf (cert : Nat) : Nat :=
  cert - 100

/-- A snapshot used in the examples below: one client-certificate validation
key with the given key id and bytes. -/
def sampleSnapshot (kid : String) (data : List Nat) : RouterDataModel :=
  { PublicKeys :=
      [(kid,
        { Kid := kid
          Data := data
          Usages := [PublicKeyUsage.ClientX509CertValidation]
          Format := PublicKeyFormat.X509CertDer })] }

/-! ## The retained window -/

/-- The state of a retaining log of capacity `N` that has accepted exactly the
events `ev 1, ..., ev M`. -/
structure Retained (N M : Nat) (ev : Nat → Event) (c : LoggingEventCache) : Prop where
  size : c.LogSize = N
  len : c.Log.length = N
  head : c.HeadLogIndex = M % N
  slot_val : ∀ i v, c.Log[i]? = some v → v ≠ 0 → v % N = i ∧ v ≤ M ∧ M < v + N
  slot_of : ∀ j, 1 ≤ j → j ≤ M → M < j + N → c.Log[j % N]? = some j
  events : c.Events = (List.range' (M + 1 - min M N) (min M N)).map (fun j => (j, ev j))

/-! ## Theorems -/

/-! ### Lemmas on Go maps -/

/-- Lookup in a map whose keys are a run of consecutive indices. -/
theorem GoMap.get_range_map (ev : Nat → Event) (n lo k : Nat) :
    GoMap.get ((List.range' lo n).map (fun j => (j, ev j))) k
      = if lo ≤ k ∧ k < lo + n then some (ev k) else none := by
  induction n generalizing lo with
  | zero =>
    rw [if_neg (by omega)]
    rfl
  | succ n ih =>
    simp only [List.range'_succ, List.map_cons, GoMap.get, ih]
    by_cases h : lo = k
    · subst h; simp
    · simp only [h, if_false]
      by_cases h2 : lo + 1 ≤ k ∧ k < lo + 1 + n
      · rw [if_pos h2, if_pos (by omega)]
      · rw [if_neg h2, if_neg (by omega)]

/-- Deleting a key outside a run of consecutive keys changes nothing. -/
theorem GoMap.filter_range_map_of_not_mem (ev : Nat → Event) (n lo k : Nat)
    (h : k < lo ∨ lo + n ≤ k) :
    ((List.range' lo n).map (fun j => (j, ev j))).filter (fun p => decide (p.1 ≠ k))
      = (List.range' lo n).map (fun j => (j, ev j)) := by
  rw [List.filter_eq_self]
  intro p hp
  simp only [List.mem_map, List.mem_range'_1] at hp
  obtain ⟨j, hj, rfl⟩ := hp
  simp only [ne_eq, decide_not, Bool.not_eq_eq_eq_not, Bool.not_true, decide_eq_false_iff_not]
  omega

/-- Writing the key that follows a run of consecutive keys extends the run. -/
theorem GoMap.set_range_map (ev : Nat → Event) (n lo : Nat) (e : Event) :
    GoMap.set ((List.range' lo n).map (fun j => (j, ev j))) (lo + n) e
      = (List.range' lo (n + 1)).map (fun j => (j, Function.update ev (lo + n) e j)) := by
  unfold GoMap.set
  rw [GoMap.filter_range_map_of_not_mem ev n lo (lo + n) (Or.inr (le_refl _)),
    List.range'_concat, List.map_append]
  simp only [Nat.one_mul, List.map_cons, List.map_nil, Function.update_same]
  congr 1
  apply List.map_congr_left
  intro j hj
  simp only [List.mem_range'_1] at hj
  rw [Function.update_noteq (by omega)]

/-- Deleting the first key of a run of consecutive keys drops it. -/
theorem GoMap.delete_range_map (ev : Nat → Event) (n lo : Nat) :
    GoMap.delete ((List.range' lo (n + 1)).map (fun j => (j, ev j))) lo
      = (List.range' (lo + 1) n).map (fun j => (j, ev j)) := by
  unfold GoMap.delete
  rw [List.range'_succ, List.map_cons, List.filter_cons]
  simp only [ne_eq, not_true_eq_false, decide_False, Bool.false_eq_true, if_false]
  exact GoMap.filter_range_map_of_not_mem ev n (lo + 1) lo (Or.inl (Nat.lt_succ_self _))

/-- Two numbers less than `N` apart with the same residue modulo `N` are equal. -/
theorem eq_of_mod_eq_of_lt {N a b : Nat} (hab : a ≤ b) (hlt : b < a + N)
    (hmod : a % N = b % N) : a = b := by
  have h0 : (b - a) % N = 0 := Nat.sub_mod_eq_zero_of_mod_eq hmod.symm
  have h1 : (b - a) % N = b - a := Nat.mod_eq_of_lt (by omega)
  omega

/-- A freshly constructed retaining log has accepted no event. -/
theorem retained_new (N : Nat) (ev : Nat → Event) :
    Retained N 0 ev (NewLoggingEventCache N) where
  size := rfl
  len := by simp [NewLoggingEventCache]
  head := by simp [NewLoggingEventCache]
  slot_val := by
    intro i v h hv
    simp only [NewLoggingEventCache, List.getElem?_replicate] at h
    split at h
    · exact absurd (Option.some.inj h).symm hv
    · cases h
  slot_of := by intro j h1 h2; omega
  events := by simp [NewLoggingEventCache]

namespace Retained

variable {N M : Nat} {ev : Nat → Event} {c : LoggingEventCache}

/-- Every position below the capacity is a slot of the array. -/
theorem slot_exists (h : Retained N M ev c) {i : Nat} (hi : i < N) :
    ∃ v, c.Log[i]? = some v := by
  have : i < c.Log.length := by rw [h.len]; exact hi
  exact ⟨c.Log[i], List.getElem?_eq_getElem this⟩

/-- The head slot holds the index of the last accepted event (0 when there is none). -/
theorem head_slot (hN : 1 ≤ N) (h : Retained N M ev c) :
    c.Log[c.HeadLogIndex]? = some M := by
  rw [h.head]
  by_cases hM : M = 0
  · subst hM
    obtain ⟨v, hv⟩ := h.slot_exists (Nat.mod_lt 0 hN)
    by_cases hv0 : v = 0
    · rw [hv, hv0]
    · have := (h.slot_val _ v hv hv0).2.1
      omega
  · exact h.slot_of M (by omega) (le_refl _) (by omega)

/-- With capacity at least 1, `currentIndex` reports the last accepted index as known. -/
theorem currentIndex_eq (hN : 1 ≤ N) (h : Retained N M ev c) :
    c.currentIndex = Go.ret (M, true) := by
  unfold LoggingEventCache.currentIndex
  rw [if_neg (by rw [h.len]; omega), h.head_slot hN]

/-- What the slot the next store targets holds: the index that leaves the window, or 0. -/
theorem prevKey (hN : 1 ≤ N) (h : Retained N M ev c) :
    c.Log[(M + 1) % N]? = some (if N ≤ M then M + 1 - N else 0) := by
  by_cases hM : N ≤ M
  · rw [if_pos hM]
    have := h.slot_of (M + 1 - N) (by omega) (by omega) (by omega)
    have hmod : (M + 1 - N) % N = (M + 1) % N := by
      conv_rhs => rw [show M + 1 = (M + 1 - N) + N by omega, Nat.add_mod_right]
    rwa [hmod] at this
  · rw [if_neg hM]
    obtain ⟨v, hv⟩ := h.slot_exists (Nat.mod_lt (M + 1) hN)
    by_cases hv0 : v = 0
    · rw [hv, hv0]
    · obtain ⟨h1, h2, h3⟩ := h.slot_val _ v hv hv0
      have := eq_of_mod_eq_of_lt (N := N) (a := v) (b := M + 1) (by omega) (by omega) h1
      omega

/-- The cache state an accepted `Store` of the event with index `M + 1` leaves. -/
theorem store_accept {W : Type} (hN : 1 ≤ N) (h : Retained N M ev c) (e : Event)
    (he : e.Index = M + 1) (hM : M + 1 < 2 ^ 64) (onSuccess : OnStoreSuccess W) (w : W) :
    Retained N (M + 1) (Function.update ev (M + 1) e) (c.Store e onSuccess w).cache ∧
      (c.Store e onSuccess w).result
        = (match onSuccess with
          | none => StoreReturn.panic Panic.nilFuncCall
          | some _ => StoreReturn.nil) := by
  have hcur := h.currentIndex_eq hN
  have hexp : (M + 1) % 2 ^ 64 = e.Index := by rw [he]; exact Nat.mod_eq_of_lt hM
  have hsize : c.LogSize ≠ 0 := by rw [h.size]; omega
  have hle : M % N ≤ M := Nat.mod_le M N
  have htarget : ((c.HeadLogIndex + 1) % 2 ^ 64) % c.LogSize = (M + 1) % N := by
    rw [h.head, h.size, Nat.mod_eq_of_lt (a := M % N + 1) (by omega), Nat.mod_add_mod]
  have hprev := h.prevKey hN
  have hlt : (M + 1) % N < N := Nat.mod_lt _ hN
  -- the state after the store
  have key : ∀ c' : LoggingEventCache,
      c' = { HeadLogIndex := (M + 1) % N, LogSize := c.LogSize,
             Log := c.Log.set ((M + 1) % N) e.Index,
             Events := GoMap.set
               (if (if N ≤ M then M + 1 - N else 0) ≠ 0 then
                  GoMap.delete c.Events (if N ≤ M then M + 1 - N else 0)
                else c.Events) e.Index e } →
      Retained N (M + 1) (Function.update ev (M + 1) e) c' := by
    rintro c' rfl
    refine ⟨h.size, by simp [h.len], rfl, ?_, ?_, ?_⟩
    · intro i v hv hv0
      simp only [List.getElem?_set] at hv
      split at hv
      · split at hv
        · cases hv
          rename_i h1 _
          exact ⟨by rw [he]; exact h1, by omega, by omega⟩
        · cases hv
      · rename_i hne
        obtain ⟨h1, h2, h3⟩ := h.slot_val i v hv hv0
        refine ⟨h1, by omega, ?_⟩
        by_contra hcon
        have hv' : v + N = M + 1 := by omega
        apply hne
        rw [← hv', Nat.add_mod_right, h1]
    · intro j hj1 hj2 hj3
      simp only [List.getElem?_set]
      by_cases hj : j = M + 1
      · subst hj
        rw [if_pos rfl, if_pos (by rw [h.len]; exact hlt), he]
      · have hne : ¬ (M + 1) % N = j % N := by
          intro hcon
          have := eq_of_mod_eq_of_lt (N := N) (a := j) (b := M + 1) (by omega) (by omega)
            hcon.symm
          exact hj this
        rw [if_neg hne]
        exact h.slot_of j hj1 (by omega) (by omega)
    · show GoMap.set _ _ _ = _
      rw [h.events]
      by_cases hNM : N ≤ M
      · simp only [if_pos hNM]
        rw [if_pos (by omega)]
        have hmin : min M N = (N - 1) + 1 := by rw [Nat.min_eq_right hNM]; omega
        have hmin' : min (M + 1) N = (N - 1) + 1 := by
          rw [Nat.min_eq_right (by omega)]; omega
        have hlo : M + 1 - ((N - 1) + 1) + 1 = M + 1 + 1 - ((N - 1) + 1) := by omega
        rw [hmin, hmin', show M + 1 - ((N - 1) + 1) = M + 1 - N by omega,
          GoMap.delete_range_map]
        have hidx : e.Index = (M + 1 - N + 1) + (N - 1) := by omega
        rw [hidx, GoMap.set_range_map]
        have h2 : M + 1 - N + 1 + (N - 1) = M + 1 := by omega
        have h3 : M + 1 + 1 - (N - 1 + 1) = M + 1 - N + 1 := by omega
        rw [h2, h3]
      · simp only [if_neg hNM]
        rw [if_neg (by simp)]
        have hmin : min M N = M := Nat.min_eq_left (by omega)
        have hmin' : min (M + 1) N = M + 1 := Nat.min_eq_left (by omega)
        rw [hmin, hmin', show M + 1 - M = 1 by omega, show M + 1 + 1 - (M + 1) = 1 by omega]
        have hidx : e.Index = 1 + M := by omega
        rw [hidx, GoMap.set_range_map, show 1 + M = M + 1 by omega]
  unfold LoggingEventCache.Store
  rw [hcur]
  simp only [hexp, ne_eq, not_true_eq_false, decide_False, Bool.and_false, Bool.false_eq_true,
    if_false, hsize, htarget, hprev]
  cases onSuccess with
  | none => exact ⟨key _ rfl, rfl⟩
  | some cb => exact ⟨key _ rfl, rfl⟩

end Retained

/-! ### Sequences of calls -/

/-- Running two call sequences one after the other. -/
theorem runStores_append {C W : Type}
    (store : C → Event → OnStoreSuccess W → W → StoreOutcome C W)
    (l1 l2 : List (Event × OnStoreSuccess W)) (c : C) (w : W) :
    runStores store c w (l1 ++ l2)
      = ((runStores store (runStores store c w l1).1 (runStores store c w l1).2.1 l2).1,
         (runStores store (runStores store c w l1).1 (runStores store c w l1).2.1 l2).2.1,
         (runStores store c w l1).2.2
           ++ (runStores store (runStores store c w l1).1 (runStores store c w l1).2.1 l2).2.2) := by
  induction l1 generalizing c w with
  | nil => rfl
  | cons a l1 ih =>
    obtain ⟨e, cb⟩ := a
    simp only [List.cons_append, runStores, List.append_eq, ih]

/-- The calls for `1..M+1` are the calls for `1..M` followed by the call for `M+1`. -/
theorem storesUpTo_succ {W : Type} (p : Nat → Nat) (cb : Nat → Nat → Event → W → W) (M : Nat) :
    storesUpTo p cb (M + 1)
      = storesUpTo p cb M ++ [({ Index := M + 1, Payload := p (M + 1) }, some (cb (M + 1)))] := by
  simp only [storesUpTo, eventsUpTo, List.range'_concat, List.map_append, List.map_cons,
    List.map_nil, Nat.one_mul, Nat.add_comm 1 M]

/-- A prefix of a run of consecutive numbers. -/
theorem take_range_from (s : Nat) {j n : Nat} (h : j ≤ n) :
    (List.range' s n).take j = List.range' s j := by
  induction j generalizing s n with
  | zero => rfl
  | succ j ih =>
    obtain ⟨n, rfl⟩ : ∃ n', n = n' + 1 := ⟨n - 1, by omega⟩
    simp only [List.range'_succ, List.take_succ_cons, ih (s + 1) (Nat.le_of_succ_le_succ h)]

/-- The first `j` calls of `storesUpTo p cb M`. -/
theorem storesUpTo_take {W : Type} (p : Nat → Nat) (cb : Nat → Nat → Event → W → W) {j M : Nat}
    (h : j ≤ M) : (storesUpTo p cb M).take j = storesUpTo p cb j := by
  simp only [storesUpTo, eventsUpTo, ← List.map_take, take_range_from 1 h]

/-- The invariant only reads the events with indices `1..M`. -/
theorem Retained.congr {N M : Nat} {ev ev' : Nat → Event} {c : LoggingEventCache}
    (h : Retained N M ev c) (hev : ∀ j, 1 ≤ j → j ≤ M → ev j = ev' j) :
    Retained N M ev' c := by
  refine ⟨h.size, h.len, h.head, h.slot_val, h.slot_of, ?_⟩
  rw [h.events]
  apply List.map_congr_left
  intro j hj
  simp only [List.mem_range'_1] at hj
  rw [hev j (by omega) (by omega)]

/-- The state of a fresh retaining log of capacity `N` after the calls
`storesUpTo p cb M`, and how those calls ended. -/
theorem retained_storesUpTo {W : Type} {N : Nat} (hN : 1 ≤ N) (p : Nat → Nat)
    (cb : Nat → Nat → Event → W → W) (w : W) (M : Nat) (hM : M < 2 ^ 64) :
    Retained N M (fun j => { Index := j, Payload := p j })
        (runStores LoggingEventCache.Store (NewLoggingEventCache N) w (storesUpTo p cb M)).1 ∧
      (runStores LoggingEventCache.Store (NewLoggingEventCache N) w (storesUpTo p cb M)).2.2
        = List.replicate M StoreReturn.nil := by
  induction M with
  | zero => exact ⟨retained_new N _, rfl⟩
  | succ M ih =>
    obtain ⟨ih1, ih2⟩ := ih (by omega)
    rw [storesUpTo_succ, runStores_append]
    have hstep := ih1.store_accept hN { Index := M + 1, Payload := p (M + 1) } rfl hM (some (cb (M + 1)))
      (runStores LoggingEventCache.Store (NewLoggingEventCache N) w (storesUpTo p cb M)).2.1
    constructor
    · refine hstep.1.congr ?_
      intro j _ _
      by_cases hj : j = M + 1
      · subst hj; simp
      · simp [Function.update_noteq hj]
    · simp only [runStores, ih2, hstep.2, List.replicate_succ']

/-- The state of a fresh tracking-only log after the calls `storesUpTo p cb M`. -/
theorem forgetful_storesUpTo {W : Type} (p : Nat → Nat) (cb : Nat → Nat → Event → W → W) (w : W)
    (M : Nat) (hM : M < 2 ^ 64) :
    (runStores ForgetfulEventCache.Store NewForgetfulEventCache w (storesUpTo p cb M)).1
        = { index := if M = 0 then none else some M } ∧
      (runStores ForgetfulEventCache.Store NewForgetfulEventCache w (storesUpTo p cb M)).2.2
        = List.replicate M StoreReturn.nil := by
  induction M with
  | zero => exact ⟨rfl, rfl⟩
  | succ M ih =>
    obtain ⟨ih1, ih2⟩ := ih (by omega)
    rw [storesUpTo_succ, runStores_append]
    simp only [runStores, ih1, ih2, List.replicate_succ']
    by_cases h0 : M = 0
    · subst h0
      simp [ForgetfulEventCache.Store]
    · have hmod : (M + 1) % 2 ^ 64 = M + 1 := Nat.mod_eq_of_lt hM
      simp only [ForgetfulEventCache.Store, if_neg h0, hmod, ne_eq, not_true_eq_false,
        if_false, Nat.succ_ne_zero, and_self]

/-! ### Rejected calls -/

/-- The tracking-only log rejects an event that does not follow the current index. -/
theorem forgetful_store_reject {W : Type} (cache : ForgetfulEventCache) (c : Nat)
    (e : Event) (onSuccess : OnStoreSuccess W) (w : W) (hcur : cache.CurrentIndex = (c, true))
    (hne : e.Index ≠ (c + 1) % 2 ^ 64) :
    (cache.Store e onSuccess w).result
        = StoreReturn.err
            { currentIndex := c, expectedIndex := (c + 1) % 2 ^ 64, receivedIndex := e.Index } ∧
      (cache.Store e onSuccess w).calls = [] ∧
      (cache.Store e onSuccess w).world = w ∧
      (cache.Store e onSuccess w).cache = cache := by
  cases hidx : cache.index with
  | none => simp [ForgetfulEventCache.CurrentIndex, hidx] at hcur
  | some i =>
    simp only [ForgetfulEventCache.CurrentIndex, hidx, Prod.mk.injEq, and_true] at hcur
    subst hcur
    have hne' : (i + 1) % 2 ^ 64 ≠ e.Index := fun h => hne h.symm
    simp only [ForgetfulEventCache.Store, hidx, hne', ne_eq, not_false_eq_true, if_true,
      and_self]

/-- The retaining log rejects an event that does not follow the current index. -/
theorem logging_store_reject {W : Type} (cache : LoggingEventCache) (c : Nat)
    (e : Event) (onSuccess : OnStoreSuccess W) (w : W)
    (hcur : cache.currentIndex = Go.ret (c, true)) (hne : e.Index ≠ (c + 1) % 2 ^ 64) :
    (cache.Store e onSuccess w).result
        = StoreReturn.err
            { currentIndex := c, expectedIndex := (c + 1) % 2 ^ 64, receivedIndex := e.Index } ∧
      (cache.Store e onSuccess w).calls = [] ∧
      (cache.Store e onSuccess w).world = w ∧
      (cache.Store e onSuccess w).cache = cache := by
  have hne' : (c + 1) % 2 ^ 64 ≠ e.Index := fun h => hne h.symm
  simp only [LoggingEventCache.Store, hcur, Bool.true_and, hne', ne_eq, not_false_eq_true,
    decide_True, if_true, and_self]

/-- Every sequence of `Store` calls takes a retained-window state to a
retained-window state, as long as fewer than `2 ^ 64` events are accepted. -/
theorem retained_runStores {W : Type} {N : Nat} (hN : 1 ≤ N)
    (calls : List (Event × OnStoreSuccess W)) :
    ∀ (c : LoggingEventCache) (M : Nat) (ev : Nat → Event) (w : W),
      Retained N M ev c → M + calls.length < 2 ^ 64 →
      ∃ M' ev', M' ≤ M + calls.length ∧
        Retained N M' ev' (runStores LoggingEventCache.Store c w calls).1 := by
  induction calls with
  | nil => intro c M ev w h _; exact ⟨M, ev, le_refl _, h⟩
  | cons a rest ih =>
    intro c M ev w h hlen
    obtain ⟨e, cb⟩ := a
    simp only [List.length_cons] at hlen
    simp only [runStores]
    by_cases he : e.Index = M + 1
    · obtain ⟨hacc, _⟩ := h.store_accept hN e he (by omega) cb w
      obtain ⟨M', ev', hM', hR⟩ := ih _ (M + 1) _ (c.Store e cb w).world hacc (by omega)
      exact ⟨M', ev', by simp only [List.length_cons]; omega, hR⟩
    · have hmod : (M + 1) % 2 ^ 64 = M + 1 := Nat.mod_eq_of_lt (by omega)
      obtain ⟨_, _, _, hsame⟩ :=
        logging_store_reject c M e cb w (h.currentIndex_eq hN) (by rw [hmod]; exact he)
      rw [hsame]
      obtain ⟨M', ev', hM', hR⟩ := ih c M ev (c.Store e cb w).world h (by omega)
      exact ⟨M', ev', by simp only [List.length_cons]; omega, hR⟩

/-- The event map of a retained-window state holds exactly the indices of the window. -/
theorem Retained.get_events {N M : Nat} {ev : Nat → Event} {c : LoggingEventCache}
    (h : Retained N M ev c) (k : Nat) :
    GoMap.get c.Events k = if 1 ≤ k ∧ M < k + N ∧ k ≤ M then some (ev k) else none := by
  rw [h.events, GoMap.get_range_map]
  by_cases hk : 1 ≤ k ∧ M < k + N ∧ k ≤ M
  · rw [if_pos hk, if_pos (by omega)]
  · rw [if_neg hk, if_neg (by omega)]

/-- Size of the event map and agreement of its keys with the slot array. -/
theorem Retained.map_slots {N M : Nat} {ev : Nat → Event} {c : LoggingEventCache}
    (h : Retained N M ev c) :
    GoMap.len c.Events ≤ N ∧ (GoMap.keys c.Events).Nodup ∧
      (∀ v ∈ c.Log, v ≠ 0 → GoMap.has c.Events v = true) ∧
      (∀ k, GoMap.has c.Events k = true → k ∈ c.Log) := by
  refine ⟨?_, ?_, ?_, ?_⟩
  · simp only [GoMap.len, h.events, List.length_map, List.length_range']
    exact Nat.min_le_right M N
  · simp only [GoMap.keys, h.events, List.map_map]
    have : (Prod.fst ∘ fun j => (j, ev j)) = id := rfl
    rw [this, List.map_id]
    exact List.nodup_range' _ _
  · intro v hv hv0
    obtain ⟨i, hi⟩ := List.mem_iff_getElem?.mp hv
    obtain ⟨_, h2, h3⟩ := h.slot_val i v hi hv0
    simp only [GoMap.has, h.get_events]
    rw [if_pos ⟨by omega, h3, h2⟩]
    rfl
  · intro k hk
    simp only [GoMap.has, h.get_events] at hk
    split at hk
    · rename_i hk'
      exact List.getElem?_mem (h.slot_of k hk'.1 hk'.2.2 hk'.2.1)
    · cases hk

/-- On a fresh retaining log of capacity at least 1, `currentIndex` returns `(0, true)`. -/
theorem new_currentIndex (N : Nat) :
    (NewLoggingEventCache (N + 1)).currentIndex = Go.ret (0, true) :=
  (retained_new (N + 1) (fun j => { Index := j, Payload := 0 })).currentIndex_eq (by omega)

/-! ### Replay -/


/-- The slot search finds the one slot that holds the index. -/
theorem findLogIndex_eq_some (x : Nat) (l : List Nat) :
    ∀ i, l[i]? = some x → (∀ i', l[i']? = some x → i' = i) → findLogIndex x l = some i := by
  induction l with
  | nil => intro i h; simp at h
  | cons a l ih =>
    intro i h huniq
    by_cases ha : a = x
    · subst ha
      have : 0 = i := huniq 0 (by simp)
      subst this
      simp [findLogIndex]
    · cases i with
      | zero =>
        simp only [List.getElem?_cons_zero, Option.some.injEq] at h
        exact absurd h ha
      | succ i0 =>
        simp only [List.getElem?_cons_succ] at h
        have := ih i0 h (fun i' hi' => by
          have := huniq (i' + 1) (by simpa using hi')
          omega)
        simp [findLogIndex, ha, this]

/-- A slice of the slot array whose slots hold consecutive indices. -/
theorem slice_eq_range (l : List Nat) (s n a : Nat)
    (h : ∀ t, t < n → l[s + t]? = some (a + t)) :
    (l.drop s).take n = List.range' a n := by
  apply List.ext_getElem?
  intro t
  by_cases ht : t < n
  · rw [List.getElem?_take_of_lt ht, List.getElem?_drop, h t ht, List.getElem?_range' _ _ ht]
    simp
  · have h1 : ((l.drop s).take n)[t]? = none := by
      rw [List.getElem?_eq_none_iff]
      simp only [List.length_take, List.length_drop]
      omega
    have h2 : (List.range' a n)[t]? = none := by
      rw [List.getElem?_eq_none_iff]
      simp only [List.length_range']
      omega
    rw [h1, h2]

/-- Positions of two indices less than `N` apart in a circular array of `N` slots. -/
theorem window_arith {N k M : Nat} (hN : 1 ≤ N) (hkM : k < M) (hMk : M < k + N) :
    (k % N < M % N ∧ M - k = M % N - k % N) ∨
      (M % N < k % N ∧ M - k = (N - k % N) + M % N) := by
  have hk := Nat.div_add_mod k N
  have hM := Nat.div_add_mod M N
  have hs := Nat.mod_lt k hN
  have hh := Nat.mod_lt M hN
  rcases Nat.lt_trichotomy (k / N) (M / N) with hlt | heq | hgt
  · by_cases h2 : M / N = k / N + 1
    · rw [h2, Nat.mul_succ] at hM
      right
      omega
    · have h3 : k / N + 2 ≤ M / N := by omega
      have h4 := Nat.mul_le_mul_left N h3
      rw [Nat.mul_add, Nat.mul_two] at h4
      omega
  · rw [heq] at hk
    left
    omega
  · have h3 : M / N + 1 ≤ k / N := by omega
    have h4 := Nat.mul_le_mul_left N h3
    rw [Nat.mul_succ] at h4
    omega

/-- Moving right in the array without passing its end. -/
theorem mod_add_of_lt {N k t : Nat} (h : k % N + t < N) : (k + t) % N = k % N + t := by
  rw [Nat.add_mod, Nat.mod_eq_of_lt (a := t) (by omega), Nat.mod_eq_of_lt h]

/-- Moving right in the array past its end. -/
theorem mod_add_wrap {N k t : Nat} (hN : 1 ≤ N) (ht : t < N) :
    (k + (N - k % N) + t) % N = t := by
  have hk := Nat.div_add_mod k N
  have hs := Nat.mod_lt k hN
  have : k + (N - k % N) + t = N * (k / N + 1) + t := by
    rw [Nat.mul_succ]
    omega
  rw [this, Nat.mul_add_mod, Nat.mod_eq_of_lt ht]

/-- What `ReplayFrom` returns for a retained start index: the retained events
from the start index itself up to, and not including, the head. -/
theorem Retained.replayFrom {N M : Nat} {ev : Nat → Event} {c : LoggingEventCache}
    (hN : 1 ≤ N) (h : Retained N M ev c) (k : Nat) (hk1 : 1 ≤ k) (hkN : M < k + N)
    (hkM : k ≤ M) :
    c.ReplayFrom k = Go.ret ((List.range' k (M - k)).map (fun j => some (ev j)), true) := by
  have hget : GoMap.get c.Events k = some (ev k) := by
    rw [h.get_events, if_pos ⟨hk1, hkN, hkM⟩]
  have hfind : findLogIndex k c.Log = some (k % N) := by
    apply findLogIndex_eq_some k c.Log (k % N) (h.slot_of k hk1 hkM hkN)
    intro i' hi'
    exact ((h.slot_val i' k hi' (by omega)).1).symm
  have hmap : ∀ n, k + n ≤ M →
      (List.range' k n).map (GoMap.get c.Events)
        = (List.range' k n).map (fun j => some (ev j)) := by
    intro n hn
    apply List.map_congr_left
    intro j hj
    simp only [List.mem_range'_1] at hj
    rw [h.get_events, if_pos ⟨by omega, by omega, by omega⟩]
  have hs := Nat.mod_lt k hN
  have hh := Nat.mod_lt M hN
  unfold LoggingEventCache.ReplayFrom
  rw [hget, hfind, h.head]
  simp only
  by_cases hkeq : k = M
  · subst hkeq
    simp
  · have hlt : k < M := by omega
    rcases window_arith hN hlt hkN with ⟨hsh, hlen⟩ | ⟨hsh, hlen⟩
    · rw [if_neg (by omega), if_pos hsh, if_neg (by rw [h.len]; omega)]
      have hslice : (c.Log.drop (k % N)).take (M % N - k % N) = List.range' k (M - k) := by
        rw [hlen]
        apply slice_eq_range
        intro t ht
        have := h.slot_of (k + t) (by omega) (by omega) (by omega)
        rwa [mod_add_of_lt (by omega)] at this
      rw [hslice, hmap (M - k) (by omega)]
    · rw [if_neg (by omega), if_neg (by omega)]
      have hdrop : c.Log.drop (k % N) = List.range' k (N - k % N) := by
        have h1 : c.Log.drop (k % N) = (c.Log.drop (k % N)).take (N - k % N) := by
          rw [List.take_of_length_le]
          simp only [List.length_drop, h.len]
          exact le_refl _
        rw [h1]
        apply slice_eq_range
        intro t ht
        have := h.slot_of (k + t) (by omega) (by omega) (by omega)
        rwa [mod_add_of_lt (by omega)] at this
      have htake : c.Log.take (M % N) = List.range' (k + (N - k % N)) (M % N) := by
        have h1 : c.Log.take (M % N) = (c.Log.drop 0).take (M % N) := by rw [List.drop_zero]
        rw [h1]
        apply slice_eq_range
        intro t ht
        have := h.slot_of (k + (N - k % N) + t) (by omega) (by omega) (by omega)
        rw [mod_add_wrap hN (by omega)] at this
        rw [Nat.zero_add]
        exact this
      have happ : List.range' k (N - k % N) ++ List.range' (k + (N - k % N)) (M % N)
          = List.range' k (M - k) := by
        rw [hlen, Nat.add_comm (N - k % N) (M % N)]
        have := List.range'_append k (N - k % N) (M % N) 1
        simp only [Nat.one_mul] at this
        exact this
      rw [hdrop, htake, happ, hmap (M - k) (by omega)]

/-- After storing the events `1..M` on a fresh retaining log of capacity `N`,
`ReplayFrom(k)` for a retained `k` returns the events with indices
`k, ..., M - 1`. -/
theorem replayFrom_storesUpTo {W : Type} {N : Nat} (hN : 1 ≤ N) (p : Nat → Nat)
    (cb : Nat → Nat → Event → W → W) (w : W) (M k : Nat) (hM : M < 2 ^ 64) (hk1 : 1 ≤ k)
    (hkN : M < k + N) (hkM : k ≤ M) :
    (runStores LoggingEventCache.Store (NewLoggingEventCache N) w
        (storesUpTo p cb M)).1.ReplayFrom k
      = Go.ret ((List.range' k (M - k)).map (fun j => some { Index := j, Payload := p j }),
          true) :=
  (retained_storesUpTo hN p cb w M hM).1.replayFrom hN k hk1 hkN hkM

/-! ### Lemmas on Go maps, continued -/

/-- Lookup after an entry is appended. -/
theorem GoMap.get_append_single {κ ν : Type} [DecidableEq κ] (m : GoMap κ ν) (k k' : κ) (v : ν) :
    GoMap.get (m ++ [(k, v)]) k'
      = match GoMap.get m k' with
        | some x => some x
        | none => if k = k' then some v else none := by
  induction m with
  | nil => simp [GoMap.get]
  | cons a m ih =>
    obtain ⟨a1, a2⟩ := a
    simp only [List.cons_append, GoMap.get]
    by_cases h : a1 = k'
    · simp [h]
    · simp only [h, if_false]
      exact ih

/-- Lookup after the entries of one key are filtered out. -/
theorem GoMap.get_filter_ne {κ ν : Type} [DecidableEq κ] (m : GoMap κ ν) (k k' : κ) :
    GoMap.get (m.filter (fun p => decide (p.1 ≠ k))) k'
      = if k' = k then none else GoMap.get m k' := by
  induction m with
  | nil => simp [GoMap.get]
  | cons a m ih =>
    obtain ⟨a1, a2⟩ := a
    by_cases h : a1 = k
    · subst h
      simp only [List.filter_cons, ne_eq, not_true_eq_false, decide_False, Bool.false_eq_true,
        if_false, ih, GoMap.get]
      by_cases h2 : k' = a1
      · simp [h2]
      · have : ¬ a1 = k' := fun h3 => h2 h3.symm
        simp [h2, this]
    · simp only [List.filter_cons, ne_eq, h, not_false_eq_true, decide_True, if_true, GoMap.get,
        ih]
      by_cases h2 : a1 = k'
      · subst h2
        simp [h]
      · simp [h2]

/-- Lookup after `delete(m, k)`. -/
theorem GoMap.get_delete {κ ν : Type} [DecidableEq κ] (m : GoMap κ ν) (k k' : κ) :
    GoMap.get (GoMap.delete m k) k' = if k' = k then none else GoMap.get m k' :=
  GoMap.get_filter_ne m k k'

/-- Lookup after `m[k] = v`. -/
theorem GoMap.get_set {κ ν : Type} [DecidableEq κ] (m : GoMap κ ν) (k k' : κ) (v : ν) :
    GoMap.get (GoMap.set m k v) k' = if k' = k then some v else GoMap.get m k' := by
  unfold GoMap.set
  rw [GoMap.get_append_single, GoMap.get_filter_ne]
  by_cases h : k' = k
  · subst h; simp
  · have h' : ¬ k = k' := fun h3 => h h3.symm
    simp only [h, h', if_false]
    cases GoMap.get m k' <;> rfl

/-- Lookup after `Upsert`. -/
theorem GoMap.get_upsert {κ ν : Type} [DecidableEq κ] (m : GoMap κ ν) (zero : ν) (k k' : κ)
    (value : ν) (cb : Bool → ν → ν → ν) :
    GoMap.get (GoMap.upsert m zero k value cb) k'
      = if k' = k then
          some (match GoMap.get m k with
            | some v => cb true v value
            | none => cb false zero value)
        else GoMap.get m k' := by
  unfold GoMap.upsert
  cases h : GoMap.get m k <;> simp [GoMap.get_set]

/-- A key is absent exactly when no entry carries it. -/
theorem GoMap.get_eq_none_iff {κ ν : Type} [DecidableEq κ] (m : GoMap κ ν) (k : κ) :
    GoMap.get m k = none ↔ ∀ p ∈ m, p.1 ≠ k := by
  induction m with
  | nil => simp [GoMap.get]
  | cons a m ih =>
    obtain ⟨a1, a2⟩ := a
    unfold GoMap.get
    by_cases h : a1 = k
    · simp [h]
    · simp [h, ih]

/-- Deleting an absent key changes nothing. -/
theorem GoMap.delete_of_get_none {κ ν : Type} [DecidableEq κ] (m : GoMap κ ν) (k : κ)
    (h : GoMap.get m k = none) : GoMap.delete m k = m := by
  unfold GoMap.delete
  rw [List.filter_eq_self]
  intro p hp
  simpa using (GoMap.get_eq_none_iff m k).mp h p hp

/-- Deleting a list of keys one after the other. -/
theorem GoMap.foldl_delete {κ ν : Type} [DecidableEq κ] (toks : List κ) (m : GoMap κ ν) :
    toks.foldl GoMap.delete m = m.filter (fun p => decide (p.1 ∉ toks)) := by
  induction toks generalizing m with
  | nil => simp
  | cons t ts ih =>
    rw [List.foldl_cons, ih, GoMap.delete, List.filter_filter]
    apply List.filter_congr
    intro p _
    by_cases h1 : p.1 = t <;> by_cases h2 : p.1 ∈ ts <;> simp [h1, h2]

/-- In a map with distinct keys an entry is determined by its key. -/
theorem GoMap.eq_of_key_eq {κ ν : Type} (m : GoMap κ ν)
    (hnodup : (GoMap.keys m).Nodup) {p q : κ × ν} (hp : p ∈ m) (hq : q ∈ m)
    (h : p.1 = q.1) : p = q :=
  List.inj_on_of_nodup_map hnodup hp hq h

/-- Deleting the keys of the entries selected by `rm` keeps the other entries. -/
theorem GoMap.filter_keys_of_filter {κ ν : Type} [DecidableEq κ] (m : GoMap κ ν)
    (hnodup : (GoMap.keys m).Nodup) (rm : κ × ν → Bool) :
    m.filter (fun p => decide (p.1 ∉ (m.filter rm).map Prod.fst)) = m.filter (fun p => !rm p) := by
  apply List.filter_congr
  intro p hp
  by_cases hr : rm p = true
  · have : p.1 ∈ (m.filter rm).map Prod.fst :=
      List.mem_map.mpr ⟨p, List.mem_filter.mpr ⟨hp, hr⟩, rfl⟩
    simp [hr, this]
  · have : p.1 ∉ (m.filter rm).map Prod.fst := by
      intro hmem
      obtain ⟨q, hq, hqp⟩ := List.mem_map.mp hmem
      obtain ⟨hqm, hqr⟩ := List.mem_filter.mp hq
      have := GoMap.eq_of_key_eq m hnodup hqm hp hqp
      subst this
      exact hr hqr
    simp [hr, this]

/-- Lookup in a filtered map with distinct keys. -/
theorem GoMap.get_filter {κ ν : Type} [DecidableEq κ] (m : GoMap κ ν)
    (hnodup : (GoMap.keys m).Nodup) (keep : κ × ν → Bool) (k : κ) :
    GoMap.get (m.filter keep) k
      = match GoMap.get m k with
        | some v => if keep (k, v) then some v else none
        | none => none := by
  induction m with
  | nil => simp [GoMap.get]
  | cons a m ih =>
    obtain ⟨a1, a2⟩ := a
    have hnd : (GoMap.keys m).Nodup := (List.nodup_cons.mp hnodup).2
    have hnotin : a1 ∉ GoMap.keys m := (List.nodup_cons.mp hnodup).1
    by_cases h : a1 = k
    · subst h
      have hnone : GoMap.get (m.filter keep) a1 = none := by
        rw [GoMap.get_eq_none_iff]
        intro p hp hpk
        exact hnotin (List.mem_map.mpr ⟨p, (List.mem_filter.mp hp).1, hpk⟩)
      by_cases hk : keep (a1, a2) = true
      · simp [List.filter_cons, hk, GoMap.get]
      · simp [List.filter_cons, hk, GoMap.get, hnone]
    · by_cases hk : keep (a1, a2) = true
      · simp only [List.filter_cons, hk, if_true, GoMap.get, h, if_false]
        exact ih hnd
      · simp only [List.filter_cons, hk, Bool.false_eq_true, if_false, GoMap.get, h]
        exact ih hnd

/-- A successful lookup returns an entry of the map. -/
theorem GoMap.mem_of_get {κ ν : Type} [DecidableEq κ] (m : GoMap κ ν) (k : κ) (v : ν)
    (h : GoMap.get m k = some v) : (k, v) ∈ m := by
  induction m with
  | nil => simp [GoMap.get] at h
  | cons a m ih =>
    obtain ⟨a1, a2⟩ := a
    unfold GoMap.get at h
    by_cases hk : a1 = k
    · simp only [hk, if_true, Option.some.injEq] at h
      subst hk; subst h
      exact List.mem_cons_self _ _
    · simp only [hk, if_false] at h
      exact List.mem_cons_of_mem _ (ih h)

/-! ### The event emitter and the session maps -/

/-- Calling a list of listeners one after the other. -/
theorem foldl_invokeListener (ls : List Listener) (sm : ManagerImpl) :
    ls.foldl ManagerImpl.invokeListener sm
      = { sm with
          invoked := sm.invoked ++ ls
          spawned := sm.spawned
            ++ (ls.filter (fun l => l.async)).map (fun l => Spawned.callBack l.callBack l.token) } := by
  induction ls generalizing sm with
  | nil => simp
  | cons l ls ih =>
    rw [List.foldl_cons, ih]
    unfold ManagerImpl.invokeListener
    by_cases h : l.async = true
    · simp [h, List.filter_cons]
    · simp [h, List.filter_cons]

/-- What `Emit` changes: the listeners called and the goroutines started. -/
theorem emit_eq (sm : ManagerImpl) (eventName : String) :
    sm.Emit eventName
      = { sm with
          invoked := sm.invoked ++ (GoMap.get sm.listeners eventName).getD []
          spawned := sm.spawned
            ++ (((GoMap.get sm.listeners eventName).getD []).filter (fun l => l.async)).map
                (fun l => Spawned.callBack l.callBack l.token) } := by
  unfold ManagerImpl.Emit
  rw [foldl_invokeListener]

/-- The session map after `RemoveApiSession`. -/
theorem removeApiSession_map (sm : ManagerImpl) (token : String) :
    (sm.RemoveApiSession token).apiSessionsByToken
      = GoMap.delete sm.apiSessionsByToken token := by
  unfold ManagerImpl.RemoveApiSession
  cases h : GoMap.get sm.apiSessionsByToken token with
  | none => simp only [GoMap.delete_of_get_none _ _ h]
  | some ns => simp only [emit_eq, ManagerImpl.RemoveAllListeners]

/-- The session map after a run of `RemoveApiSession` calls. -/
theorem foldl_removeApiSession_map (toks : List String) (sm : ManagerImpl) :
    (toks.foldl ManagerImpl.RemoveApiSession sm).apiSessionsByToken
      = toks.foldl GoMap.delete sm.apiSessionsByToken := by
  induction toks generalizing sm with
  | nil => rfl
  | cons t ts ih => rw [List.foldl_cons, ih, removeApiSession_map, List.foldl_cons]

/-- The set `validTokens` holds the tokens of the known sessions. -/
theorem validTokens_has (known : List PbApiSession) (acc : GoMap String Bool) (t : String) :
    GoMap.has (known.foldl (fun m apiSession => GoMap.set m apiSession.Token true) acc) t = true
      ↔ GoMap.has acc t = true ∨ t ∈ known.map (fun s => s.Token) := by
  induction known generalizing acc with
  | nil => simp
  | cons s rest ih =>
    rw [List.foldl_cons, ih]
    simp only [GoMap.has, GoMap.get_set, List.map_cons, List.mem_cons]
    by_cases h : t = s.Token
    · simp [h]
    · simp [h]

/-- The method `RemoveApiSession` does nothing for a token that is not tracked. -/
theorem removeApiSession_untracked (sm : ManagerImpl) (token : String)
    (h : GoMap.get sm.apiSessionsByToken token = none) : sm.RemoveApiSession token = sm := by
  unfold ManagerImpl.RemoveApiSession
  simp only [h]

/-- The method `RemoveEdgeSession` does nothing for a token without listeners that
is not tracked. -/
theorem removeEdgeSession_idle (sm : ManagerImpl) (token : String) (now : Nat)
    (hl : GoMap.get sm.listeners (ManagerImpl.getEdgeSessionRemovedEventName token) = none)
    (hs : GoMap.get sm.sessions token = none) : sm.RemoveEdgeSession token now = sm := by
  unfold ManagerImpl.RemoveEdgeSession
  simp only [emit_eq, ManagerImpl.RemoveAllListeners, hl, hs, Option.getD_none, List.append_nil,
    List.filter_nil, List.map_nil, GoMap.delete_of_get_none _ _ hl]

/-- The state after two registrations of a network-session listener. -/
theorem twoEdgeListeners_eq (IsBearerToken : String → Bool) (sm : ManagerImpl) (token : String)
    (cb1 cb2 : Nat) (hb : IsBearerToken token = false)
    (ht : GoMap.has sm.recentlyRemovedSessions token = false) :
    twoEdgeListeners IsBearerToken sm token cb1 cb2
      = { sm with
          sessions :=
            GoMap.upsert
              (GoMap.upsert sm.sessions 0 token 0
                (fun exist valueInMap _newValue =>
                  if !exist then 1 else (valueInMap + 1) % 2 ^ 32))
              0 token 0
              (fun exist valueInMap _newValue => if !exist then 1 else (valueInMap + 1) % 2 ^ 32)
          nextId := sm.nextId + 2 + 2
          listeners :=
            GoMap.set
              (GoMap.set sm.listeners (ManagerImpl.getEdgeSessionRemovedEventName token)
                ((GoMap.get sm.listeners (ManagerImpl.getEdgeSessionRemovedEventName token)).getD []
                  ++ [{ id := sm.nextId, callBack := cb1, token := token, async := true }]))
              (ManagerImpl.getEdgeSessionRemovedEventName token)
              ((GoMap.get sm.listeners (ManagerImpl.getEdgeSessionRemovedEventName token)).getD []
                  ++ [{ id := sm.nextId, callBack := cb1, token := token, async := true }]
                  ++ [{ id := sm.nextId + 2, callBack := cb2, token := token, async := true }]) } := by
  simp only [twoEdgeListeners, ManagerImpl.AddEdgeSessionRemovedListener, hb, ht,
    Bool.false_eq_true, if_false, ManagerImpl.AddListener, GoMap.get_set, if_true,
    Option.getD_some]

/-- The event name of a token differs from the global event name. -/
theorem apiEventName_ne (token : String) :
    ManagerImpl.getApiSessionRemovedEventName token ≠ "RemovedApiSession" := by
  intro h
  have := congrArg String.length h
  simp only [ManagerImpl.getApiSessionRemovedEventName, String.length_append] at this
  have h1 : "-".length = 1 := by decide
  omega

/-- The listeners registered before under a name have identities below `nextId`. -/
theorem prior_ids_below (sm : ManagerImpl)
    (hfresh : ∀ p ∈ sm.listeners, ∀ l ∈ p.2, l.id < sm.nextId) (name : String) :
    ∀ l ∈ (GoMap.get sm.listeners name).getD [], l.id < sm.nextId := by
  intro l hl
  cases h : GoMap.get sm.listeners name with
  | none => simp [h] at hl
  | some ls =>
    simp only [h, Option.getD_some] at hl
    exact hfresh _ (GoMap.mem_of_get _ _ _ h) l hl

/-- Two new listeners each occur once among the listeners called. -/
theorem count_new_listeners (before after : List Listener) (l1 l2 : Listener) (n : Nat)
    (hb : ∀ l ∈ before, l.id < n) (ha : ∀ l ∈ after, l.id < n) (h1 : n ≤ l1.id)
    (h2 : n ≤ l2.id) (hne : l1.id ≠ l2.id) :
    (before ++ [l1, l2] ++ after).count l1 = 1 ∧ (before ++ [l1, l2] ++ after).count l2 = 1 := by
  have nb1 : l1 ∉ before := fun h => by have := hb l1 h; omega
  have nb2 : l2 ∉ before := fun h => by have := hb l2 h; omega
  have na1 : l1 ∉ after := fun h => by have := ha l1 h; omega
  have na2 : l2 ∉ after := fun h => by have := ha l2 h; omega
  have hne12 : l1 ≠ l2 := fun h => hne (by rw [h])
  have hne21 : l2 ≠ l1 := fun h => hne (by rw [h])
  simp only [List.count_append, List.count_eq_zero_of_not_mem nb1,
    List.count_eq_zero_of_not_mem nb2, List.count_eq_zero_of_not_mem na1,
    List.count_eq_zero_of_not_mem na2, List.count_cons, List.count_nil, beq_self_eq_true,
    if_true]
  simp [hne12, hne21]

/-- The API-session listeners of a tracked token: the first removal calls each
once and unregisters them, a second removal changes nothing. -/
theorem api_listeners_once (sm : ManagerImpl) (token : String) (cb1 cb2 : Nat)
    (ns : PbApiSession) (htracked : GoMap.get sm.apiSessionsByToken token = some ns)
    (hfresh : ∀ p ∈ sm.listeners, ∀ l ∈ p.2, l.id < sm.nextId) :
    ∃ d, ((twoApiListeners sm token cb1 cb2).RemoveApiSession token).invoked = sm.invoked ++ d ∧
      d.count { id := sm.nextId, callBack := cb1, token := token, async := false } = 1 ∧
      d.count { id := sm.nextId + 1, callBack := cb2, token := token, async := false } = 1 ∧
      GoMap.get ((twoApiListeners sm token cb1 cb2).RemoveApiSession token).listeners
        (ManagerImpl.getApiSessionRemovedEventName token) = none ∧
      ((twoApiListeners sm token cb1 cb2).RemoveApiSession token).RemoveApiSession token
        = (twoApiListeners sm token cb1 cb2).RemoveApiSession token := by
  have hne := apiEventName_ne token
  have hne' : ¬ "RemovedApiSession" = ManagerImpl.getApiSessionRemovedEventName token :=
    fun h => hne h.symm
  have hcount := count_new_listeners
    ((GoMap.get sm.listeners (ManagerImpl.getApiSessionRemovedEventName token)).getD [])
    ((GoMap.get sm.listeners "RemovedApiSession").getD [])
    { id := sm.nextId, callBack := cb1, token := token, async := false }
    { id := sm.nextId + 1, callBack := cb2, token := token, async := false } sm.nextId
    (prior_ids_below sm hfresh _) (prior_ids_below sm hfresh _) (le_refl _)
    (Nat.le_succ _) (by simp)
  have hfirst : (twoApiListeners sm token cb1 cb2).RemoveApiSession token
      = { sm with
          apiSessionsByToken := GoMap.delete sm.apiSessionsByToken token
          nextId := sm.nextId + 1 + 1
          listeners := GoMap.delete
            (GoMap.set
              (GoMap.set sm.listeners (ManagerImpl.getApiSessionRemovedEventName token)
                ((GoMap.get sm.listeners (ManagerImpl.getApiSessionRemovedEventName token)).getD []
                  ++ [{ id := sm.nextId, callBack := cb1, token := token, async := false }]))
              (ManagerImpl.getApiSessionRemovedEventName token)
              ((GoMap.get sm.listeners (ManagerImpl.getApiSessionRemovedEventName token)).getD []
                  ++ [{ id := sm.nextId, callBack := cb1, token := token, async := false }]
                  ++ [{ id := sm.nextId + 1, callBack := cb2, token := token, async := false }]))
            (ManagerImpl.getApiSessionRemovedEventName token)
          invoked := sm.invoked
            ++ ((GoMap.get sm.listeners (ManagerImpl.getApiSessionRemovedEventName token)).getD []
                ++ [{ id := sm.nextId, callBack := cb1, token := token, async := false },
                    { id := sm.nextId + 1, callBack := cb2, token := token, async := false }]
                ++ (GoMap.get sm.listeners "RemovedApiSession").getD [])
          spawned := sm.spawned
            ++ (((GoMap.get sm.listeners
                    (ManagerImpl.getApiSessionRemovedEventName token)).getD []).filter
                  (fun l => l.async)).map (fun l => Spawned.callBack l.callBack l.token)
            ++ (((GoMap.get sm.listeners "RemovedApiSession").getD []).filter
                  (fun l => l.async)).map (fun l => Spawned.callBack l.callBack l.token) } := by
    simp only [twoApiListeners, ManagerImpl.AddApiSessionRemovedListener,
      ManagerImpl.AddListener, ManagerImpl.RemoveApiSession, htracked, emit_eq,
      ManagerImpl.RemoveAllListeners, GoMap.get_set, GoMap.get_delete, if_true, hne', if_false,
      Option.getD_some, List.filter_append, List.map_append, List.filter_cons, List.filter_nil,
      Bool.false_eq_true, List.map_nil, List.append_nil, List.append_assoc, List.cons_append,
      List.nil_append]
  refine ⟨_, ?_, hcount.1, hcount.2, ?_, ?_⟩
  · rw [hfirst]
  · rw [hfirst]
    simp only [GoMap.get_delete, if_true]
  · have hnone : GoMap.get
        ((twoApiListeners sm token cb1 cb2).RemoveApiSession token).apiSessionsByToken token
        = none := by
      rw [hfirst]
      simp only [GoMap.get_delete, if_true]
    exact removeApiSession_untracked _ _ hnone

/-- The network-session listeners of a token that is neither a bearer token nor
tombstoned: the first removal calls each once and unregisters them, a second
removal changes nothing. -/
theorem edge_listeners_once (IsBearerToken : String → Bool) (sm : ManagerImpl)
    (token : String) (cb1 cb2 now now' : Nat) (hb : IsBearerToken token = false)
    (ht : GoMap.has sm.recentlyRemovedSessions token = false)
    (hfresh : ∀ p ∈ sm.listeners, ∀ l ∈ p.2, l.id < sm.nextId) :
    ∃ d, ((twoEdgeListeners IsBearerToken sm token cb1 cb2).RemoveEdgeSession token now).invoked
        = sm.invoked ++ d ∧
      d.count { id := sm.nextId, callBack := cb1, token := token, async := true } = 1 ∧
      d.count { id := sm.nextId + 2, callBack := cb2, token := token, async := true } = 1 ∧
      GoMap.get
        ((twoEdgeListeners IsBearerToken sm token cb1 cb2).RemoveEdgeSession token now).listeners
        (ManagerImpl.getEdgeSessionRemovedEventName token) = none ∧
      ((twoEdgeListeners IsBearerToken sm token cb1 cb2).RemoveEdgeSession token
          now).RemoveEdgeSession token now'
        = (twoEdgeListeners IsBearerToken sm token cb1 cb2).RemoveEdgeSession token now := by
  have hcount := count_new_listeners
    ((GoMap.get sm.listeners (ManagerImpl.getEdgeSessionRemovedEventName token)).getD []) []
    { id := sm.nextId, callBack := cb1, token := token, async := true }
    { id := sm.nextId + 2, callBack := cb2, token := token, async := true } sm.nextId
    (prior_ids_below sm hfresh _) (by simp) (le_refl _) (by simp) (by simp)
  rw [List.append_nil] at hcount
  have htwo := twoEdgeListeners_eq IsBearerToken sm token cb1 cb2 hb ht
  have hinv : ((twoEdgeListeners IsBearerToken sm token cb1 cb2).RemoveEdgeSession token
      now).invoked = sm.invoked
        ++ ((GoMap.get sm.listeners (ManagerImpl.getEdgeSessionRemovedEventName token)).getD []
          ++ [{ id := sm.nextId, callBack := cb1, token := token, async := true },
              { id := sm.nextId + 2, callBack := cb2, token := token, async := true }]) := by
    rw [htwo]
    unfold ManagerImpl.RemoveEdgeSession
    simp only [emit_eq, ManagerImpl.RemoveAllListeners, GoMap.get_set, if_true,
      Option.getD_some, GoMap.get_upsert]
    simp only [List.append_assoc, List.cons_append, List.nil_append]
  have hlis : GoMap.get
      ((twoEdgeListeners IsBearerToken sm token cb1 cb2).RemoveEdgeSession token now).listeners
      (ManagerImpl.getEdgeSessionRemovedEventName token) = none := by
    rw [htwo]
    unfold ManagerImpl.RemoveEdgeSession
    simp only [emit_eq, ManagerImpl.RemoveAllListeners, GoMap.get_set, if_true,
      Option.getD_some, GoMap.get_upsert, GoMap.get_delete]
  have hses : GoMap.get
      ((twoEdgeListeners IsBearerToken sm token cb1 cb2).RemoveEdgeSession token now).sessions
      token = none := by
    rw [htwo]
    unfold ManagerImpl.RemoveEdgeSession
    simp only [emit_eq, ManagerImpl.RemoveAllListeners, GoMap.get_set, if_true,
      Option.getD_some, GoMap.get_upsert, GoMap.get_delete]
  exact ⟨_, hinv, hcount.1, hcount.2, hlis, removeEdgeSession_idle _ _ _ hlis hses⟩

/-- The network-session listeners of a token in the recently-removed set: a
registration starts the callback in a goroutine and registers nothing, and a
removal that follows calls only the listeners registered before. -/
theorem edge_listener_tombstoned (IsBearerToken : String → Bool) (sm : ManagerImpl)
    (token : String) (cb1 cb2 now : Nat) (hb : IsBearerToken token = false)
    (ht : GoMap.has sm.recentlyRemovedSessions token = true)
    (hfresh : ∀ p ∈ sm.listeners, ∀ l ∈ p.2, l.id < sm.nextId) :
    sm.AddEdgeSessionRemovedListener IsBearerToken token cb1
        = ({ sm with spawned := sm.spawned ++ [Spawned.callBack cb1 token] },
            RemoveListener.noop) ∧
      twoEdgeListeners IsBearerToken sm token cb1 cb2
        = { sm with
            spawned := sm.spawned ++ [Spawned.callBack cb1 token, Spawned.callBack cb2 token] } ∧
      ((twoEdgeListeners IsBearerToken sm token cb1 cb2).RemoveEdgeSession token now).invoked
        = sm.invoked
          ++ (GoMap.get sm.listeners (ManagerImpl.getEdgeSessionRemovedEventName token)).getD [] ∧
      (∀ l ∈ ((GoMap.get sm.listeners (ManagerImpl.getEdgeSessionRemovedEventName token)).getD []),
        l.id < sm.nextId) := by
  have hone : ∀ (s : ManagerImpl) (cb : Nat), GoMap.has s.recentlyRemovedSessions token = true →
      s.AddEdgeSessionRemovedListener IsBearerToken token cb
        = ({ s with spawned := s.spawned ++ [Spawned.callBack cb token] },
            RemoveListener.noop) := by
    intro s cb hs
    unfold ManagerImpl.AddEdgeSessionRemovedListener
    rw [if_neg (by simp [hb]), if_pos hs]
  have htwo : twoEdgeListeners IsBearerToken sm token cb1 cb2
      = { sm with
          spawned := sm.spawned ++ [Spawned.callBack cb1 token, Spawned.callBack cb2 token] } := by
    unfold twoEdgeListeners
    rw [hone sm cb1 ht]
    simp only
    rw [hone _ cb2
      (show GoMap.has ({ sm with spawned := sm.spawned ++ [Spawned.callBack cb1 token] }
        : ManagerImpl).recentlyRemovedSessions token = true from ht)]
    simp only [List.append_assoc, List.cons_append, List.nil_append]
  refine ⟨hone sm cb1 ht, htwo, ?_, prior_ids_below sm hfresh _⟩
  rw [htwo]
  unfold ManagerImpl.RemoveEdgeSession
  simp only [emit_eq, ManagerImpl.RemoveAllListeners]
  cases GoMap.get sm.sessions token <;> rfl

/-! ### Key lookup -/

/-- The function `contains` decides membership. -/
theorem contains_eq_true {T : Type} [DecidableEq T] (values : List T) (element : T) :
    contains values element = true ↔ element ∈ values := by
  induction values with
  | nil => simp [contains]
  | cons a rest ih =>
    unfold contains
    by_cases h : a = element
    · simp [h]
    · have h' : ¬ element = a := fun h2 => h h2.symm
      simp [h, h', ih]

/-- A key returned by the lookup loop comes from a snapshot key with the wanted id
and the token-validation usage. -/
theorem pubKeyLookupLoop_ok (x : X509) (kid : String) (keys : List (String × PublicKey))
    (key : Nat) (h : ManagerImpl.pubKeyLookupLoop x kid keys = Except.ok key) :
    ∃ p ∈ keys, p.2.Kid = kid ∧ PublicKeyUsage.JWTValidation ∈ p.2.Usages ∧
      ManagerImpl.parsePublicKey x p.2 = Except.ok key := by
  induction keys with
  | nil => simp [ManagerImpl.pubKeyLookupLoop] at h
  | cons a rest ih =>
    obtain ⟨k, val⟩ := a
    unfold ManagerImpl.pubKeyLookupLoop at h
    by_cases hu : contains val.Usages PublicKeyUsage.JWTValidation = true
    · by_cases hk : kid = val.Kid
      · simp only [hu, hk, if_true] at h
        exact ⟨(k, val), List.mem_cons_self _ _, hk.symm, (contains_eq_true _ _).mp hu, h⟩
      · simp only [hu, hk, if_true, if_false] at h
        obtain ⟨p, hp, hrest⟩ := ih h
        exact ⟨p, List.mem_cons_of_mem _ hp, hrest⟩
    · simp only [hu, Bool.false_eq_true, if_false] at h
      obtain ⟨p, hp, hrest⟩ := ih h
      exact ⟨p, List.mem_cons_of_mem _ hp, hrest⟩

/-- Without such a snapshot key the lookup loop ends in "public key not found". -/
theorem pubKeyLookupLoop_not_found (x : X509) (kid : String)
    (keys : List (String × PublicKey))
    (h : ∀ p ∈ keys, ¬ (p.2.Kid = kid ∧ PublicKeyUsage.JWTValidation ∈ p.2.Usages)) :
    ManagerImpl.pubKeyLookupLoop x kid keys = Except.error KeyError.publicKeyNotFound := by
  induction keys with
  | nil => rfl
  | cons a rest ih =>
    obtain ⟨k, val⟩ := a
    have hrest := ih (fun p hp => h p (List.mem_cons_of_mem _ hp))
    have ha := h (k, val) (List.mem_cons_self _ _)
    unfold ManagerImpl.pubKeyLookupLoop
    by_cases hu : contains val.Usages PublicKeyUsage.JWTValidation = true
    · have hk : ¬ kid = val.Kid := fun hk => ha ⟨hk.symm, (contains_eq_true _ _).mp hu⟩
      simp only [hu, hk, if_true, if_false]
      exact hrest
    · simp only [hu, Bool.false_eq_true, if_false]
      exact hrest

/-! ### Strings, times and intervals -/

/-- Totality of the lexicographic comparison. -/
theorem lexLE_false (a b : List Char) (h : lexLE a b = false) : lexLE b a = true ∧ a ≠ b := by
  induction a generalizing b with
  | nil => simp [lexLE] at h
  | cons x xs ih =>
    cases b with
    | nil => exact ⟨rfl, by simp⟩
    | cons y ys =>
      unfold lexLE at h
      by_cases h1 : x.toNat < y.toNat
      · simp [h1] at h
      · by_cases h2 : y.toNat < x.toNat
        · refine ⟨by unfold lexLE; simp [h2], ?_⟩
          intro heq
          injection heq with hxy _
          rw [hxy] at h2
          exact Nat.lt_irrefl _ h2
        · simp only [h1, h2, if_false] at h
          obtain ⟨ih1, ih2⟩ := ih ys h
          refine ⟨by unfold lexLE; simp only [h1, h2, if_false]; exact ih1, ?_⟩
          intro heq
          injection heq with _ hrest
          exact ih2 hrest

/-- The comparison `a <= b` fails only when `b <= a` holds and the strings
differ, that is when `a` is strictly greater than `b`. -/
theorem stringLE_false (a b : String) (h : stringLE a b = false) :
    stringLE b a = true ∧ a ≠ b := by
  obtain ⟨h1, h2⟩ := lexLE_false a.toList b.toList h
  exact ⟨h1, fun heq => h2 (by rw [heq])⟩

/-- An entry removed more than five minutes ago passes the test of the sweep. -/
theorem timeSub_ge (now t : Nat) (h : (now : Int) - (t : Int) > 5 * Minute) :
    timeSub now t ≥ 5 * Minute := by
  unfold timeSub
  unfold Minute at *
  split
  · norm_num
  · split
    · omega
    · omega

/-- An entry removed less than five minutes ago fails the test of the sweep. -/
theorem timeSub_lt (now t : Nat) (h : (now : Int) - (t : Int) < 5 * Minute) :
    ¬ timeSub now t ≥ 5 * Minute := by
  unfold timeSub
  unfold Minute at *
  split
  · omega
  · split
    · norm_num
    · omega

/-- Values in the range of `int64` are not changed by the wrap-around. -/
theorem wrap64_of_range (x : Int) (h1 : -(2 ^ 63) ≤ x) (h2 : x < 2 ^ 63) : wrap64 x = x := by
  unfold wrap64
  omega

/-- With a non-negative `minInterval` and an `int64` `maxInterval` the interval
computation does not panic. -/
theorem jitterInterval_returns (raw : Nat) (minInterval maxInterval : Int)
    (hmin : 0 ≤ minInterval) (hmax : maxInterval < 2 ^ 63) :
    ∃ d, jitterInterval raw minInterval maxInterval = Go.ret d := by
  unfold jitterInterval
  by_cases h : minInterval < maxInterval
  · rw [if_pos h, wrap64_of_range _ (by omega) (by omega)]
    unfold Int63n
    rw [if_neg (by omega)]
    exact ⟨_, rfl⟩
  · rw [if_neg h]
    exact ⟨_, rfl⟩

/-- The loop of `ValidateSessions` when every marshal and send succeeds. -/
theorem validateLoop_chunks (env : ValidateEnv) (chunkSize : Nat)
    (minInterval maxInterval : Int) (hc : 1 ≤ chunkSize)
    (hm : ∀ chunk, env.marshalOk chunk = true) (hs : ∀ i, env.sendOk i = true)
    (hmin : 0 ≤ minInterval) (hmax : maxInterval < 2 ^ 63) :
    ∀ (fuel i : Nat) (tokens : List String), tokens.length ≤ fuel →
      ∃ steps, validateLoop env chunkSize minInterval maxInterval fuel i tokens = some steps ∧
        (∀ c ∈ sentChunks steps, c ≠ [] ∧ c.length ≤ chunkSize) ∧
        (∀ c ∈ (sentChunks steps).dropLast, c.length = chunkSize) ∧
        (sentChunks steps).flatten = tokens ∧
        (∀ s ∈ steps, (∃ c, s = ValidateStep.send c true) ∨ ∃ d, s = ValidateStep.sleep d) := by
  intro fuel
  induction fuel with
  | zero =>
    intro i tokens hlen
    have : tokens = [] := List.length_eq_zero.mp (by omega)
    subst this
    exact ⟨[], rfl, by simp [sentChunks], by simp [sentChunks], by simp [sentChunks], by simp⟩
  | succ fuel ih =>
    intro i tokens hlen
    cases tokens with
    | nil =>
      exact ⟨[], rfl, by simp [sentChunks], by simp [sentChunks], by simp [sentChunks], by simp⟩
    | cons tok toks =>
      unfold validateLoop
      simp only [hm, hs, Bool.not_true, Bool.false_eq_true, if_false]
      by_cases hgt : (tok :: toks).length > chunkSize
      · simp only [hgt, if_true]
        have hrest : ((tok :: toks).drop chunkSize).length > 0 := by
          rw [List.length_drop]; omega
        have hrestle : ((tok :: toks).drop chunkSize).length ≤ fuel := by
          rw [List.length_drop]; omega
        obtain ⟨d, hd⟩ := jitterInterval_returns (env.rand i) minInterval maxInterval hmin hmax
        obtain ⟨steps, hsteps, h1, h2, h3, h4⟩ := ih (i + 1) _ hrestle
        rw [if_pos hrest, hd]
        simp only [hsteps, Option.map_some']
        refine ⟨_, rfl, ?_, ?_, ?_, ?_⟩
        · intro c hcmem
          simp only [sentChunks, List.mem_cons] at hcmem
          rcases hcmem with rfl | hcmem
          · have hl : ((tok :: toks).take chunkSize).length = chunkSize := by
              rw [List.length_take]; omega
            refine ⟨?_, by omega⟩
            intro hnil
            rw [hnil] at hl
            simp at hl
            omega
          · exact h1 c hcmem
        · intro c hcmem
          simp only [sentChunks] at hcmem
          cases hsc : sentChunks steps with
          | nil => simp [hsc] at hcmem
          | cons b l =>
            rw [hsc, List.dropLast_cons₂, List.mem_cons] at hcmem
            rcases hcmem with rfl | hcmem
            · rw [List.length_take]; omega
            · exact h2 c (by rw [hsc]; exact hcmem)
        · simp only [sentChunks, List.flatten_cons, h3, List.take_append_drop]
        · intro s hsmem
          simp only [List.mem_cons] at hsmem
          rcases hsmem with rfl | rfl | hsmem
          · exact Or.inl ⟨_, rfl⟩
          · exact Or.inr ⟨_, rfl⟩
          · exact h4 s hsmem
      · simp only [hgt, if_false, List.length_nil, gt_iff_lt, Nat.lt_irrefl]
        refine ⟨[ValidateStep.send (tok :: toks) true], ?_, ?_, ?_, ?_, ?_⟩
        · cases fuel <;> rfl
        · intro c hcmem
          simp only [sentChunks, List.mem_singleton] at hcmem
          subst hcmem
          exact ⟨by simp, by omega⟩
        · simp [sentChunks]
        · simp [sentChunks]
        · intro s hsmem
          simp only [List.mem_singleton] at hsmem
          exact Or.inl ⟨_, hsmem⟩

/-! ### The claims -/

/-- Claim C1. For both event logs: when the log has a current index `c`
(`CurrentIndex` returns `(c, true)`), a call `Store(e, cb)` whose event index
is not `c + 1` (computed as the source does, in `uint64`) returns the
out-of-order error, invokes no callback, leaves the caller's state alone
and leaves the whole log state unchanged; for the retaining log this is the
slot array, the head pointer and the event map. -/
theorem store_out_of_order_rejected {W : Type} (e : Event) (onSuccess : OnStoreSuccess W)
    (w : W) (c : Nat) (hne : e.Index ≠ (c + 1) % 2 ^ 64) :
    (∀ cache : ForgetfulEventCache, cache.CurrentIndex = (c, true) →
      (cache.Store e onSuccess w).result
          = StoreReturn.err
              { currentIndex := c, expectedIndex := (c + 1) % 2 ^ 64, receivedIndex := e.Index } ∧
        (cache.Store e onSuccess w).calls = [] ∧
        (cache.Store e onSuccess w).world = w ∧
        (cache.Store e onSuccess w).cache = cache) ∧
    (∀ cache : LoggingEventCache, cache.CurrentIndex = Go.ret (c, true) →
      (cache.Store e onSuccess w).result
          = StoreReturn.err
              { currentIndex := c, expectedIndex := (c + 1) % 2 ^ 64, receivedIndex := e.Index } ∧
        (cache.Store e onSuccess w).calls = [] ∧
        (cache.Store e onSuccess w).world = w ∧
        (cache.Store e onSuccess w).cache = cache) :=
  ⟨fun cache hcur => forgetful_store_reject cache c e onSuccess w hcur hne,
    fun cache hcur => logging_store_reject cache c e onSuccess w hcur hne⟩

/-- Claim C1 at a concrete input: both logs at current index 4 reject the event
with index 7 and stay as they were. -/
theorem store_out_of_order_rejected_witness :
    (7 ≠ (4 + 1) % 2 ^ 64) ∧
      (({ index := some 4 } : ForgetfulEventCache).Store { Index := 7, Payload := 0 }
          (some (fun _ _ (u : Unit) => u)) ()).cache = { index := some 4 } ∧
      (({ HeadLogIndex := 1, LogSize := 3, Log := [3, 4, 2],
          Events := [(2, { Index := 2, Payload := 0 }), (3, { Index := 3, Payload := 0 }),
            (4, { Index := 4, Payload := 0 })] } : LoggingEventCache).Store
          { Index := 7, Payload := 0 } (some (fun _ _ (u : Unit) => u)) ()).cache
        = { HeadLogIndex := 1, LogSize := 3, Log := [3, 4, 2],
            Events := [(2, { Index := 2, Payload := 0 }), (3, { Index := 3, Payload := 0 }),
              (4, { Index := 4, Payload := 0 })] } :=
  ⟨by decide,
    ((store_out_of_order_rejected { Index := 7, Payload := 0 }
      (some (fun _ _ (u : Unit) => u)) () 4 (by decide)).1 { index := some 4 } rfl).2.2.2,
    ((store_out_of_order_rejected { Index := 7, Payload := 0 }
      (some (fun _ _ (u : Unit) => u)) () 4 (by decide)).2
        { HeadLogIndex := 1, LogSize := 3, Log := [3, 4, 2],
          Events := [(2, { Index := 2, Payload := 0 }), (3, { Index := 3, Payload := 0 }),
            (4, { Index := 4, Payload := 0 })] } rfl).2.2.2⟩

/-- Claim C2. For both event logs and every `M` with `1 ≤ M` (an index is a
`uint64`, so `M < 2 ^ 64`): on a fresh log (the retaining one with capacity
`N ≥ 1`), calling `Store` with a non-nil callback on the events with indices
`1, 2, ..., M` in order, each of the first `j` calls returns no error and after
the `j`-th call `CurrentIndex` returns `(j, true)`, for every `1 ≤ j ≤ M`. -/
theorem store_in_order_accepted {W : Type} (N M j : Nat) (p : Nat → Nat)
    (cb : Nat → Nat → Event → W → W) (w : W) (hN : 1 ≤ N) (hM : M < 2 ^ 64) (hj : 1 ≤ j)
    (hjM : j ≤ M) :
    (runStores ForgetfulEventCache.Store NewForgetfulEventCache w
        ((storesUpTo p cb M).take j)).2.2 = List.replicate j StoreReturn.nil ∧
      (runStores ForgetfulEventCache.Store NewForgetfulEventCache w
        ((storesUpTo p cb M).take j)).1.CurrentIndex = (j, true) ∧
      (runStores LoggingEventCache.Store (NewLoggingEventCache N) w
        ((storesUpTo p cb M).take j)).2.2 = List.replicate j StoreReturn.nil ∧
      (runStores LoggingEventCache.Store (NewLoggingEventCache N) w
        ((storesUpTo p cb M).take j)).1.CurrentIndex = Go.ret (j, true) := by
  rw [storesUpTo_take p cb hjM]
  obtain ⟨f1, f2⟩ := forgetful_storesUpTo p cb w j (by omega)
  obtain ⟨l1, l2⟩ := retained_storesUpTo hN p cb w j (by omega)
  refine ⟨f2, ?_, l2, l1.currentIndex_eq hN⟩
  rw [f1, if_neg (by omega)]
  rfl

/-- Claim C2 at a concrete input: capacity 3, events 1..5, after the fourth call. -/
theorem store_in_order_accepted_witness :
    (1 ≤ 3 ∧ 5 < 2 ^ 64 ∧ 1 ≤ 4 ∧ 4 ≤ 5) ∧
      (runStores ForgetfulEventCache.Store NewForgetfulEventCache ()
        ((storesUpTo (fun j => 10 * j) (fun _ _ _ u => u) 5).take 4)).1.CurrentIndex
        = (4, true) ∧
      (runStores LoggingEventCache.Store (NewLoggingEventCache 3) ()
        ((storesUpTo (fun j => 10 * j) (fun _ _ _ u => u) 5).take 4)).1.CurrentIndex
        = Go.ret (4, true) :=
  ⟨by decide,
    (store_in_order_accepted 3 5 4 (fun j => 10 * j) (fun _ _ _ (u : Unit) => u) ()
      (by decide) (by decide) (by decide) (by decide)).2.1,
    (store_in_order_accepted 3 5 4 (fun j => 10 * j) (fun _ _ _ (u : Unit) => u) ()
      (by decide) (by decide) (by decide) (by decide)).2.2.2⟩

/-- Claim C3, evaluated at its own example: capacity 3, events 1..5 stored on a
fresh retaining log. `ReplayFrom(3)` returns the events with indices 3 and 4,
not the events 4 and 5 the claim states: the slices `Log[start:head]` start at
the slot of the requested index and stop before the head slot. -/
theorem replay_omits_head :
    (runStores LoggingEventCache.Store (NewLoggingEventCache 3) ()
        (storesUpTo (fun j => 10 * j) (fun _ _ _ u => u) 5)).1.ReplayFrom 3
        = Go.ret ([some { Index := 3, Payload := 30 }, some { Index := 4, Payload := 40 }],
            true) ∧
      (runStores LoggingEventCache.Store (NewLoggingEventCache 3) ()
        (storesUpTo (fun j => 10 * j) (fun _ _ _ u => u) 5)).1.ReplayFrom 3
        ≠ Go.ret ([some { Index := 4, Payload := 40 }, some { Index := 5, Payload := 50 }],
            true) := by
  decide

/-- Claim C4. For the retaining log with capacity `N ≥ 1`, after storing the
events with indices `1..M`, `N < M`, on a fresh log: `ReplayFrom(k)` returns no
events and `ok = false` for every `k ≤ M - N` and for every `k > M`. -/
theorem replay_outside_window {W : Type} (N M k : Nat) (p : Nat → Nat)
    (cb : Nat → Nat → Event → W → W) (w : W) (hN : 1 ≤ N) (hNM : N < M) (hM : M < 2 ^ 64)
    (hk : k ≤ M - N ∨ M < k) :
    (runStores LoggingEventCache.Store (NewLoggingEventCache N) w
        (storesUpTo p cb M)).1.ReplayFrom k = Go.ret ([], false) := by
  obtain ⟨h, _⟩ := retained_storesUpTo hN p cb w M hM
  unfold LoggingEventCache.ReplayFrom
  rw [h.get_events, if_neg (by omega)]

/-- Claim C4 at concrete inputs: capacity 3, events 1..5, the evicted index 2
and the index 6 that was never stored. -/
theorem replay_outside_window_witness :
    (1 ≤ 3 ∧ 3 < 5 ∧ 5 < 2 ^ 64 ∧ 2 ≤ 5 - 3 ∧ 5 < 6) ∧
      (runStores LoggingEventCache.Store (NewLoggingEventCache 3) ()
        (storesUpTo (fun j => 10 * j) (fun _ _ _ u => u) 5)).1.ReplayFrom 2
        = Go.ret ([], false) ∧
      (runStores LoggingEventCache.Store (NewLoggingEventCache 3) ()
        (storesUpTo (fun j => 10 * j) (fun _ _ _ u => u) 5)).1.ReplayFrom 6
        = Go.ret ([], false) :=
  ⟨by decide,
    replay_outside_window 3 5 2 (fun j => 10 * j) (fun _ _ _ (u : Unit) => u) ()
      (by decide) (by decide) (by decide) (Or.inl (by decide)),
    replay_outside_window 3 5 6 (fun j => 10 * j) (fun _ _ _ (u : Unit) => u) ()
      (by decide) (by decide) (by decide) (Or.inr (by decide))⟩

/-- Claim C5, evaluated on the code: a fresh retaining log of capacity
`N + 1` does not accept a first event with an index other than 1. `Store` of an
event with index `i + 2` returns the out-of-order error (current index 0,
expected 1) and leaves the log as constructed, while the tracking-only log
accepts the same event. -/
theorem fresh_logging_rejects_first_event {W : Type} (N i x : Nat)
    (cb : Nat → Event → W → W) (w : W) :
    ((NewLoggingEventCache (N + 1)).Store { Index := i + 2, Payload := x } (some cb) w).result
        = StoreReturn.err { currentIndex := 0, expectedIndex := 1, receivedIndex := i + 2 } ∧
      ((NewLoggingEventCache (N + 1)).Store { Index := i + 2, Payload := x } (some cb) w).cache
        = NewLoggingEventCache (N + 1) ∧
      (NewForgetfulEventCache.Store { Index := i + 2, Payload := x } (some cb) w).result
        = StoreReturn.nil := by
  obtain ⟨h1, _, _, h4⟩ :=
    logging_store_reject (NewLoggingEventCache (N + 1)) 0
      { Index := i + 2, Payload := x } (some cb) w (new_currentIndex N)
      (by show i + 2 ≠ (0 + 1) % 2 ^ 64; rw [Nat.mod_eq_of_lt (by norm_num)]; omega)
  exact ⟨h1, h4, rfl⟩

/-- Claim C6, evaluated on the code: on a fresh retaining log of capacity
`N + 1`, on which no event was stored, `CurrentIndex` returns `(0, true)`, that
is `known = true`; the tracking-only log returns `(0, false)`. -/
theorem fresh_logging_index_known (N : Nat) :
    (NewLoggingEventCache (N + 1)).CurrentIndex = Go.ret (0, true) ∧
      NewForgetfulEventCache.CurrentIndex = (0, false) :=
  ⟨new_currentIndex N, rfl⟩

/-- Claim C7, evaluated on the code: a retaining log of capacity `N + 1`, fresh
or after a `Store` call that was rejected, reports the current index
`(0, true)`, and `ReplayFrom(0)` returns `ok = false`. -/
theorem fresh_logging_replay_current {W : Type} (N i x : Nat) (cb : Nat → Event → W → W)
    (w : W) :
    (NewLoggingEventCache (N + 1)).CurrentIndex = Go.ret (0, true) ∧
      (NewLoggingEventCache (N + 1)).ReplayFrom 0 = Go.ret ([], false) ∧
      ((NewLoggingEventCache (N + 1)).Store { Index := i + 2, Payload := x }
        (some cb) w).cache.CurrentIndex = Go.ret (0, true) ∧
      ((NewLoggingEventCache (N + 1)).Store { Index := i + 2, Payload := x }
        (some cb) w).cache.ReplayFrom 0 = Go.ret ([], false) := by
  obtain ⟨_, _, _, h4⟩ :=
    logging_store_reject (NewLoggingEventCache (N + 1)) 0
      { Index := i + 2, Payload := x } (some cb) w (new_currentIndex N)
      (by show i + 2 ≠ (0 + 1) % 2 ^ 64; rw [Nat.mod_eq_of_lt (by norm_num)]; omega)
  rw [h4]
  exact ⟨new_currentIndex N, rfl, new_currentIndex N, rfl⟩

/-- Claim C8, evaluated on the code: on a fresh retaining log of capacity
`N + 1`, `Store` of the in-order event with index 1 and a nil callback panics on
the call of the nil func, after it has advanced the current index to 1; the
tracking-only log returns no error on the same call. -/
theorem logging_store_nil_callback_panics {W : Type} (N x : Nat) (w : W) :
    ((NewLoggingEventCache (N + 1)).Store { Index := 1, Payload := x }
        (none : OnStoreSuccess W) w).result = StoreReturn.panic Panic.nilFuncCall ∧
      ((NewLoggingEventCache (N + 1)).Store { Index := 1, Payload := x }
        (none : OnStoreSuccess W) w).cache.CurrentIndex = Go.ret (1, true) ∧
      (NewForgetfulEventCache.Store { Index := 1, Payload := x }
        (none : OnStoreSuccess W) w).result = StoreReturn.nil := by
  obtain ⟨h1, h2⟩ :=
    (retained_new (N + 1) (fun j => { Index := j, Payload := 0 })).store_accept (by omega)
      { Index := 1, Payload := x } rfl (by norm_num) (none : OnStoreSuccess W) w
  exact ⟨h2, h1.currentIndex_eq (by omega), rfl⟩

/-- Claim C9. For the retaining log with capacity `N ≥ 1`, in the state reached
from `NewLoggingEventCache(N)` by any sequence of fewer than `2 ^ 64` `Store`
calls (accepted, rejected, or with a nil callback): the event map holds at most
`N` events (its keys are distinct), every non-zero entry of the slot array is a
key of the event map, and every key of the event map occurs in the slot array. -/
theorem logging_cache_invariant {W : Type} (N : Nat) (calls : List (Event × OnStoreSuccess W))
    (w : W) (hN : 1 ≤ N) (hlen : calls.length < 2 ^ 64) :
    GoMap.len (runStores LoggingEventCache.Store (NewLoggingEventCache N) w calls).1.Events ≤ N ∧
      (GoMap.keys
        (runStores LoggingEventCache.Store (NewLoggingEventCache N) w calls).1.Events).Nodup ∧
      (∀ v ∈ (runStores LoggingEventCache.Store (NewLoggingEventCache N) w calls).1.Log,
        v ≠ 0 →
        GoMap.has (runStores LoggingEventCache.Store (NewLoggingEventCache N) w calls).1.Events v
          = true) ∧
      (∀ k,
        GoMap.has (runStores LoggingEventCache.Store (NewLoggingEventCache N) w calls).1.Events k
          = true →
        k ∈ (runStores LoggingEventCache.Store (NewLoggingEventCache N) w calls).1.Log) := by
  obtain ⟨M', ev', _, hR⟩ :=
    retained_runStores hN calls (NewLoggingEventCache N) 0 (fun j => { Index := j, Payload := 0 })
      w (retained_new N _) (by omega)
  exact hR.map_slots

/-- Claim C9 at a concrete input: capacity 2 and four calls, one of them
rejected and one with a nil callback. -/
theorem logging_cache_invariant_witness :
    (1 ≤ 2) ∧
      GoMap.len (runStores LoggingEventCache.Store (NewLoggingEventCache 2) ()
        [({ Index := 1, Payload := 0 }, some (fun _ _ u => u)),
         ({ Index := 5, Payload := 0 }, some (fun _ _ u => u)),
         ({ Index := 2, Payload := 0 }, none),
         ({ Index := 3, Payload := 0 }, some (fun _ _ u => u))]).1.Events ≤ 2 :=
  ⟨by decide,
    (logging_cache_invariant 2
      [({ Index := 1, Payload := 0 }, some (fun _ _ (u : Unit) => u)),
       ({ Index := 5, Payload := 0 }, some (fun _ _ u => u)),
       ({ Index := 2, Payload := 0 }, none),
       ({ Index := 3, Payload := 0 }, some (fun _ _ u => u))] () (by decide) (by decide)).1⟩

/-- Claim C10, evaluated on the code: on a new manager, for a non-bearer token
that is not tombstoned, one call of `AddEdgeSessionRemovedListener` followed by
one call of the `RemoveListener` it returned leaves the token in the active
session map, with count 2, and absent from the recently-removed set:
`SessionConnectionClosed` adds 1 to the count instead of subtracting 1. -/
theorem close_increments_session_count (IsBearerToken : String → Bool) (token : String)
    (callBack now : Nat) (h : IsBearerToken token = false) :
    (callAll (addEdgeListeners IsBearerToken NewManager token [callBack]).1 now
        (addEdgeListeners IsBearerToken NewManager token [callBack]).2).sessions
        = [(token, 2)] ∧
      (callAll (addEdgeListeners IsBearerToken NewManager token [callBack]).1 now
        (addEdgeListeners IsBearerToken NewManager token [callBack]).2).WasSessionRecentlyRemoved
          token = false := by
  simp [callAll, addEdgeListeners, ManagerImpl.AddEdgeSessionRemovedListener, h, NewManager,
    GoMap.has, GoMap.get, GoMap.upsert, GoMap.set, ManagerImpl.AddListener,
    RemoveListener.call, ManagerImpl.SessionConnectionClosed,
    ManagerImpl.WasSessionRecentlyRemoved]

/-- Claim C10 at a concrete input: the token `"session-1"`. -/
theorem close_increments_session_count_witness :
    ((fun _ => false : String → Bool) "session-1" = false) ∧
      (callAll (addEdgeListeners (fun _ => false) NewManager "session-1" [7]).1 100
        (addEdgeListeners (fun _ => false) NewManager "session-1" [7]).2).sessions
        = [("session-1", 2)] :=
  ⟨rfl, (close_increments_session_count (fun _ => false) "session-1" 7 100 rfl).1⟩

/-! ### The claims, continued: the session registry -/

/-- Claim C11, evaluated on the code: for a token tracked with count `c`
(`c + 1` still a `uint32`), `SessionConnectionClosed` leaves the token tracked
with count `c + 1` and does not touch the recently-removed set. For `c ≥ 2`
the count is not `c - 1`, and for `c = 1` the token is neither removed nor
tombstoned. -/
theorem session_closed_increments (sm : ManagerImpl) (token : String) (now c : Nat)
    (h : GoMap.get sm.sessions token = some c) (hc : c + 1 < 2 ^ 32) :
    GoMap.get (sm.SessionConnectionClosed token now).sessions token = some (c + 1) ∧
      (sm.SessionConnectionClosed token now).recentlyRemovedSessions
        = sm.recentlyRemovedSessions := by
  have hget : GoMap.get
      (GoMap.upsert sm.sessions 0 token 0
        (fun exist valueInMap _newValue => if !exist then 0 else (valueInMap + 1) % 2 ^ 32))
      token = some (c + 1) := by
    rw [GoMap.get_upsert, if_pos rfl, h]
    simp only [Bool.not_true, Bool.false_eq_true, if_false, Nat.mod_eq_of_lt hc]
  unfold ManagerImpl.SessionConnectionClosed
  simp only [hget]
  rw [if_neg (Nat.succ_ne_zero c)]
  exact ⟨hget, rfl⟩

/-- Claim C11 at concrete inputs: the counts 2 and 1 of the token `"session-1"`. -/
theorem session_closed_increments_witness :
    GoMap.get (({ NewManager with sessions := [("session-1", 2)] } : ManagerImpl).SessionConnectionClosed
        "session-1" 100).sessions "session-1" = some 3 ∧
      GoMap.get (({ NewManager with sessions := [("session-1", 1)] } : ManagerImpl).SessionConnectionClosed
        "session-1" 100).sessions "session-1" = some 2 ∧
      (({ NewManager with sessions := [("session-1", 1)] } : ManagerImpl).SessionConnectionClosed
        "session-1" 100).recentlyRemovedSessions = [] :=
  ⟨(session_closed_increments { NewManager with sessions := [("session-1", 2)] } "session-1" 100 2
      (by decide) (by decide)).1,
    (session_closed_increments { NewManager with sessions := [("session-1", 1)] } "session-1" 100 1
      (by decide) (by decide)).1,
    (session_closed_increments { NewManager with sessions := [("session-1", 1)] } "session-1" 100 1
      (by decide) (by decide)).2⟩

/-- Claim C12. `UpdateChApiSession(ch, new)` returns nil only if `new` is
non-nil, has non-nil claims of type access, and its subject and API-session id
equal those of the session bound to `ch`; it then leaves the state of
`AddActiveChannel(ch, new)`, in which `ch` is bound to `new`. Whenever it
returns an error the state, and with it the active-channel map, is unchanged. -/
theorem update_ch_api_session (TokenTypeAccess : String) (sm : ManagerImpl) (ch : Channel)
    (newApiSession : Option ApiSession) :
    ((sm.UpdateChApiSession TokenTypeAccess ch newApiSession).2 = Go.ret none →
      ∃ new newClaims current currentClaims,
        newApiSession = some new ∧ new.Claims = some newClaims ∧
        newClaims.Type_ = TokenTypeAccess ∧
        sm.GetApiSessionFromCh ch = some current ∧ current.Claims = some currentClaims ∧
        newClaims.Subject = currentClaims.Subject ∧
        newClaims.ApiSessionId = currentClaims.ApiSessionId ∧
        (sm.UpdateChApiSession TokenTypeAccess ch newApiSession).1
          = sm.AddActiveChannel ch (some new) ∧
        (sm.UpdateChApiSession TokenTypeAccess ch newApiSession).1.GetApiSessionFromCh ch
          = some new) ∧
      (∀ err, (sm.UpdateChApiSession TokenTypeAccess ch newApiSession).2 = Go.ret (some err) →
        (sm.UpdateChApiSession TokenTypeAccess ch newApiSession).1 = sm) := by
  unfold ManagerImpl.UpdateChApiSession
  cases newApiSession with
  | none => simp
  | some new =>
    cases hc : new.Claims with
    | none => simp [hc]
    | some newClaims =>
      by_cases ht : newClaims.Type_ = TokenTypeAccess
      · cases hcur : sm.GetApiSessionFromCh ch with
        | none => simp [hc, ht, hcur]
        | some current =>
          cases hcc : current.Claims with
          | none => simp [hc, ht, hcur, hcc]
          | some currentClaims =>
            by_cases hs : newClaims.Subject = currentClaims.Subject
            · by_cases hi : newClaims.ApiSessionId = currentClaims.ApiSessionId
              · simp only [hc, hcur, hcc, ht, hs, hi, ne_eq, not_true_eq_false, if_false]
                refine ⟨fun _ => ⟨new, newClaims, current, currentClaims, rfl, hc, ht, rfl,
                  hcc, hs, hi, rfl, ?_⟩, ?_⟩
                · simp [ManagerImpl.GetApiSessionFromCh, GoMap.get_set]
                · intro err h
                  simp at h
              · simp [hc, ht, hcur, hcc, hs, hi]
            · simp [hc, ht, hcur, hcc, hs]
      · simp [hc, ht]

/-- Claim C12 at a concrete input: a new session with another subject is
rejected and the binding of the channel stays. -/
theorem update_ch_api_session_witness :
    (({ NewManager with
          activeChannels :=
            [("ch-1",
              some
                { ApiSession := none
                  JwtToken := none
                  Claims := some { Type_ := "a", Subject := "id-1", ApiSessionId := "s-1" } })] }
        : ManagerImpl).UpdateChApiSession "a" { ptr := 1, Id := "ch-1" }
        (some
          { ApiSession := none
            JwtToken := none
            Claims := some { Type_ := "a", Subject := "id-2", ApiSessionId := "s-1" } })).1
      = { NewManager with
          activeChannels :=
            [("ch-1",
              some
                { ApiSession := none
                  JwtToken := none
                  Claims := some { Type_ := "a", Subject := "id-1", ApiSessionId := "s-1" } })] } :=
  (update_ch_api_session "a"
    { NewManager with
      activeChannels :=
        [("ch-1",
          some
            { ApiSession := none
              JwtToken := none
              Claims := some { Type_ := "a", Subject := "id-1", ApiSessionId := "s-1" } })] }
    { ptr := 1, Id := "ch-1" }
    (some
      { ApiSession := none
        JwtToken := none
        Claims := some { Type_ := "a", Subject := "id-2", ApiSessionId := "s-1" } })).2
    (UpdateError.subjectMismatch "id-1" "id-2") (by decide)

/-- Claim C13, evaluated on the code: `pubKeyLookup(token)` reads the snapshot
with `routerDataModel.Load()` and ranges over its keys with no nil test, so in
a manager that holds no snapshot (a new manager) a token with a string `kid`
header makes it panic with a nil dereference, where the claim has it return
"public key not found". The rest of the claim holds: a key is returned only if
the snapshot holds a public key whose `Kid` is the trimmed `kid` header of the
token and whose usages include JWT validation (the key returned is that entry
parsed); when a snapshot is stored and holds no such key the result is "public
key not found", also when a key with that `Kid` lacks the usage; a missing
`kid` header and one that is not a string give an error. -/
theorem pub_key_lookup_nil_snapshot (x : X509) (TrimSpace : String → String)
    (sm : ManagerImpl) (token : JwtToken) :
    (∀ kidVal, sm.routerDataModel = none →
      GoMap.get token.Header "kid" = some (HeaderValue.string kidVal) →
      sm.pubKeyLookup x TrimSpace token = Go.panic Panic.nilPointerDereference) ∧
    (∀ key, sm.pubKeyLookup x TrimSpace token = Go.ret (Except.ok key) →
      ∃ rdm kidVal, sm.routerDataModel = some rdm ∧
        GoMap.get token.Header "kid" = some (HeaderValue.string kidVal) ∧
        ∃ p ∈ rdm.PublicKeys, p.2.Kid = TrimSpace kidVal ∧
          PublicKeyUsage.JWTValidation ∈ p.2.Usages ∧
          ManagerImpl.parsePublicKey x p.2 = Except.ok key) ∧
      (∀ rdm kidVal, sm.routerDataModel = some rdm →
        GoMap.get token.Header "kid" = some (HeaderValue.string kidVal) →
        (∀ p ∈ rdm.PublicKeys,
          ¬ (p.2.Kid = TrimSpace kidVal ∧ PublicKeyUsage.JWTValidation ∈ p.2.Usages)) →
        sm.pubKeyLookup x TrimSpace token
          = Go.ret (Except.error KeyError.publicKeyNotFound)) ∧
      (GoMap.get token.Header "kid" = none →
        sm.pubKeyLookup x TrimSpace token
          = Go.ret (Except.error KeyError.kidHeaderMissing)) ∧
      (∀ typeName, GoMap.get token.Header "kid" = some (HeaderValue.other typeName) →
        sm.pubKeyLookup x TrimSpace token
          = Go.ret (Except.error (KeyError.kidNotString typeName))) := by
  refine ⟨?_, ?_, ?_, ?_, ?_⟩
  · intro kidVal hr hk
    unfold ManagerImpl.pubKeyLookup
    simp only [hk, hr]
  · intro key h
    unfold ManagerImpl.pubKeyLookup at h
    cases hk : GoMap.get token.Header "kid" with
    | none => simp [hk] at h
    | some hv =>
      cases hv with
      | other t => simp [hk] at h
      | string kidVal =>
        cases hr : sm.routerDataModel with
        | none => simp [hk, hr] at h
        | some rdm =>
          simp only [hk, hr, Go.ret.injEq] at h
          exact ⟨rdm, kidVal, rfl, rfl, pubKeyLookupLoop_ok x _ _ key h⟩
  · intro rdm kidVal hr hk hnone
    unfold ManagerImpl.pubKeyLookup
    simp only [hk, hr]
    rw [pubKeyLookupLoop_not_found x _ _ hnone]
  · intro hk
    unfold ManagerImpl.pubKeyLookup
    simp only [hk]
  · intro t hk
    unfold ManagerImpl.pubKeyLookup
    simp only [hk]

/-- Claim C13 at concrete inputs: on a new manager the lookup of the key id
`"k1"` panics; with a snapshot in which `"k1"` has the client-certificate usage
only, it returns "public key not found". -/
theorem pub_key_lookup_nil_snapshot_witness :
    NewManager.pubKeyLookup
        { ParseCertificates := fun _ => Except.ok [], ParsePKIXPublicKey := fun _ => Except.ok 7 }
        (fun s => s) { Header := [("kid", HeaderValue.string "k1")] }
      = Go.panic Panic.nilPointerDereference ∧
    (({ NewManager with
          routerDataModel :=
            some { PublicKeys :=
              [("k1", { Kid := "k1", Data := [1], Format := PublicKeyFormat.PKIXPublicKey,
                        Usages := [PublicKeyUsage.ClientX509CertValidation] })] } }
        : ManagerImpl).pubKeyLookup
        { ParseCertificates := fun _ => Except.ok [], ParsePKIXPublicKey := fun _ => Except.ok 7 }
        (fun s => s) { Header := [("kid", HeaderValue.string "k1")] })
      = Go.ret (Except.error KeyError.publicKeyNotFound) :=
  ⟨(pub_key_lookup_nil_snapshot
      { ParseCertificates := fun _ => Except.ok [], ParsePKIXPublicKey := fun _ => Except.ok 7 }
      (fun s => s) NewManager { Header := [("kid", HeaderValue.string "k1")] }).1 "k1" rfl rfl,
    (pub_key_lookup_nil_snapshot
      { ParseCertificates := fun _ => Except.ok [], ParsePKIXPublicKey := fun _ => Except.ok 7 }
      (fun s => s)
      { NewManager with
        routerDataModel :=
          some { PublicKeys :=
            [("k1", { Kid := "k1", Data := [1], Format := PublicKeyFormat.PKIXPublicKey,
                      Usages := [PublicKeyUsage.ClientX509CertValidation] })] } }
      { Header := [("kid", HeaderValue.string "k1")] }).2.2.1 _ "k1" rfl rfl (by decide)⟩

/-- Claim C14 as amended. For a token with a tracked API session: after two
calls of `AddApiSessionRemovedListener`, the first `RemoveApiSession` calls
each of the two listeners exactly once and leaves no listener registered under
the event name of the token, and a second `RemoveApiSession` changes nothing.
Likewise for `AddEdgeSessionRemovedListener` and `RemoveEdgeSession` on a token
that is not a bearer token and not in the recently-removed set. For a token
that is not a bearer token and is in the recently-removed set,
`AddEdgeSessionRemovedListener` returns the empty `RemoveListener`, starts the
goroutine `go callBack(token)` at once and changes nothing else: no listener is
registered and the session map is as before, also after two such calls, so a
`RemoveEdgeSession` that follows calls the listeners registered before and
neither of the two. The state is one in which the identities of the registered
listeners are below `nextId`. -/
theorem listeners_fire_once (IsBearerToken : String → Bool) (sm : ManagerImpl)
    (token : String) (cb1 cb2 now now' : Nat)
    (hfresh : ∀ p ∈ sm.listeners, ∀ l ∈ p.2, l.id < sm.nextId) :
    (∀ ns, GoMap.get sm.apiSessionsByToken token = some ns →
      ∃ d, ((twoApiListeners sm token cb1 cb2).RemoveApiSession token).invoked
          = sm.invoked ++ d ∧
        d.count { id := sm.nextId, callBack := cb1, token := token, async := false } = 1 ∧
        d.count { id := sm.nextId + 1, callBack := cb2, token := token, async := false } = 1 ∧
        GoMap.get ((twoApiListeners sm token cb1 cb2).RemoveApiSession token).listeners
          (ManagerImpl.getApiSessionRemovedEventName token) = none ∧
        ((twoApiListeners sm token cb1 cb2).RemoveApiSession token).RemoveApiSession token
          = (twoApiListeners sm token cb1 cb2).RemoveApiSession token) ∧
      (IsBearerToken token = false →
        GoMap.has sm.recentlyRemovedSessions token = false →
        ∃ d,
          ((twoEdgeListeners IsBearerToken sm token cb1 cb2).RemoveEdgeSession token
              now).invoked = sm.invoked ++ d ∧
          d.count { id := sm.nextId, callBack := cb1, token := token, async := true } = 1 ∧
          d.count { id := sm.nextId + 2, callBack := cb2, token := token, async := true } = 1 ∧
          GoMap.get
            ((twoEdgeListeners IsBearerToken sm token cb1 cb2).RemoveEdgeSession token
              now).listeners
            (ManagerImpl.getEdgeSessionRemovedEventName token) = none ∧
          ((twoEdgeListeners IsBearerToken sm token cb1 cb2).RemoveEdgeSession token
              now).RemoveEdgeSession token now'
            = (twoEdgeListeners IsBearerToken sm token cb1 cb2).RemoveEdgeSession token now) ∧
      (IsBearerToken token = false →
        GoMap.has sm.recentlyRemovedSessions token = true →
        sm.AddEdgeSessionRemovedListener IsBearerToken token cb1
            = ({ sm with spawned := sm.spawned ++ [Spawned.callBack cb1 token] },
                RemoveListener.noop) ∧
          twoEdgeListeners IsBearerToken sm token cb1 cb2
            = { sm with
                spawned := sm.spawned
                  ++ [Spawned.callBack cb1 token, Spawned.callBack cb2 token] } ∧
          ((twoEdgeListeners IsBearerToken sm token cb1 cb2).RemoveEdgeSession token
              now).invoked
            = sm.invoked
              ++ (GoMap.get sm.listeners
                  (ManagerImpl.getEdgeSessionRemovedEventName token)).getD [] ∧
          (∀ l ∈ ((GoMap.get sm.listeners
              (ManagerImpl.getEdgeSessionRemovedEventName token)).getD []),
            l.id < sm.nextId)) :=
  ⟨fun ns htracked => api_listeners_once sm token cb1 cb2 ns htracked hfresh,
    fun hb ht => edge_listeners_once IsBearerToken sm token cb1 cb2 now now' hb ht hfresh,
    fun hb ht => edge_listener_tombstoned IsBearerToken sm token cb1 cb2 now hb ht hfresh⟩

/-- Claim C14 as amended, at a concrete input: a new manager with the API session
`"t"`, and the network-session token `"s"`, first not tombstoned, then marked
as recently removed. -/
theorem listeners_fire_once_witness :
    (∃ d,
        ((twoApiListeners
            { NewManager with
              apiSessionsByToken := [("t", { Token := "t", Id := "a", CertFingerprints := [] })] }
            "t" 7 8).RemoveApiSession "t").invoked = [] ++ d ∧
          d.count { id := 0, callBack := 7, token := "t", async := false } = 1 ∧
          d.count { id := 0 + 1, callBack := 8, token := "t", async := false } = 1) ∧
      (∃ d,
        ((twoEdgeListeners (fun _ => false)
            { NewManager with
              apiSessionsByToken := [("t", { Token := "t", Id := "a", CertFingerprints := [] })] }
            "s" 7 8).RemoveEdgeSession "s" 100).invoked = [] ++ d ∧
          d.count { id := 0, callBack := 7, token := "s", async := true } = 1 ∧
          d.count { id := 0 + 2, callBack := 8, token := "s", async := true } = 1) ∧
      ((NewManager.MarkSessionRecentlyRemoved "s" 50).AddEdgeSessionRemovedListener
          (fun _ => false) "s" 7
        = ({ NewManager.MarkSessionRecentlyRemoved "s" 50 with
              spawned := [] ++ [Spawned.callBack 7 "s"] },
            RemoveListener.noop)) :=
  ⟨(((listeners_fire_once (fun _ => false)
        { NewManager with
          apiSessionsByToken := [("t", { Token := "t", Id := "a", CertFingerprints := [] })] }
        "t" 7 8 100 200 (by decide)).1 _ rfl).imp
      (fun _ h => ⟨h.1, h.2.1, h.2.2.1⟩)),
    (((listeners_fire_once (fun _ => false)
        { NewManager with
          apiSessionsByToken := [("t", { Token := "t", Id := "a", CertFingerprints := [] })] }
        "s" 7 8 100 200 (by decide)).2.1 rfl rfl).imp
      (fun _ h => ⟨h.1, h.2.1, h.2.2.1⟩)),
    ((listeners_fire_once (fun _ => false) (NewManager.MarkSessionRecentlyRemoved "s" 50)
        "s" 7 8 100 200 (by decide)).2.2 rfl (by decide)).1⟩

/-- Claim C14 as stated fails for a tracked token that is also in the
recently-removed set. The token `"s"` is tracked by a first registration and
then marked as recently removed; the two registrations that follow return the
empty `RemoveListener`, register no listener and each start the goroutine
`go callBack(token)`, and `RemoveEdgeSession` calls the listener of the first
registration only, neither of the two. -/
theorem edge_listener_not_registered_when_tombstoned :
    ((((NewManager.AddEdgeSessionRemovedListener (fun _ => false) "s" 5).1.MarkSessionRecentlyRemoved
        "s" 50).AddEdgeSessionRemovedListener (fun _ => false) "s" 7).2 = RemoveListener.noop) ∧
      GoMap.has (twoEdgeListeners (fun _ => false)
        ((NewManager.AddEdgeSessionRemovedListener (fun _ => false) "s" 5).1.MarkSessionRecentlyRemoved
          "s" 50) "s" 7 8).sessions "s" = true ∧
      (twoEdgeListeners (fun _ => false)
        ((NewManager.AddEdgeSessionRemovedListener (fun _ => false) "s" 5).1.MarkSessionRecentlyRemoved
          "s" 50) "s" 7 8).listeners
        = [("RemovedEdgeSession-s", [{ id := 0, callBack := 5, token := "s", async := true }])] ∧
      ((twoEdgeListeners (fun _ => false)
        ((NewManager.AddEdgeSessionRemovedListener (fun _ => false) "s" 5).1.MarkSessionRecentlyRemoved
          "s" 50) "s" 7 8).RemoveEdgeSession "s" 100).invoked
        = [{ id := 0, callBack := 5, token := "s", async := true }] ∧
      (twoEdgeListeners (fun _ => false)
        ((NewManager.AddEdgeSessionRemovedListener (fun _ => false) "s" 5).1.MarkSessionRecentlyRemoved
          "s" 50) "s" 7 8).spawned
        = [Spawned.callBack 7 "s", Spawned.callBack 8 "s"] := by
  decide

/-- Claim C15, evaluated on the code: `IsSyncInProgress` returns true on a new
manager, on which no sync is marked, and false after `MarkSyncInProgress` with
the non-empty id `"sync-1"`. After `MarkSyncInProgress(id)` it returns whether
`id` is empty, and after the matching `MarkSyncStopped(id)` it returns true. -/
theorem sync_query_inverted (sm : ManagerImpl) (trackerId : String) :
    NewManager.IsSyncInProgress = true ∧
      (NewManager.MarkSyncInProgress "sync-1").IsSyncInProgress = false ∧
      (sm.MarkSyncInProgress trackerId).IsSyncInProgress = decide (trackerId = "") ∧
      ((sm.MarkSyncInProgress trackerId).MarkSyncStopped trackerId).IsSyncInProgress = true := by
  refine ⟨by decide, by decide, rfl, ?_⟩
  simp [ManagerImpl.MarkSyncInProgress, ManagerImpl.MarkSyncStopped,
    ManagerImpl.IsSyncInProgress]

/-- Claim C16. `MarkSyncStopped(id)` clears the current sync id when it equals
`id` and leaves the state unchanged when it does not, so a stop with `id` after
`MarkSyncInProgress(id2)`, `id2 ≠ id`, clears nothing; applying
`MarkSyncInProgress(id)` twice, or `MarkSyncStopped(id)` twice, gives the state
of applying it once. -/
theorem sync_marker (sm : ManagerImpl) (id id2 : String) :
    (sm.currentSync = id → sm.MarkSyncStopped id = { sm with currentSync := "" }) ∧
      (sm.currentSync ≠ id → sm.MarkSyncStopped id = sm) ∧
      (id2 ≠ id → (sm.MarkSyncInProgress id2).MarkSyncStopped id = sm.MarkSyncInProgress id2) ∧
      (sm.MarkSyncInProgress id).MarkSyncInProgress id = sm.MarkSyncInProgress id ∧
      (sm.MarkSyncStopped id).MarkSyncStopped id = sm.MarkSyncStopped id := by
  refine ⟨?_, ?_, ?_, rfl, ?_⟩
  · intro h
    simp [ManagerImpl.MarkSyncStopped, h]
  · intro h
    simp [ManagerImpl.MarkSyncStopped, h]
  · intro h
    simp [ManagerImpl.MarkSyncStopped, ManagerImpl.MarkSyncInProgress, h]
  · unfold ManagerImpl.MarkSyncStopped
    by_cases h : sm.currentSync = id
    · simp only [h, if_true]
      by_cases h2 : "" = id
      · simp [h2]
      · simp [h2]
    · simp [h]

/-- Claim C16 at concrete inputs: the matching stop clears `"sync-1"`, the stale
stop leaves `"sync-2"`. -/
theorem sync_marker_witness :
    ((NewManager.MarkSyncInProgress "sync-1").MarkSyncStopped "sync-1").currentSync = "" ∧
      ((NewManager.MarkSyncInProgress "sync-2").MarkSyncStopped "sync-1").currentSync = "sync-2" :=
  ⟨by
      rw [(sync_marker (NewManager.MarkSyncInProgress "sync-1") "sync-1" "sync-1").1 rfl],
    by
      rw [(sync_marker NewManager "sync-1" "sync-2").2.2.1 (by decide)]
      rfl⟩

/-- Claim C17. For every recently-removed set (a map, so its keys are distinct)
and sweep time `now`, `flushRecentlyRemoved` removes every entry whose removal
time is more than five minutes before `now`, after which
`WasSessionRecentlyRemoved` is false for its token, keeps every entry whose
removal time is less than five minutes before `now` with its time unchanged,
and adds no entry. -/
theorem flush_recently_removed (sm : ManagerImpl) (now : Nat)
    (hnodup : (GoMap.keys sm.recentlyRemovedSessions).Nodup) :
    (∀ token t, GoMap.get sm.recentlyRemovedSessions token = some t →
      (now : Int) - (t : Int) > 5 * Minute →
      GoMap.get (sm.flushRecentlyRemoved now).recentlyRemovedSessions token = none ∧
        (sm.flushRecentlyRemoved now).WasSessionRecentlyRemoved token = false) ∧
      (∀ token t, GoMap.get sm.recentlyRemovedSessions token = some t →
        (now : Int) - (t : Int) < 5 * Minute →
        GoMap.get (sm.flushRecentlyRemoved now).recentlyRemovedSessions token = some t) ∧
      (∀ token, GoMap.get sm.recentlyRemovedSessions token = none →
        GoMap.get (sm.flushRecentlyRemoved now).recentlyRemovedSessions token = none) := by
  have hflush : (sm.flushRecentlyRemoved now).recentlyRemovedSessions
      = sm.recentlyRemovedSessions.filter
          (fun p => !decide (timeSub now p.2 ≥ 5 * Minute)) := by
    unfold ManagerImpl.flushRecentlyRemoved
    simp only
    rw [GoMap.foldl_delete, GoMap.filter_keys_of_filter _ hnodup]
  refine ⟨?_, ?_, ?_⟩
  · intro token t hget hold
    have : GoMap.get (sm.flushRecentlyRemoved now).recentlyRemovedSessions token = none := by
      rw [hflush, GoMap.get_filter _ hnodup, hget]
      simp [timeSub_ge now t hold]
    exact ⟨this, by simp [ManagerImpl.WasSessionRecentlyRemoved, GoMap.has, this]⟩
  · intro token t hget hnew
    rw [hflush, GoMap.get_filter _ hnodup, hget]
    simp [timeSub_lt now t hnew]
  · intro token hget
    rw [hflush, GoMap.get_filter _ hnodup, hget]

/-- Claim C17 at a concrete input: at time 500 s the entry of time 0 is purged and
the entry of time 400 s is kept. -/
theorem flush_recently_removed_witness :
    GoMap.get (({ NewManager with
          recentlyRemovedSessions := [("old", 0), ("new", 400000000000)] }
        : ManagerImpl).flushRecentlyRemoved 500000000000).recentlyRemovedSessions "old" = none ∧
      GoMap.get (({ NewManager with
          recentlyRemovedSessions := [("old", 0), ("new", 400000000000)] }
        : ManagerImpl).flushRecentlyRemoved 500000000000).recentlyRemovedSessions "new"
        = some 400000000000 :=
  ⟨((flush_recently_removed
      { NewManager with recentlyRemovedSessions := [("old", 0), ("new", 400000000000)] }
      500000000000 (by decide)).1 "old" 0 (by decide) (by decide)).1,
    (flush_recently_removed
      { NewManager with recentlyRemovedSessions := [("old", 0), ("new", 400000000000)] }
      500000000000 (by decide)).2.1 "new" 400000000000 (by decide) (by decide)⟩

/-- Claim C18. For every set of tracked tokens and every `chunkSize ≥ 1`, when
every marshal and every send succeeds (and the intervals are durations with
`0 ≤ minInterval`), a pass of `ValidateSessions` with enough loop iterations
ends, and the chunks it sends are non-empty with at most `chunkSize` tokens,
all but the last have exactly `chunkSize` tokens, and their concatenation in
send order is the token list; the pass only sends and sleeps. -/
theorem validate_sessions_chunks (sm : ManagerImpl) (env : ValidateEnv) (chunkSize : Nat)
    (minInterval maxInterval : Int) (fuel : Nat) (hc : 1 ≤ chunkSize)
    (hm : ∀ chunk, env.marshalOk chunk = true) (hs : ∀ i, env.sendOk i = true)
    (hmin : 0 ≤ minInterval) (hmax : maxInterval < 2 ^ 63)
    (hfuel : (GoMap.keys sm.sessions).length ≤ fuel) :
    ∃ steps, sm.ValidateSessions env chunkSize minInterval maxInterval fuel = some steps ∧
      (∀ c ∈ sentChunks steps, c ≠ [] ∧ c.length ≤ chunkSize) ∧
      (∀ c ∈ (sentChunks steps).dropLast, c.length = chunkSize) ∧
      (sentChunks steps).flatten = GoMap.keys sm.sessions ∧
      (∀ s ∈ steps, (∃ c, s = ValidateStep.send c true) ∨ ∃ d, s = ValidateStep.sleep d) :=
  validateLoop_chunks env chunkSize minInterval maxInterval hc hm hs hmin hmax fuel 0 _ hfuel

/-- Claim C18 at a concrete input: three tokens in chunks of two. -/
theorem validate_sessions_chunks_witness :
    (∃ steps,
        ({ NewManager with sessions := [("a", 1), ("b", 1), ("c", 1)] } : ManagerImpl).ValidateSessions
            { marshalOk := fun _ => true, sendOk := fun _ => true, rand := fun _ => 7 } 2 0 10 3
          = some steps ∧
        (sentChunks steps).flatten = ["a", "b", "c"]) ∧
      ({ NewManager with sessions := [("a", 1), ("b", 1), ("c", 1)] } : ManagerImpl).ValidateSessions
          { marshalOk := fun _ => true, sendOk := fun _ => true, rand := fun _ => 7 } 2 0 10 3
        = some [ValidateStep.send ["a", "b"] true, ValidateStep.sleep 7,
            ValidateStep.send ["c"] true] :=
  ⟨(validate_sessions_chunks
      { NewManager with sessions := [("a", 1), ("b", 1), ("c", 1)] }
      { marshalOk := fun _ => true, sendOk := fun _ => true, rand := fun _ => 7 } 2 0 10 3
      (by decide) (fun _ => rfl) (fun _ => rfl) (by decide) (by decide) (by decide)).imp
      (fun _ h => ⟨h.1, h.2.2.2.1⟩),
    by decide⟩

/-- Claim C19. After `RemoveMissingApiSessions(known, before)` on a session map
(its keys are distinct), the tracked API sessions are exactly the sessions
tracked before whose token occurs in `known` or, when `before` is not empty,
whose id is not `<= before`, that is strictly greater (`stringLE_false`); the
others are removed, and no session is added or modified. -/
theorem remove_missing_api_sessions (sm : ManagerImpl) (knownApiSessions : List PbApiSession)
    (beforeSessionId : String) (hnodup : (GoMap.keys sm.apiSessionsByToken).Nodup) :
    (sm.RemoveMissingApiSessions knownApiSessions beforeSessionId).apiSessionsByToken
      = sm.apiSessionsByToken.filter
          (fun p =>
            decide (p.1 ∈ knownApiSessions.map (fun s => s.Token)) ||
              (decide (beforeSessionId ≠ "") && !stringLE p.2.Id beforeSessionId)) := by
  unfold ManagerImpl.RemoveMissingApiSessions
  simp only
  rw [foldl_removeApiSession_map, GoMap.foldl_delete, GoMap.filter_keys_of_filter _ hnodup]
  apply List.filter_congr
  intro p _
  have hv := validTokens_has knownApiSessions [] p.1
  by_cases hk : p.1 ∈ knownApiSessions.map (fun s => s.Token)
  · have : GoMap.has (knownApiSessions.foldl
        (fun m apiSession => GoMap.set m apiSession.Token true) []) p.1 = true :=
      hv.mpr (Or.inr hk)
    simp [this, hk]
  · have : GoMap.has (knownApiSessions.foldl
        (fun m apiSession => GoMap.set m apiSession.Token true) []) p.1 = false := by
      cases hh : GoMap.has (knownApiSessions.foldl
        (fun m apiSession => GoMap.set m apiSession.Token true) []) p.1 with
      | false => rfl
      | true =>
        rcases hv.mp hh with h1 | h1
        · simp [GoMap.has, GoMap.get] at h1
        · exact absurd h1 hk
    by_cases hb : beforeSessionId = ""
    · simp [this, hk, hb]
    · cases hle : stringLE p.2.Id beforeSessionId <;> simp [this, hk, hb, hle]

/-- Claim C19 at a concrete input: `"t1"` is known, `"t2"` has an id below
`"a5"` and is removed, `"t3"` has a later id and stays. -/
theorem remove_missing_api_sessions_witness :
    (({ NewManager with
          apiSessionsByToken :=
            [("t1", { Token := "t1", Id := "a1", CertFingerprints := [] }),
             ("t2", { Token := "t2", Id := "a2", CertFingerprints := [] }),
             ("t3", { Token := "t3", Id := "a9", CertFingerprints := [] })] }
        : ManagerImpl).RemoveMissingApiSessions
          [{ Token := "t1", Id := "a1", CertFingerprints := [] }] "a5").apiSessionsByToken
      = [("t1", { Token := "t1", Id := "a1", CertFingerprints := [] }),
         ("t3", { Token := "t3", Id := "a9", CertFingerprints := [] })] :=
  (remove_missing_api_sessions
    { NewManager with
      apiSessionsByToken :=
        [("t1", { Token := "t1", Id := "a1", CertFingerprints := [] }),
         ("t2", { Token := "t2", Id := "a2", CertFingerprints := [] }),
         ("t3", { Token := "t3", Id := "a9", CertFingerprints := [] })] }
    [{ Token := "t1", Id := "a1", CertFingerprints := [] }] "a5" (by decide)).trans (by decide)

/-- Claim C20. When the connected-channel set of `token` holds `ch` with the close
callback `removeCB`, `RemoveConnectedApiSessionWithChannel(token, ch)` returns,
calls `removeCB` and no other callback, and removes `ch` and no other channel
from the set; if the set is then empty the entry of the token is removed from
the connected-session map, otherwise the entry holds the remaining set; the
entries of other tokens are unchanged. -/
theorem remove_connected_channel (sm : ManagerImpl) (token : String) (ch : Channel)
    (sessions : GoMap Channel (Option Nat)) (removeCB : Nat)
    (h1 : GoMap.get sm.activeApiSessions token = some sessions)
    (h2 : GoMap.get sessions ch = some (some removeCB)) :
    (sm.RemoveConnectedApiSessionWithChannel token ch).2 = Go.ret () ∧
      (sm.RemoveConnectedApiSessionWithChannel token ch).1.closed = sm.closed ++ [removeCB] ∧
      (∀ ch', GoMap.get (GoMap.delete sessions ch) ch'
        = if ch' = ch then none else GoMap.get sessions ch') ∧
      (GoMap.len (GoMap.delete sessions ch) = 0 →
        GoMap.get (sm.RemoveConnectedApiSessionWithChannel token ch).1.activeApiSessions token
          = none) ∧
      (GoMap.len (GoMap.delete sessions ch) ≠ 0 →
        GoMap.get (sm.RemoveConnectedApiSessionWithChannel token ch).1.activeApiSessions token
          = some (GoMap.delete sessions ch)) ∧
      (∀ token', token' ≠ token →
        GoMap.get (sm.RemoveConnectedApiSessionWithChannel token ch).1.activeApiSessions token'
          = GoMap.get sm.activeApiSessions token') := by
  unfold ManagerImpl.RemoveConnectedApiSessionWithChannel
  simp only [h1, h2]
  by_cases hlen : GoMap.len (GoMap.delete sessions ch) = 0
  · rw [if_pos hlen]
    refine ⟨rfl, rfl, GoMap.get_delete sessions ch, fun _ => ?_, fun h => absurd hlen h, ?_⟩
    · show GoMap.get (GoMap.delete sm.activeApiSessions token) token = none
      rw [GoMap.get_delete, if_pos rfl]
    · intro token' hne
      show GoMap.get (GoMap.delete sm.activeApiSessions token) token' = _
      rw [GoMap.get_delete, if_neg hne]
  · rw [if_neg hlen]
    refine ⟨rfl, rfl, GoMap.get_delete sessions ch, fun h => absurd h hlen, fun _ => ?_, ?_⟩
    · show GoMap.get (GoMap.set sm.activeApiSessions token _) token = _
      rw [GoMap.get_set, if_pos rfl]
    · intro token' hne
      show GoMap.get (GoMap.set sm.activeApiSessions token _) token' = _
      rw [GoMap.get_set, if_neg hne]

/-- Claim C20 at a concrete input: the token `"t"` with two channels. -/
theorem remove_connected_channel_witness :
    (({ NewManager with
          activeApiSessions :=
            [("t", [(({ ptr := 1, Id := "a" } : Channel), some 7),
                    (({ ptr := 2, Id := "b" } : Channel), some 8)])] }
        : ManagerImpl).RemoveConnectedApiSessionWithChannel "t" { ptr := 1, Id := "a" }).1.closed
      = [7] :=
  (remove_connected_channel
    { NewManager with
      activeApiSessions :=
        [("t", [(({ ptr := 1, Id := "a" } : Channel), some 7),
                (({ ptr := 2, Id := "b" } : Channel), some 8)])] }
    "t" { ptr := 1, Id := "a" } _ 7 rfl rfl).2.1

/-! ### The reconciliation loop, the lookup backoff, the root pool, tombstones -/

/-- The loop of `ValidateSessions` when the send of its chunk number `k + 1`
is the first one to fail. -/
theorem validateLoop_abort (env : ValidateEnv) (chunkSize : Nat)
    (minInterval maxInterval : Int)
    (hm : ∀ chunk, env.marshalOk chunk = true)
    (hmin : 0 ≤ minInterval) (hmax : maxInterval < 2 ^ 63) :
    ∀ (k fuel i : Nat) (tokens : List String), k + 1 ≤ fuel →
      (∀ t, t < k → env.sendOk (i + t) = true) → env.sendOk (i + k) = false →
      k * chunkSize < tokens.length →
      ∃ pre, validateLoop env chunkSize minInterval maxInterval fuel i tokens
          = some (pre ++ [ValidateStep.send ((tokens.drop (k * chunkSize)).take chunkSize) false]) ∧
        (∀ s ∈ pre, (∃ c, s = ValidateStep.send c true) ∨ ∃ d, s = ValidateStep.sleep d) ∧
        (sentChunks
          (pre ++ [ValidateStep.send ((tokens.drop (k * chunkSize)).take chunkSize) false])).length
          = k + 1 ∧
        (sentChunks
          (pre ++ [ValidateStep.send ((tokens.drop (k * chunkSize)).take chunkSize)
            false])).flatten = tokens.take ((k + 1) * chunkSize) := by
  intro k
  induction k with
  | zero =>
    intro fuel i tokens hfuel _ hfail hlen
    obtain ⟨fuel, rfl⟩ : ∃ f, fuel = f + 1 := ⟨fuel - 1, by omega⟩
    cases tokens with
    | nil => simp at hlen
    | cons tok toks =>
      refine ⟨[], ?_, by simp, by simp [sentChunks], by simp [sentChunks]⟩
      unfold validateLoop
      simp only [Nat.add_zero] at hfail
      simp only [hm, hfail, Bool.not_true, Bool.false_eq_true, if_false, Bool.not_false, if_true,
        Nat.zero_mul, List.drop_zero, List.nil_append]
      by_cases hgt : (tok :: toks).length > chunkSize
      · rw [if_pos hgt]
      · rw [if_neg hgt, List.take_of_length_le (by omega)]
  | succ k ih =>
    intro fuel i tokens hfuel hok hfail hlen
    obtain ⟨fuel, rfl⟩ : ∃ f, fuel = f + 1 := ⟨fuel - 1, by omega⟩
    cases tokens with
    | nil => simp at hlen
    | cons tok toks =>
      have hmul : (k + 1) * chunkSize = k * chunkSize + chunkSize := Nat.succ_mul k chunkSize
      have hgt : (tok :: toks).length > chunkSize := by
        have : 0 ≤ k * chunkSize := Nat.zero_le _
        omega
      have hrest : ((tok :: toks).drop chunkSize).length > 0 := by
        rw [List.length_drop]; omega
      have hrestlen : k * chunkSize < ((tok :: toks).drop chunkSize).length := by
        rw [List.length_drop]; omega
      have h0 : env.sendOk i = true := by simpa using hok 0 (by omega)
      obtain ⟨d, hd⟩ := jitterInterval_returns (env.rand i) minInterval maxInterval hmin hmax
      obtain ⟨pre, hpre, h1, h2, h3⟩ := ih fuel (i + 1) ((tok :: toks).drop chunkSize) (by omega)
        (fun t ht => by
          have := hok (t + 1) (by omega)
          rwa [show i + (t + 1) = i + 1 + t by omega] at this)
        (by rwa [show i + (k + 1) = i + 1 + k by omega] at hfail) hrestlen
      have hdrop : ((tok :: toks).drop chunkSize).drop (k * chunkSize)
          = (tok :: toks).drop ((k + 1) * chunkSize) := by
        rw [List.drop_drop, hmul, Nat.add_comm]
      rw [hdrop] at hpre h2 h3
      refine ⟨ValidateStep.send ((tok :: toks).take chunkSize) true ::
        ValidateStep.sleep d :: pre, ?_, ?_, ?_, ?_⟩
      · unfold validateLoop
        simp only [hm, h0, Bool.not_true, Bool.false_eq_true, if_false, hgt, if_true]
        rw [if_pos hrest, hd]
        simp only [hpre, Option.map_some', List.cons_append]
      · intro s hs
        simp only [List.mem_cons] at hs
        rcases hs with rfl | rfl | hs
        · exact Or.inl ⟨_, rfl⟩
        · exact Or.inr ⟨_, rfl⟩
        · exact h1 s hs
      · simp only [List.cons_append, sentChunks, List.length_cons, List.append_eq, h2]
      · simp only [List.cons_append, sentChunks, List.flatten_cons, List.append_eq, h3]
        rw [show (k + 1 + 1) * chunkSize = chunkSize + (k + 1) * chunkSize by
          rw [Nat.succ_mul (k + 1) chunkSize]; omega]
        rw [List.take_add]

/-- The loop of `ValidateSessions` ends within `fuel` iterations when
`fuel * chunkSize` covers the token list, whatever the environment does, and
it sends at most `n` chunks for every `n` with `n * chunkSize` covering the list. -/
theorem validateLoop_terminates (env : ValidateEnv) (chunkSize : Nat)
    (minInterval maxInterval : Int) :
    ∀ (fuel i : Nat) (tokens : List String), tokens.length ≤ fuel * chunkSize →
      ∃ steps, validateLoop env chunkSize minInterval maxInterval fuel i tokens = some steps ∧
        ∀ n, tokens.length ≤ n * chunkSize → (sentChunks steps).length ≤ n := by
  intro fuel
  induction fuel with
  | zero =>
    intro i tokens hlen
    have : tokens = [] := List.length_eq_zero.mp (by omega)
    subst this
    exact ⟨[], rfl, by simp [sentChunks]⟩
  | succ fuel ih =>
    intro i tokens hlen
    cases tokens with
    | nil => exact ⟨[], rfl, by simp [sentChunks]⟩
    | cons tok toks =>
      have hpos : ∀ n, (tok :: toks).length ≤ n * chunkSize → 1 ≤ n := by
        intro n hn
        cases n with
        | zero => simp at hn
        | succ n => omega
      unfold validateLoop
      simp only
      by_cases hmar : env.marshalOk
          (if (tok :: toks).length > chunkSize then (tok :: toks).take chunkSize
            else tok :: toks) = true
      · by_cases hsend : env.sendOk i = true
        · simp only [hmar, hsend, Bool.not_true, Bool.false_eq_true, if_false]
          by_cases hgt : (tok :: toks).length > chunkSize
          · have hrest : ((tok :: toks).drop chunkSize).length > 0 := by
              rw [List.length_drop]; omega
            have hrestle : ((tok :: toks).drop chunkSize).length ≤ fuel * chunkSize := by
              rw [List.length_drop, Nat.succ_mul] at *; omega
            obtain ⟨steps, hsteps, hcount⟩ := ih (i + 1) _ hrestle
            simp only [hgt, if_true]
            rw [if_pos hrest]
            cases hj : jitterInterval (env.rand i) minInterval maxInterval with
            | panic p =>
              exact ⟨_, rfl, fun n hn => by simpa [sentChunks] using hpos n hn⟩
            | ret d =>
              simp only [hsteps, Option.map_some']
              refine ⟨_, rfl, fun n hn => ?_⟩
              obtain ⟨m, rfl⟩ : ∃ m, n = m + 1 := ⟨n - 1, by have := hpos n hn; omega⟩
              have := hcount m (by rw [List.length_drop]; rw [Nat.succ_mul] at hn; omega)
              simp only [sentChunks, List.length_cons]
              omega
          · simp only [hgt, if_false, List.length_nil, gt_iff_lt, Nat.lt_irrefl]
            refine ⟨[ValidateStep.send (tok :: toks) true], ?_,
              fun n hn => by simpa [sentChunks] using hpos n hn⟩
            cases fuel <;> rfl
        · simp only [hmar, hsend, Bool.not_true, Bool.false_eq_true, if_false, Bool.not_false,
            if_true]
          exact ⟨_, rfl, fun n hn => by simpa [sentChunks] using hpos n hn⟩
      · simp only [hmar, Bool.not_false, if_true]
        exact ⟨_, rfl, by simp [sentChunks]⟩

/-- With `chunkSize = 0` the loop of `ValidateSessions` never ends on a
non-empty token list when every marshal and send succeeds. -/
theorem validateLoop_zero_chunk (env : ValidateEnv) (minInterval maxInterval : Int)
    (hm : ∀ chunk, env.marshalOk chunk = true) (hs : ∀ i, env.sendOk i = true)
    (hmin : 0 ≤ minInterval) (hmax : maxInterval < 2 ^ 63) :
    ∀ (fuel i : Nat) (tokens : List String), tokens ≠ [] →
      validateLoop env 0 minInterval maxInterval fuel i tokens = none := by
  intro fuel
  induction fuel with
  | zero =>
    intro i tokens hne
    cases tokens with
    | nil => exact absurd rfl hne
    | cons tok toks => rfl
  | succ fuel ih =>
    intro i tokens hne
    cases tokens with
    | nil => exact absurd rfl hne
    | cons tok toks =>
      obtain ⟨d, hd⟩ := jitterInterval_returns (env.rand i) minInterval maxInterval hmin hmax
      unfold validateLoop
      simp only [hm, hs, Bool.not_true, Bool.false_eq_true, if_false, List.length_cons,
        gt_iff_lt, Nat.zero_lt_succ, if_true, List.drop_zero, hd, ih (i + 1) (tok :: toks) hne,
        Option.map_none']

/-- The iteration bound `ceil(len / chunkSize)` covers the list. -/
theorem ceil_div_covers {len chunkSize fuel : Nat} (hc : 1 ≤ chunkSize)
    (h : (len + chunkSize - 1) / chunkSize ≤ fuel) : len ≤ fuel * chunkSize := by
  have h1 : (len + chunkSize - 1) / chunkSize < fuel + 1 := by omega
  rw [Nat.div_lt_iff_lt_mul (by omega)] at h1
  rw [Nat.succ_mul] at h1
  omega

/-- The waits of `GetApiSessionWithTimeout` in closed form: `2 ^ k` milliseconds
up to the eleventh, 1024 milliseconds from then on. -/
theorem waitAfter_closed (k : Nat) :
    (k ≤ 10 → waitAfter k = 2 ^ k * Millisecond) ∧
      (10 ≤ k → waitAfter k = 1024 * Millisecond) := by
  induction k with
  | zero => exact ⟨fun _ => by decide, fun h => by omega⟩
  | succ k ih =>
    have hstep : waitAfter (k + 1) = nextWaitTime (waitAfter k) := rfl
    constructor
    · intro hk
      have hk' : k ≤ 9 := by omega
      rw [hstep, ih.1 (by omega)]
      interval_cases k <;> decide
    · intro hk
      rw [hstep]
      by_cases h10 : k = 9
      · subst h10
        rw [ih.1 (by omega)]
        decide
      · rw [ih.2 (by omega)]
        decide

/-- Every wait of `GetApiSessionWithTimeout` lies between 1 and 1024 milliseconds. -/
theorem waitAfter_bounds (k : Nat) :
    Millisecond ≤ waitAfter k ∧ waitAfter k ≤ 1024 * Millisecond := by
  by_cases hk : k ≤ 10
  · rw [(waitAfter_closed k).1 hk]
    interval_cases k <;> decide
  · rw [(waitAfter_closed k).2 (by omega)]
    decide

/-- The loop of `GetApiSessionWithTimeout` ends within `fuel` iterations when
`fuel` milliseconds cover the time left to the deadline. -/
theorem apiSessionPollLoop_returns (lookup : Nat → Option ApiSession) (deadline : Int) :
    ∀ (fuel i : Nat) (now : Int) (k : Nat), deadline - now ≤ fuel * Millisecond →
      ∃ r, ManagerImpl.apiSessionPollLoop lookup deadline fuel i now (waitAfter k) = some r := by
  intro fuel
  induction fuel with
  | zero =>
    intro i now k h
    unfold ManagerImpl.apiSessionPollLoop
    rw [if_neg (by simp at h; omega)]
    exact ⟨_, rfl⟩
  | succ fuel ih =>
    intro i now k h
    unfold ManagerImpl.apiSessionPollLoop
    by_cases hnow : now < deadline
    · rw [if_pos hnow]
      simp only
      cases hl : lookup i with
      | some s => exact ⟨_, rfl⟩
      | none =>
        have hb := (waitAfter_bounds k).1
        obtain ⟨r, hr⟩ := ih (i + 1) (now + waitAfter k) (k + 1) (by
          push_cast at h
          have : ((fuel : Int) + 1) * Millisecond = fuel * Millisecond + Millisecond := by ring
          omega)
        have hstep : waitAfter (k + 1) = nextWaitTime (waitAfter k) := rfl
        rw [hstep] at hr
        simp only [hr, Option.map_some']
        exact ⟨_, rfl⟩
    · rw [if_neg hnow]
      exact ⟨_, rfl⟩

/-- The durations the loop of `GetApiSessionWithTimeout` sleeps are the waits
`waitAfter k`, `waitAfter (k + 1)`, ... in order. -/
theorem apiSessionPollLoop_sleeps (lookup : Nat → Option ApiSession) (deadline : Int) :
    ∀ (fuel i : Nat) (now : Int) (k : Nat) (r : Option ApiSession × List Int),
      ManagerImpl.apiSessionPollLoop lookup deadline fuel i now (waitAfter k) = some r →
      ∀ j w, r.2[j]? = some w → w = waitAfter (k + j) := by
  intro fuel
  induction fuel with
  | zero =>
    intro i now k r h j w hj
    unfold ManagerImpl.apiSessionPollLoop at h
    by_cases hnow : now < deadline
    · rw [if_pos hnow] at h
      simp at h
    · rw [if_neg hnow] at h
      simp only [Option.some.injEq] at h
      subst h
      simp at hj
  | succ fuel ih =>
    intro i now k r h j w hj
    unfold ManagerImpl.apiSessionPollLoop at h
    by_cases hnow : now < deadline
    · rw [if_pos hnow] at h
      simp only at h
      cases hl : lookup i with
      | some s =>
        rw [hl] at h
        simp only [Option.some.injEq] at h
        subst h
        simp at hj
      | none =>
        rw [hl] at h
        simp only at h
        cases hrec : ManagerImpl.apiSessionPollLoop lookup deadline fuel (i + 1)
            (now + waitAfter k) (nextWaitTime (waitAfter k)) with
        | none => rw [hrec] at h; simp at h
        | some r' =>
          rw [hrec] at h
          simp only [Option.map_some', Option.some.injEq] at h
          subst h
          cases j with
          | zero =>
            simp only [List.getElem?_cons_zero, Option.some.injEq] at hj
            rw [← hj]; rfl
          | succ j =>
            simp only [List.getElem?_cons_succ] at hj
            have := ih (i + 1) (now + waitAfter k) (k + 1) r' hrec j w hj
            rw [this]
            congr 1
            omega
    · rw [if_neg hnow] at h
      simp only [Option.some.injEq] at h
      subst h
      simp at hj



/-- Every certificate of the root pool was added for a key of the snapshot that
has the client-certificate usage. -/
theorem buildRootPool_kids (ParseCertificate : List Nat → Except String Nat) :
    ∀ (keys : List (String × PublicKey)) (sm : ManagerImpl) (rootPool : List (String × Nat))
      (e : String × Nat),
      e ∈ (ManagerImpl.buildRootPool ParseCertificate sm rootPool keys).2 →
      e ∈ rootPool ∨
        ∃ p ∈ keys, p.2.Kid = e.1 ∧
          contains p.2.Usages PublicKeyUsage.ClientX509CertValidation = true := by
  intro keys
  induction keys with
  | nil =>
    intro sm rootPool e he
    exact Or.inl he
  | cons a rest ih =>
    intro sm rootPool e he
    obtain ⟨k, val⟩ := a
    unfold ManagerImpl.buildRootPool at he
    by_cases hu : contains val.Usages PublicKeyUsage.ClientX509CertValidation = true
    · rw [if_pos hu] at he
      cases hx : ManagerImpl.getX509FromData ParseCertificate sm val.Kid val.Data with
      | mk sm1 res =>
        rw [hx] at he
        cases res with
        | error err =>
          simp only at he
          rcases ih sm1 rootPool e he with h | ⟨p, hp, h1, h2⟩
          · exact Or.inl h
          · exact Or.inr ⟨p, List.mem_cons_of_mem _ hp, h1, h2⟩
        | ok cert =>
          simp only at he
          rcases ih sm1 _ e he with h | ⟨p, hp, h1, h2⟩
          · rcases List.mem_append.mp h with h | h
            · exact Or.inl h
            · simp only [List.mem_singleton] at h
              subst h
              exact Or.inr ⟨(k, val), List.mem_cons_self _ _, rfl, hu⟩
          · exact Or.inr ⟨p, List.mem_cons_of_mem _ hp, h1, h2⟩
    · rw [if_neg hu] at he
      rcases ih sm rootPool e he with h | ⟨p, hp, h1, h2⟩
      · exact Or.inl h
      · exact Or.inr ⟨p, List.mem_cons_of_mem _ hp, h1, h2⟩

/-- The method `getX509FromData` changes nothing but the certificate cache, and
the cache only at the key id it was called with. -/
theorem getX509FromData_cache (ParseCertificate : List Nat → Except String Nat)
    (sm : ManagerImpl) (kid : String) (data : List Nat) (kid' : String) (h : kid' ≠ kid) :
    GoMap.get (ManagerImpl.getX509FromData ParseCertificate sm kid data).1.certCache kid'
      = GoMap.get sm.certCache kid' := by
  unfold ManagerImpl.getX509FromData
  cases hc : GoMap.get sm.certCache kid with
  | some c => rfl
  | none =>
    cases hp : ParseCertificate data with
    | error err => rfl
    | ok cert =>
      simp only
      rw [GoMap.get_set, if_neg h]

/-- With a cache that agrees with the bytes of the key, `getX509FromData`
returns what `x509.ParseCertificate` returns for these bytes. -/
theorem getX509FromData_coherent (ParseCertificate : List Nat → Except String Nat)
    (sm : ManagerImpl) (kid : String) (data : List Nat)
    (h : ∀ c, GoMap.get sm.certCache kid = some c → ParseCertificate data = Except.ok c) :
    (ManagerImpl.getX509FromData ParseCertificate sm kid data).2 = ParseCertificate data := by
  unfold ManagerImpl.getX509FromData
  cases hc : GoMap.get sm.certCache kid with
  | some c => rw [h c hc]
  | none =>
    cases hp : ParseCertificate data with
    | error err => rfl
    | ok cert => rfl

/-- With distinct key ids and a cache that agrees with the bytes of the keys,
the root pool holds exactly the certificates parsed from the keys that have
the client-certificate usage. -/
theorem buildRootPool_coherent (ParseCertificate : List Nat → Except String Nat) :
    ∀ (keys : List (String × PublicKey)) (sm : ManagerImpl) (rootPool : List (String × Nat)),
      (keys.map (fun p => p.2.Kid)).Nodup →
      (∀ p ∈ keys, ∀ c, GoMap.get sm.certCache p.2.Kid = some c →
        ParseCertificate p.2.Data = Except.ok c) →
      ∀ c, c ∈ (ManagerImpl.buildRootPool ParseCertificate sm rootPool keys).2.map Prod.snd ↔
        (c ∈ rootPool.map Prod.snd ∨
          ∃ p ∈ keys, contains p.2.Usages PublicKeyUsage.ClientX509CertValidation = true ∧
            ParseCertificate p.2.Data = Except.ok c) := by
  intro keys
  induction keys with
  | nil =>
    intro sm rootPool _ _ c
    simp [ManagerImpl.buildRootPool]
  | cons a rest ih =>
    intro sm rootPool hnd hcoh c
    obtain ⟨k, val⟩ := a
    simp only [List.map_cons, List.nodup_cons] at hnd
    have hrest : ∀ sm1 : ManagerImpl,
        (∀ kid', kid' ≠ val.Kid → GoMap.get sm1.certCache kid' = GoMap.get sm.certCache kid') →
        ∀ p ∈ rest, ∀ c, GoMap.get sm1.certCache p.2.Kid = some c →
          ParseCertificate p.2.Data = Except.ok c := by
      intro sm1 hsame p hp c hc
      have hne : p.2.Kid ≠ val.Kid := by
        intro heq
        exact hnd.1 (heq ▸ List.mem_map_of_mem (fun p => p.2.Kid) hp)
      rw [hsame _ hne] at hc
      exact hcoh p (List.mem_cons_of_mem _ hp) c hc
    unfold ManagerImpl.buildRootPool
    by_cases hu : contains val.Usages PublicKeyUsage.ClientX509CertValidation = true
    · rw [if_pos hu]
      have hres := getX509FromData_coherent ParseCertificate sm val.Kid val.Data
        (hcoh (k, val) (List.mem_cons_self _ _))
      have hsame := getX509FromData_cache ParseCertificate sm val.Kid val.Data
      cases hx : ManagerImpl.getX509FromData ParseCertificate sm val.Kid val.Data with
      | mk sm1 res =>
        rw [hx] at hres hsame
        simp only at hres hsame
        cases res with
        | error err =>
          simp only
          rw [ih sm1 rootPool hnd.2 (hrest sm1 hsame) c]
          constructor
          · rintro (h | ⟨p, hp, h1, h2⟩)
            · exact Or.inl h
            · exact Or.inr ⟨p, List.mem_cons_of_mem _ hp, h1, h2⟩
          · rintro (h | ⟨p, hp, h1, h2⟩)
            · exact Or.inl h
            · rcases List.mem_cons.mp hp with rfl | hp
              · rw [← hres] at h2
                cases h2
              · exact Or.inr ⟨p, hp, h1, h2⟩
        | ok cert =>
          simp only
          rw [ih sm1 _ hnd.2 (hrest sm1 hsame) c]
          simp only [List.map_append, List.map_cons, List.map_nil, List.mem_append,
            List.mem_singleton]
          constructor
          · rintro ((h | h) | ⟨p, hp, h1, h2⟩)
            · exact Or.inl h
            · subst h
              exact Or.inr ⟨(k, val), List.mem_cons_self _ _, hu, hres.symm⟩
            · exact Or.inr ⟨p, List.mem_cons_of_mem _ hp, h1, h2⟩
          · rintro (h | ⟨p, hp, h1, h2⟩)
            · exact Or.inl (Or.inl h)
            · rcases List.mem_cons.mp hp with rfl | hp
              · rw [← hres] at h2
                cases h2
                exact Or.inl (Or.inr rfl)
              · exact Or.inr ⟨p, hp, h1, h2⟩
    · rw [if_neg hu]
      rw [ih sm rootPool hnd.2 (hrest sm (fun _ _ => rfl)) c]
      constructor
      · rintro (h | ⟨p, hp, h1, h2⟩)
        · exact Or.inl h
        · exact Or.inr ⟨p, List.mem_cons_of_mem _ hp, h1, h2⟩
      · rintro (h | ⟨p, hp, h1, h2⟩)
        · exact Or.inl h
        · rcases List.mem_cons.mp hp with rfl | hp
          · exact absurd h1 hu
          · exact Or.inr ⟨p, hp, h1, h2⟩


/-- The session map and the recently-removed set after `SessionConnectionClosed`. -/
theorem sessionConnectionClosed_maps (sm : ManagerImpl) (token : String) (now : Nat) :
    (GoMap.get sm.sessions token = none ∨
        (∃ c, GoMap.get sm.sessions token = some c ∧ (c + 1) % 2 ^ 32 = 0)) ∧
      (sm.SessionConnectionClosed token now).recentlyRemovedSessions
        = GoMap.set sm.recentlyRemovedSessions token now ∧
      (∀ t, GoMap.get (sm.SessionConnectionClosed token now).sessions t
        = if t = token then none else GoMap.get sm.sessions t) ∨
    (∃ c, GoMap.get sm.sessions token = some c ∧ (c + 1) % 2 ^ 32 ≠ 0 ∧
      (sm.SessionConnectionClosed token now).recentlyRemovedSessions
        = sm.recentlyRemovedSessions ∧
      (∀ t, GoMap.get (sm.SessionConnectionClosed token now).sessions t
        = if t = token then some ((c + 1) % 2 ^ 32) else GoMap.get sm.sessions t)) := by
  have hup : ∀ t, GoMap.get
      (GoMap.upsert sm.sessions 0 token 0
        (fun exist valueInMap _newValue => if !exist then 0 else (valueInMap + 1) % 2 ^ 32))
      t = if t = token then
          some (match GoMap.get sm.sessions token with
            | some v => (v + 1) % 2 ^ 32
            | none => 0)
        else GoMap.get sm.sessions t := by
    intro t
    rw [GoMap.get_upsert]
    cases GoMap.get sm.sessions token <;> simp
  unfold ManagerImpl.SessionConnectionClosed
  simp only [hup token, if_true]
  cases hc : GoMap.get sm.sessions token with
  | none =>
    left
    simp only [if_true]
    refine ⟨by simp, by simp, fun t => ?_⟩
    rw [GoMap.get_delete, hup t, hc]
    by_cases ht : t = token
    · simp [ht]
    · simp [ht]
  | some c =>
    simp only
    by_cases hz : (c + 1) % 2 ^ 32 = 0
    · left
      rw [if_pos hz]
      refine ⟨Or.inr ⟨c, rfl, hz⟩, rfl, fun t => ?_⟩
      rw [GoMap.get_delete, hup t, hc]
      by_cases ht : t = token
      · simp [ht]
      · simp [ht]
    · right
      rw [if_neg hz]
      refine ⟨c, rfl, hz, rfl, fun t => ?_⟩
      rw [hup t, hc]

/-- The session map and the recently-removed set after `RemoveEdgeSession`. -/
theorem removeEdgeSession_maps (sm : ManagerImpl) (token : String) (now : Nat) :
    (sm.RemoveEdgeSession token now).recentlyRemovedSessions
        = (match GoMap.get sm.sessions token with
          | some _ => GoMap.set sm.recentlyRemovedSessions token now
          | none => sm.recentlyRemovedSessions) ∧
      (∀ t, GoMap.get (sm.RemoveEdgeSession token now).sessions t
        = if t = token then none else GoMap.get sm.sessions t) := by
  unfold ManagerImpl.RemoveEdgeSession
  simp only [emit_eq, ManagerImpl.RemoveAllListeners]
  cases hc : GoMap.get sm.sessions token with
  | none =>
    refine ⟨rfl, fun t => ?_⟩
    by_cases ht : t = token
    · simp [ht, hc]
    · simp [ht, hc]
  | some c =>
    refine ⟨rfl, fun t => ?_⟩
    simp only [GoMap.get_delete]

/-- The session map and the recently-removed set after
`AddEdgeSessionRemovedListener`. -/
theorem addEdgeListener_maps (IsBearerToken : String → Bool) (sm : ManagerImpl)
    (token : String) (callBack : Nat) :
    (sm.AddEdgeSessionRemovedListener IsBearerToken token callBack).1.recentlyRemovedSessions
        = sm.recentlyRemovedSessions ∧
      ((sm.AddEdgeSessionRemovedListener IsBearerToken token callBack).1.sessions = sm.sessions ∨
        (GoMap.has sm.recentlyRemovedSessions token = false ∧
          ∀ t, GoMap.get
              (sm.AddEdgeSessionRemovedListener IsBearerToken token callBack).1.sessions t
            = if t = token then
                some (match GoMap.get sm.sessions token with
                  | some v => (v + 1) % 2 ^ 32
                  | none => 1)
              else GoMap.get sm.sessions t)) := by
  unfold ManagerImpl.AddEdgeSessionRemovedListener
  by_cases hb : IsBearerToken token = true
  · rw [if_pos hb]
    exact ⟨rfl, Or.inl rfl⟩
  · rw [if_neg hb]
    by_cases ht : GoMap.has sm.recentlyRemovedSessions token = true
    · rw [if_pos ht]
      exact ⟨rfl, Or.inl rfl⟩
    · rw [if_neg ht]
      refine ⟨rfl, Or.inr ⟨by simpa using ht, fun t => ?_⟩⟩
      simp only [ManagerImpl.AddListener]
      rw [GoMap.get_upsert]
      cases GoMap.get sm.sessions token <;> simp


/-- A lookup in the recently-removed set after one more tombstone. -/
theorem has_set (m : GoMap String Nat) (k t : String) (v : Nat) :
    GoMap.has (GoMap.set m k v) t = (decide (t = k) || GoMap.has m t) := by
  unfold GoMap.has
  rw [GoMap.get_set]
  by_cases h : t = k
  · simp [h]
  · simp [h]

/-- A token tombstoned by a reference-counting operation was tombstoned or
tracked before, or the operation is `SessionConnectionClosed` on the token
while it is not tracked. -/
theorem applyOp_tombstone (IsBearerToken : String → Bool) (sm : ManagerImpl) (op : RefOp)
    (t : String)
    (h : GoMap.has (applyOp IsBearerToken sm op).recentlyRemovedSessions t = true) :
    GoMap.has sm.recentlyRemovedSessions t = true ∨
      (∃ c, GoMap.get sm.sessions t = some c) ∨
      (∃ now, op = RefOp.closed t now ∧ GoMap.get sm.sessions t = none) := by
  cases op with
  | add token callBack =>
    simp only [applyOp] at h
    rw [(addEdgeListener_maps IsBearerToken sm token callBack).1] at h
    exact Or.inl h
  | closed token now =>
    simp only [applyOp] at h
    rcases sessionConnectionClosed_maps sm token now with ⟨hc, hrr, _⟩ | ⟨c, _, _, hrr, _⟩
    · rw [hrr, has_set] at h
      by_cases ht : t = token
      · subst ht
        rcases hc with hc | ⟨c, hc, _⟩
        · exact Or.inr (Or.inr ⟨now, rfl, hc⟩)
        · exact Or.inr (Or.inl ⟨c, hc⟩)
      · simp only [ht, decide_False, Bool.false_or] at h
        exact Or.inl h
    · rw [hrr] at h
      exact Or.inl h
  | remove token now =>
    simp only [applyOp] at h
    rw [(removeEdgeSession_maps sm token now).1] at h
    cases hc : GoMap.get sm.sessions token with
    | none =>
      rw [hc] at h
      exact Or.inl h
    | some c =>
      rw [hc] at h
      simp only [has_set] at h
      by_cases ht : t = token
      · subst ht
        exact Or.inr (Or.inl ⟨c, hc⟩)
      · simp only [ht, decide_False, Bool.false_or] at h
        exact Or.inl h

/-- A token tracked after a reference-counting operation was tracked before,
or its count is at least 1. -/
theorem applyOp_tracked (IsBearerToken : String → Bool) (sm : ManagerImpl) (op : RefOp)
    (t : String) (c : Nat) (h : GoMap.get (applyOp IsBearerToken sm op).sessions t = some c) :
    (∃ c0, GoMap.get sm.sessions t = some c0) ∨ 1 ≤ c := by
  cases op with
  | add token callBack =>
    simp only [applyOp] at h
    rcases (addEdgeListener_maps IsBearerToken sm token callBack).2 with hs | ⟨_, hs⟩
    · rw [hs] at h
      exact Or.inl ⟨c, h⟩
    · rw [hs t] at h
      by_cases ht : t = token
      · subst ht
        rw [if_pos rfl] at h
        cases hc : GoMap.get sm.sessions t with
        | none =>
          rw [hc] at h
          simp only [Option.some.injEq] at h
          exact Or.inr (by omega)
        | some c0 => exact Or.inl ⟨c0, rfl⟩
      · rw [if_neg ht] at h
        exact Or.inl ⟨c, h⟩
  | closed token now =>
    simp only [applyOp] at h
    rcases sessionConnectionClosed_maps sm token now with ⟨_, _, hs⟩ | ⟨c0, hc0, _, _, hs⟩
    · rw [hs t] at h
      by_cases ht : t = token
      · rw [if_pos ht] at h
        cases h
      · rw [if_neg ht] at h
        exact Or.inl ⟨c, h⟩
    · rw [hs t] at h
      by_cases ht : t = token
      · subst ht
        exact Or.inl ⟨c0, hc0⟩
      · rw [if_neg ht] at h
        exact Or.inl ⟨c, h⟩
  | remove token now =>
    simp only [applyOp] at h
    rw [(removeEdgeSession_maps sm token now).2 t] at h
    by_cases ht : t = token
    · rw [if_pos ht] at h
      cases h
    · rw [if_neg ht] at h
      exact Or.inl ⟨c, h⟩

/-- A reference-counting operation keeps the tombstoned tokens untracked. -/
theorem applyOp_exclusive (IsBearerToken : String → Bool) (sm : ManagerImpl) (op : RefOp)
    (h : ∀ t, GoMap.has sm.recentlyRemovedSessions t = true → GoMap.get sm.sessions t = none) :
    ∀ t, GoMap.has (applyOp IsBearerToken sm op).recentlyRemovedSessions t = true →
      GoMap.get (applyOp IsBearerToken sm op).sessions t = none := by
  intro t ht
  cases op with
  | add token callBack =>
    simp only [applyOp] at ht ⊢
    rw [(addEdgeListener_maps IsBearerToken sm token callBack).1] at ht
    rcases (addEdgeListener_maps IsBearerToken sm token callBack).2 with hs | ⟨hnt, hs⟩
    · rw [hs]
      exact h t ht
    · rw [hs t]
      by_cases htt : t = token
      · subst htt
        rw [hnt] at ht
        cases ht
      · rw [if_neg htt]
        exact h t ht
  | closed token now =>
    simp only [applyOp] at ht ⊢
    rcases sessionConnectionClosed_maps sm token now with ⟨_, hrr, hs⟩ | ⟨c0, hc0, _, hrr, hs⟩
    · rw [hs t]
      by_cases htt : t = token
      · rw [if_pos htt]
      · rw [if_neg htt]
        rw [hrr, has_set] at ht
        simp only [htt, decide_False, Bool.false_or] at ht
        exact h t ht
    · rw [hrr] at ht
      rw [hs t]
      by_cases htt : t = token
      · subst htt
        rw [h t ht] at hc0
        cases hc0
      · rw [if_neg htt]
        exact h t ht
  | remove token now =>
    simp only [applyOp] at ht ⊢
    rw [(removeEdgeSession_maps sm token now).2 t]
    by_cases htt : t = token
    · rw [if_pos htt]
    · rw [if_neg htt]
      rw [(removeEdgeSession_maps sm token now).1] at ht
      cases hc : GoMap.get sm.sessions token with
      | none =>
        rw [hc] at ht
        exact h t ht
      | some c =>
        rw [hc] at ht
        simp only [has_set, htt, decide_False, Bool.false_or] at ht
        exact h t ht

/-- Along a sequence of reference-counting operations the tombstoned tokens
stay untracked. -/
theorem runStates_exclusive (IsBearerToken : String → Bool) :
    ∀ (ops : List RefOp) (sm : ManagerImpl),
      (∀ t, GoMap.has sm.recentlyRemovedSessions t = true → GoMap.get sm.sessions t = none) →
      ∀ s ∈ runStates IsBearerToken sm ops, ∀ t,
        GoMap.has s.recentlyRemovedSessions t = true → GoMap.get s.sessions t = none := by
  intro ops
  induction ops with
  | nil =>
    intro sm h s hs
    simp only [runStates, List.mem_singleton] at hs
    subst hs
    exact h
  | cons op rest ih =>
    intro sm h s hs
    simp only [runStates, List.mem_cons] at hs
    rcases hs with rfl | hs
    · exact h
    · exact ih _ (applyOp_exclusive IsBearerToken sm op h) s hs

/-- Where a tombstone comes from along a sequence of reference-counting
operations started in any state. -/
theorem runStates_provenance (IsBearerToken : String → Bool) :
    ∀ (ops : List RefOp) (sm : ManagerImpl) (j : Nat) (s : ManagerImpl) (t : String),
      (runStates IsBearerToken sm ops)[j]? = some s →
      (GoMap.has s.recentlyRemovedSessions t = true ∨ ∃ c, GoMap.get s.sessions t = some c) →
      GoMap.has sm.recentlyRemovedSessions t = true ∨
        (∃ c, GoMap.get sm.sessions t = some c) ∨
        (∃ i s' c, i ≤ j ∧ (runStates IsBearerToken sm ops)[i]? = some s' ∧
          GoMap.get s'.sessions t = some c ∧ 1 ≤ c) ∨
        (∃ i s' now, i < j ∧ ops[i]? = some (RefOp.closed t now) ∧
          (runStates IsBearerToken sm ops)[i]? = some s' ∧ GoMap.get s'.sessions t = none) := by
  intro ops
  induction ops with
  | nil =>
    intro sm j s t hs ht
    cases j with
    | zero =>
      simp only [runStates, List.getElem?_cons_zero, Option.some.injEq] at hs
      subst hs
      rcases ht with ht | ht
      · exact Or.inl ht
      · exact Or.inr (Or.inl ht)
    | succ j => simp [runStates] at hs
  | cons op rest ih =>
    intro sm j s t hs ht
    cases j with
    | zero =>
      simp only [runStates, List.getElem?_cons_zero, Option.some.injEq] at hs
      subst hs
      rcases ht with ht | ht
      · exact Or.inl ht
      · exact Or.inr (Or.inl ht)
    | succ j =>
      simp only [runStates, List.getElem?_cons_succ] at hs
      have htracked : (∃ c, GoMap.get (applyOp IsBearerToken sm op).sessions t = some c) →
          (∃ c, GoMap.get sm.sessions t = some c) ∨
            ∃ i s' c, i ≤ j + 1 ∧ (runStates IsBearerToken sm (op :: rest))[i]? = some s' ∧
              GoMap.get s'.sessions t = some c ∧ 1 ≤ c := by
        rintro ⟨c, hc⟩
        rcases applyOp_tracked IsBearerToken sm op t c hc with h0 | h1
        · exact Or.inl h0
        · refine Or.inr ⟨1, applyOp IsBearerToken sm op, c, by omega, ?_, hc, h1⟩
          cases rest <;> simp [runStates]
      rcases ih (applyOp IsBearerToken sm op) j s t hs ht with h | h | h | h
      · rcases applyOp_tombstone IsBearerToken sm op t h with h0 | h0 | ⟨now, hop, hnone⟩
        · exact Or.inl h0
        · exact Or.inr (Or.inl h0)
        · refine Or.inr (Or.inr (Or.inr ⟨0, sm, now, by omega, ?_, ?_, hnone⟩))
          · simp [hop]
          · simp [runStates]
      · rcases htracked h with h0 | h1
        · exact Or.inr (Or.inl h0)
        · exact Or.inr (Or.inr (Or.inl h1))
      · obtain ⟨i, s', c, hi, hs', hc, h1⟩ := h
        refine Or.inr (Or.inr (Or.inl ⟨i + 1, s', c, by omega, ?_, hc, h1⟩))
        simp only [runStates, List.getElem?_cons_succ]
        exact hs'
      · obtain ⟨i, s', now, hi, hop, hs', hnone⟩ := h
        refine Or.inr (Or.inr (Or.inr ⟨i + 1, s', now, by omega, ?_, ?_, hnone⟩))
        · simp only [List.getElem?_cons_succ]
          exact hop
        · simp only [runStates, List.getElem?_cons_succ]
          exact hs'

/-! ### The claims, continued: trust anchors, callbacks, backoff, reconciliation -/

/-- Claim C21, amended. The root pool `VerifyClientCert` builds holds a
certificate for a key id only if the installed snapshot has a public key with
that id whose usages include client-certificate validation. When the key ids
of the snapshot are distinct and every cached certificate for a key id of the
snapshot was parsed from the bytes of that key (the certificate cache is keyed
by key id and `SetRouterDataModel` does not clear it), then, with chain
verification taken as the check that the issuer's certificate is in the pool:
a certificate whose issuer is parsed from a client-validation key of the
snapshot verifies, and a certificate whose issuer is parsed from no such key
of the snapshot fails to verify. -/
theorem client_cert_trust_set (ParseCertificate : List Nat → Except String Nat)
    (issuerOf : Nat → Nat) (sm : ManagerImpl) (model : RouterDataModel) (cert : Nat) :
    (∀ e ∈ (ManagerImpl.buildRootPool ParseCertificate (sm.SetRouterDataModel model) []
        model.PublicKeys).2,
      ∃ p ∈ model.PublicKeys, p.2.Kid = e.1 ∧
        PublicKeyUsage.ClientX509CertValidation ∈ p.2.Usages) ∧
    ((model.PublicKeys.map (fun p => p.2.Kid)).Nodup →
      (∀ p ∈ model.PublicKeys, ∀ c, GoMap.get sm.certCache p.2.Kid = some c →
        ParseCertificate p.2.Data = Except.ok c) →
      ((∃ p ∈ model.PublicKeys, PublicKeyUsage.ClientX509CertValidation ∈ p.2.Usages ∧
          ParseCertificate p.2.Data = Except.ok (issuerOf cert)) →
        ((sm.SetRouterDataModel model).VerifyClientCert ParseCertificate
          (chainVerifies issuerOf) cert).2 = Go.ret none) ∧
      ((∀ p ∈ model.PublicKeys, PublicKeyUsage.ClientX509CertValidation ∈ p.2.Usages →
          ParseCertificate p.2.Data ≠ Except.ok (issuerOf cert)) →
        ((sm.SetRouterDataModel model).VerifyClientCert ParseCertificate
          (chainVerifies issuerOf) cert).2 = Go.ret (some VerifyError.couldNotVerify))) := by
  refine ⟨?_, ?_⟩
  · intro e he
    rcases buildRootPool_kids ParseCertificate model.PublicKeys _ [] e he with
      h | ⟨p, hp, h1, h2⟩
    · simp at h
    · exact ⟨p, hp, h1, (contains_eq_true _ _).mp h2⟩
  · intro hkids hcache
    have hpool := buildRootPool_coherent ParseCertificate model.PublicKeys
      (sm.SetRouterDataModel model) [] hkids hcache (issuerOf cert)
    simp only [List.map_nil, List.not_mem_nil, false_or, contains_eq_true] at hpool
    constructor
    · intro hex
      unfold ManagerImpl.VerifyClientCert
      simp only [ManagerImpl.SetRouterDataModel, chainVerifies]
      rw [if_pos (by simpa using hpool.mpr hex)]
    · intro hnone
      unfold ManagerImpl.VerifyClientCert
      simp only [ManagerImpl.SetRouterDataModel, chainVerifies]
      rw [if_neg]
      intro hmem
      obtain ⟨p, hp, h1, h2⟩ := hpool.mp (by simpa using hmem)
      exact hnone p hp h1 h2

/-- Claim C21 at a concrete input: under the snapshot with the key `"k1"`
(certificate 1) the certificate 101, issued by 1, verifies; after a snapshot
with only the key `"k2"` (certificate 2) is installed, it fails to verify. -/
theorem client_cert_trust_set_witness :
    ((NewManager.SetRouterDataModel (sampleSnapshot "k1" [1])).VerifyClientCert
        sampleParseCertificate (chainVerifies sampleIssuerOf) 101).2 = Go.ret none ∧
    ((((NewManager.SetRouterDataModel (sampleSnapshot "k1" [1])).VerifyClientCert
        sampleParseCertificate (chainVerifies sampleIssuerOf) 101).1.SetRouterDataModel
        (sampleSnapshot "k2" [2])).VerifyClientCert
        sampleParseCertificate (chainVerifies sampleIssuerOf) 101).2
      = Go.ret (some VerifyError.couldNotVerify) :=
  ⟨((client_cert_trust_set sampleParseCertificate sampleIssuerOf NewManager
      (sampleSnapshot "k1" [1]) 101).2 (by decide)
      (by intro p hp c hc; simp [NewManager, GoMap.get] at hc)).1
      ⟨_, List.mem_singleton.mpr rfl, by decide, rfl⟩,
    ((client_cert_trust_set sampleParseCertificate sampleIssuerOf
      ((NewManager.SetRouterDataModel (sampleSnapshot "k1" [1])).VerifyClientCert
        sampleParseCertificate (chainVerifies sampleIssuerOf) 101).1
      (sampleSnapshot "k2" [2]) 101).2 (by decide)
      (by
        intro p hp c hc
        rw [List.mem_singleton.mp hp] at hc
        have hnone : GoMap.get
            ((NewManager.SetRouterDataModel (sampleSnapshot "k1" [1])).VerifyClientCert
              sampleParseCertificate (chainVerifies sampleIssuerOf) 101).1.certCache "k2"
            = none := by decide
        rw [hnone] at hc
        cases hc)).2
      (by
        intro p hp _
        rw [List.mem_singleton.mp hp]
        intro h
        cases h)⟩

/-- Claim C21, counterexample: a first `VerifyClientCert` under the snapshot
with the key `"k1"` of certificate 1 caches that certificate; a snapshot whose
key `"k1"` has the bytes of certificate 2 is then installed. The certificate
102, whose issuer 2 is a client-validation key of the installed snapshot,
fails to verify, and the certificate 101, whose issuer 1 the installed snapshot
excludes, still verifies: the pool holds the cached certificate 1. -/
theorem stale_certificate_in_root_pool :
    ((((NewManager.SetRouterDataModel (sampleSnapshot "k1" [1])).VerifyClientCert
        sampleParseCertificate (chainVerifies sampleIssuerOf) 101).1.SetRouterDataModel
        (sampleSnapshot "k1" [2])).VerifyClientCert
        sampleParseCertificate (chainVerifies sampleIssuerOf) 102).2
      = Go.ret (some VerifyError.couldNotVerify) ∧
    ((((NewManager.SetRouterDataModel (sampleSnapshot "k1" [1])).VerifyClientCert
        sampleParseCertificate (chainVerifies sampleIssuerOf) 101).1.SetRouterDataModel
        (sampleSnapshot "k1" [2])).VerifyClientCert
        sampleParseCertificate (chainVerifies sampleIssuerOf) 101).2 = Go.ret none := by
  decide

/-- Claim C22. For both event logs, in every state: when `Store(e, cb)` with a
non-nil `cb` is accepted (returns nil), `cb` is invoked exactly once, with the
arguments `(e.Index, e)`, and the log state at the moment of that call is the
state the call leaves, in which `CurrentIndex` returns `(e.Index, true)` and,
for the retaining log, the event map holds `e` under `e.Index`; when the call
is not accepted (an error, or a panic), `cb` is not invoked. -/
theorem store_callback_after_update {W : Type} (e : Event) (cb : Nat → Event → W → W) (w : W) :
    (∀ cache : ForgetfulEventCache,
      ((cache.Store e (some cb) w).result = StoreReturn.nil →
        (cache.Store e (some cb) w).calls
            = [{ index := e.Index, event := e, cache := (cache.Store e (some cb) w).cache }] ∧
          (cache.Store e (some cb) w).cache.CurrentIndex = (e.Index, true) ∧
          (cache.Store e (some cb) w).world = cb e.Index e w) ∧
      ((cache.Store e (some cb) w).result ≠ StoreReturn.nil →
        (cache.Store e (some cb) w).calls = [] ∧ (cache.Store e (some cb) w).world = w)) ∧
    (∀ cache : LoggingEventCache,
      ((cache.Store e (some cb) w).result = StoreReturn.nil →
        (cache.Store e (some cb) w).calls
            = [{ index := e.Index, event := e, cache := (cache.Store e (some cb) w).cache }] ∧
          (cache.Store e (some cb) w).cache.CurrentIndex = Go.ret (e.Index, true) ∧
          GoMap.get (cache.Store e (some cb) w).cache.Events e.Index = some e ∧
          (cache.Store e (some cb) w).world = cb e.Index e w) ∧
      ((cache.Store e (some cb) w).result ≠ StoreReturn.nil →
        (cache.Store e (some cb) w).calls = [] ∧ (cache.Store e (some cb) w).world = w)) := by
  constructor
  · intro cache
    cases hidx : cache.index with
    | none =>
      simp [ForgetfulEventCache.Store, hidx, ForgetfulEventCache.CurrentIndex]
    | some i =>
      simp only [ForgetfulEventCache.Store, hidx]
      by_cases hne : (i + 1) % 2 ^ 64 ≠ e.Index
      · rw [if_pos hne]; simp
      · rw [if_neg hne]; simp [ForgetfulEventCache.CurrentIndex]
  · intro cache
    unfold LoggingEventCache.Store
    cases hcur : cache.currentIndex with
    | panic p => simp
    | ret r =>
      obtain ⟨c, ok⟩ := r
      simp only
      by_cases hrej : (ok && decide ((c + 1) % 2 ^ 64 ≠ e.Index)) = true
      · rw [if_pos hrej]; simp
      · rw [if_neg hrej]
        by_cases hsz : cache.LogSize = 0
        · rw [if_pos hsz]; simp
        · rw [if_neg hsz]
          cases hprev : cache.Log[((cache.HeadLogIndex + 1) % 2 ^ 64) % cache.LogSize]? with
          | none => simp
          | some prevKey =>
            simp only [ne_eq, not_true_eq_false, false_implies, and_true, true_implies,
              true_and]
            have hlt := (List.getElem?_eq_some_iff.mp hprev).1
            refine ⟨?_, (GoMap.get_set _ _ _ _).trans (if_pos rfl)⟩
            unfold LoggingEventCache.CurrentIndex LoggingEventCache.currentIndex
            simp only [List.length_set]
            rw [if_neg (by omega), List.getElem?_set_self (by simpa using hlt)]

/-- Claim C22 at a concrete input: the event with index 1 stored on a fresh
retaining log of capacity 2 and on a fresh tracking-only log. -/
theorem store_callback_after_update_witness :
    ((NewLoggingEventCache 2).Store { Index := 1, Payload := 7 }
        (some (fun _ _ (u : Unit) => u)) ()).calls
      = [{ index := 1, event := { Index := 1, Payload := 7 },
           cache := ((NewLoggingEventCache 2).Store { Index := 1, Payload := 7 }
             (some (fun _ _ (u : Unit) => u)) ()).cache }] ∧
    (NewForgetfulEventCache.Store { Index := 1, Payload := 7 }
        (some (fun _ _ (u : Unit) => u)) ()).cache.CurrentIndex = (1, true) :=
  ⟨(((store_callback_after_update { Index := 1, Payload := 7 } (fun _ _ (u : Unit) => u) ()).2
      (NewLoggingEventCache 2)).1 (by decide)).1,
    (((store_callback_after_update { Index := 1, Payload := 7 } (fun _ _ (u : Unit) => u) ()).1
      NewForgetfulEventCache).1 (by decide)).2.1⟩

/-- Claim C23, amended. Along every sequence of the reference-counting
operations `AddEdgeSessionRemovedListener`, `SessionConnectionClosed` and
`RemoveEdgeSession` applied to a new manager, a token found in the
recently-removed set of a state was, in an earlier state, in the active
session map with a count of at least 1, or an earlier operation of the sequence
is `SessionConnectionClosed` on that token, called while the token was not in
the active session map. `RemoveEdgeSession` on a token that is not tracked
leaves the recently-removed set as it is; `SessionConnectionClosed` on a token
that is not tracked puts the token in it. -/
theorem tombstone_provenance (IsBearerToken : String → Bool) :
    (∀ (ops : List RefOp) (j : Nat) (s : ManagerImpl) (t : String),
      (runStates IsBearerToken NewManager ops)[j]? = some s →
      GoMap.has s.recentlyRemovedSessions t = true →
      (∃ i s' c, i < j ∧ (runStates IsBearerToken NewManager ops)[i]? = some s' ∧
        GoMap.get s'.sessions t = some c ∧ 1 ≤ c) ∨
      (∃ i s' now, i < j ∧ ops[i]? = some (RefOp.closed t now) ∧
        (runStates IsBearerToken NewManager ops)[i]? = some s' ∧
        GoMap.get s'.sessions t = none)) ∧
    (∀ (sm : ManagerImpl) (token : String) (now : Nat), GoMap.get sm.sessions token = none →
      (sm.RemoveEdgeSession token now).recentlyRemovedSessions = sm.recentlyRemovedSessions) ∧
    (∀ (sm : ManagerImpl) (token : String) (now : Nat), GoMap.get sm.sessions token = none →
      GoMap.has (sm.SessionConnectionClosed token now).recentlyRemovedSessions token = true) := by
  refine ⟨?_, ?_, ?_⟩
  · intro ops j s t hs ht
    have hnew : ∀ t, GoMap.has NewManager.recentlyRemovedSessions t = true →
        GoMap.get NewManager.sessions t = none := fun _ _ => rfl
    rcases runStates_provenance IsBearerToken ops NewManager j s t hs (Or.inl ht) with
      h | ⟨c, h⟩ | ⟨i, s', c, hi, hs', hc, h1⟩ | h
    · cases h
    · cases h
    · refine Or.inl ⟨i, s', c, ?_, hs', hc, h1⟩
      rcases Nat.lt_or_eq_of_le hi with hlt | heq
      · exact hlt
      · subst heq
        rw [hs] at hs'
        cases hs'
        have := runStates_exclusive IsBearerToken ops NewManager hnew s
          (List.getElem?_mem hs) t ht
        rw [this] at hc
        cases hc
    · exact Or.inr h
  · intro sm token now h
    rw [(removeEdgeSession_maps sm token now).1, h]
  · intro sm token now h
    rcases sessionConnectionClosed_maps sm token now with ⟨_, hrr, _⟩ | ⟨c, hc, _⟩
    · rw [hrr, has_set]
      simp
    · rw [h] at hc
      cases hc

/-- Claim C23 at a concrete input: one listener added for `"s"`, then
`RemoveEdgeSession("s")`. The token is tombstoned in the last state and was
tracked with count 1 in the state before. -/
theorem tombstone_provenance_witness :
    (runStates (fun _ => false) NewManager [RefOp.add "s" 7, RefOp.remove "s" 50])[2]?
        = some ((NewManager.AddEdgeSessionRemovedListener (fun _ => false) "s"
            7).1.RemoveEdgeSession "s" 50) ∧
      GoMap.has ((NewManager.AddEdgeSessionRemovedListener (fun _ => false) "s"
        7).1.RemoveEdgeSession "s" 50).recentlyRemovedSessions "s" = true ∧
      ((∃ i s' c, i < 2 ∧
          (runStates (fun _ => false) NewManager [RefOp.add "s" 7, RefOp.remove "s" 50])[i]?
            = some s' ∧
          GoMap.get s'.sessions "s" = some c ∧ 1 ≤ c) ∨
        (∃ i s' now, i < 2 ∧
          [RefOp.add "s" 7, RefOp.remove "s" 50][i]? = some (RefOp.closed "s" now) ∧
          (runStates (fun _ => false) NewManager [RefOp.add "s" 7, RefOp.remove "s" 50])[i]?
            = some s' ∧
          GoMap.get s'.sessions "s" = none)) :=
  ⟨by decide, by decide,
    (tombstone_provenance (fun _ => false)).1 [RefOp.add "s" 7, RefOp.remove "s" 50] 2
      ((NewManager.AddEdgeSessionRemovedListener (fun _ => false) "s" 7).1.RemoveEdgeSession
        "s" 50) "s" (by decide) (by decide)⟩

/-- Claim C23, counterexample: on a new manager, `SessionConnectionClosed("x")`
for a token that was never tracked puts `"x"` in the recently-removed set,
although no state of the sequence has `"x"` in the active session map. -/
theorem session_closed_tombstones_untracked_token :
    (runStates (fun _ => false) NewManager [RefOp.closed "x" 5])[1]?
        = some (NewManager.SessionConnectionClosed "x" 5) ∧
      GoMap.has (NewManager.SessionConnectionClosed "x" 5).recentlyRemovedSessions "x" = true ∧
      (∀ s ∈ runStates (fun _ => false) NewManager [RefOp.closed "x" 5],
        GoMap.get s.sessions "x" = none) := by
  decide

/-- Claim C24, amended. `SetRouterDataModel` leaves the parsed-certificate
cache as it is: the cache is keyed by key id and no entry is ever removed.
After a new snapshot is installed, `getX509FromData(kid, data)` returns the
cached certificate for `kid` when the cache holds one, whatever bytes it was
parsed from, and otherwise returns what parsing `data` returns. -/
theorem cert_cache_kept_across_snapshots (ParseCertificate : List Nat → Except String Nat)
    (sm : ManagerImpl) (model : RouterDataModel) (kid : String) (data : List Nat) :
    (sm.SetRouterDataModel model).certCache = sm.certCache ∧
    (∀ cert, GoMap.get sm.certCache kid = some cert →
      ManagerImpl.getX509FromData ParseCertificate (sm.SetRouterDataModel model) kid data
        = (sm.SetRouterDataModel model, Except.ok cert)) ∧
    (GoMap.get sm.certCache kid = none →
      (ManagerImpl.getX509FromData ParseCertificate (sm.SetRouterDataModel model) kid data).2
        = ParseCertificate data) := by
  refine ⟨rfl, ?_, ?_⟩
  · intro cert h
    unfold ManagerImpl.getX509FromData
    simp only [ManagerImpl.SetRouterDataModel, h]
  · intro h
    exact getX509FromData_coherent ParseCertificate _ kid data
      (fun c hc => by simp [ManagerImpl.SetRouterDataModel, h] at hc)

/-- Claim C24 at a concrete input: on a new manager (empty cache) with the
snapshot of the key `"k1"` installed, `getX509FromData("k1", [1])` returns the
certificate parsed from `[1]`. -/
theorem cert_cache_kept_across_snapshots_witness :
    (ManagerImpl.getX509FromData sampleParseCertificate
        (NewManager.SetRouterDataModel (sampleSnapshot "k1" [1])) "k1" [1]).2
      = sampleParseCertificate [1] :=
  (cert_cache_kept_across_snapshots sampleParseCertificate NewManager (sampleSnapshot "k1" [1])
    "k1" [1]).2.2 (by decide)

/-- Claim C24, counterexample: a `VerifyClientCert` under the snapshot whose key
`"k1"` has the bytes `[1]` caches certificate 1; after the snapshot whose key
`"k1"` has the bytes `[2]` is installed, `getX509FromData("k1", [2])` returns
certificate 1, while parsing `[2]` gives certificate 2. -/
theorem stale_certificate_returned :
    Except.toOption (ManagerImpl.getX509FromData sampleParseCertificate
        (((NewManager.SetRouterDataModel (sampleSnapshot "k1" [1])).VerifyClientCert
          sampleParseCertificate (chainVerifies sampleIssuerOf) 101).1.SetRouterDataModel
          (sampleSnapshot "k1" [2]))
        "k1" [2]).2 = some 1 ∧
      Except.toOption (sampleParseCertificate [2]) = some 2 := by
  decide

/-- Claim C25, amended. `GetApiSessionWithTimeout` returns for every timeout
(one loop iteration per millisecond of timeout suffices). Its `j`-th sleep
(counted from 0) lasts `waitAfter j`: the wait starts at 1 millisecond, doubles
after a sleep while it is below 1 second and stays as it is from then on, so
it is 1024 milliseconds from the eleventh sleep on; every wait is at least
1 millisecond and at most 1024 milliseconds. -/
theorem api_session_backoff (lookup : Nat → Option ApiSession) (now timeout : Int) :
    (∀ fuel : Nat, timeout ≤ fuel * Millisecond →
      ∃ r, ManagerImpl.GetApiSessionWithTimeout lookup now timeout fuel = some r) ∧
    (∀ fuel r, ManagerImpl.GetApiSessionWithTimeout lookup now timeout fuel = some r →
      ∀ j w, r.2[j]? = some w →
        w = waitAfter j ∧ Millisecond ≤ w ∧ w ≤ 1024 * Millisecond) ∧
    waitAfter 0 = Millisecond ∧
    (∀ j, waitAfter j < Second → waitAfter (j + 1) = 2 * waitAfter j) ∧
    (∀ j, Second ≤ waitAfter j → waitAfter (j + 1) = waitAfter j) ∧
    (∀ j, 10 ≤ j → waitAfter j = 1024 * Millisecond) := by
  refine ⟨?_, ?_, rfl, ?_, ?_, fun j hj => (waitAfter_closed j).2 hj⟩
  · intro fuel h
    unfold ManagerImpl.GetApiSessionWithTimeout
    cases hl : lookup 0 with
    | some s => exact ⟨_, rfl⟩
    | none =>
      simp only
      exact apiSessionPollLoop_returns lookup (now + timeout) fuel 1 now 0 (by omega)
  · intro fuel r h j w hj
    unfold ManagerImpl.GetApiSessionWithTimeout at h
    cases hl : lookup 0 with
    | some s =>
      rw [hl] at h
      simp only [Option.some.injEq] at h
      subst h
      simp at hj
    | none =>
      rw [hl] at h
      simp only at h
      have := apiSessionPollLoop_sleeps lookup (now + timeout) fuel 1 now 0 r h j w hj
      rw [Nat.zero_add] at this
      rw [this]
      exact ⟨rfl, waitAfter_bounds j⟩
  · intro j hj
    have hb := waitAfter_bounds j
    show nextWaitTime (waitAfter j) = _
    unfold nextWaitTime
    rw [if_pos hj, wrap64_of_range _ (by unfold Millisecond at hb; omega)
      (by unfold Second at hj; omega)]
    omega
  · intro j hj
    show nextWaitTime (waitAfter j) = _
    unfold nextWaitTime
    rw [if_neg (by omega)]

/-- Claim C25 at a concrete input: a lookup that never finds the session,
called at time 0 with a timeout of 2 seconds, returns within 2000 iterations. -/
theorem api_session_backoff_witness :
    ∃ r, ManagerImpl.GetApiSessionWithTimeout (fun _ => none) 0 (2 * Second) 2000 = some r :=
  (api_session_backoff (fun _ => none) 0 (2 * Second)).1 2000 (by decide)

/-- Claim C25, counterexample: with a timeout of 2 seconds and a session that
never appears, the eleventh sleep lasts 1024 milliseconds, more than 1 second. -/
theorem api_session_backoff_exceeds_second :
    (ManagerImpl.GetApiSessionWithTimeout (fun _ => none) 0 (2 * Second) 20).map (fun r => r.2)
        = some [1000000, 2000000, 4000000, 8000000, 16000000, 32000000, 64000000, 128000000,
            256000000, 512000000, 1024000000] ∧
      Second < 1024000000 := by
  decide

/-- Claim C26. For every set of tracked tokens and every `chunkSize`, when
every marshal succeeds (and the intervals are durations with
`0 ≤ minInterval`), the sends of the chunks `1, ..., k` succeed and the send of
chunk `k + 1` fails (the list has more than `k * chunkSize` tokens, so that
chunk exists): a pass of `ValidateSessions` with at least `k + 1` loop
iterations returns, its last step is the failed send of chunk `k + 1`, every
step before is a successful send or a sleep, it performs exactly `k + 1` sends,
and the chunks sent are, in order, the first `(k + 1) * chunkSize` tokens of
the list, so no later chunk is sent and none is sent twice. -/
theorem validate_sessions_abort (sm : ManagerImpl) (env : ValidateEnv) (chunkSize : Nat)
    (minInterval maxInterval : Int) (fuel k : Nat)
    (hm : ∀ chunk, env.marshalOk chunk = true)
    (hmin : 0 ≤ minInterval) (hmax : maxInterval < 2 ^ 63)
    (hok : ∀ t, t < k → env.sendOk t = true) (hfail : env.sendOk k = false)
    (hk : k * chunkSize < (GoMap.keys sm.sessions).length) (hfuel : k + 1 ≤ fuel) :
    ∃ pre, sm.ValidateSessions env chunkSize minInterval maxInterval fuel
        = some (pre ++
            [ValidateStep.send
              (((GoMap.keys sm.sessions).drop (k * chunkSize)).take chunkSize) false]) ∧
      (∀ s ∈ pre, (∃ c, s = ValidateStep.send c true) ∨ ∃ d, s = ValidateStep.sleep d) ∧
      (sentChunks
        (pre ++
          [ValidateStep.send
            (((GoMap.keys sm.sessions).drop (k * chunkSize)).take chunkSize) false])).length
        = k + 1 ∧
      (sentChunks
        (pre ++
          [ValidateStep.send
            (((GoMap.keys sm.sessions).drop (k * chunkSize)).take chunkSize) false])).flatten
        = (GoMap.keys sm.sessions).take ((k + 1) * chunkSize) :=
  validateLoop_abort env chunkSize minInterval maxInterval hm hmin hmax k fuel 0 _ hfuel
    (fun t ht => by rw [Nat.zero_add]; exact hok t ht) (by rw [Nat.zero_add]; exact hfail) hk

/-- Claim C26 at a concrete input: five tokens in chunks of two, the second
send fails. -/
theorem validate_sessions_abort_witness :
    (∃ pre,
      ({ NewManager with sessions := [("a", 1), ("b", 1), ("c", 1), ("d", 1), ("e", 1)] } :
          ManagerImpl).ValidateSessions
          { marshalOk := fun _ => true, sendOk := fun i => decide (i ≠ 1), rand := fun _ => 7 }
          2 0 10 5
        = some (pre ++ [ValidateStep.send ["c", "d"] false]) ∧
      (sentChunks (pre ++ [ValidateStep.send ["c", "d"] false])).length = 2) ∧
      ({ NewManager with sessions := [("a", 1), ("b", 1), ("c", 1), ("d", 1), ("e", 1)] } :
          ManagerImpl).ValidateSessions
          { marshalOk := fun _ => true, sendOk := fun i => decide (i ≠ 1), rand := fun _ => 7 }
          2 0 10 5
        = some [ValidateStep.send ["a", "b"] true, ValidateStep.sleep 7,
            ValidateStep.send ["c", "d"] false] :=
  ⟨(validate_sessions_abort
      { NewManager with sessions := [("a", 1), ("b", 1), ("c", 1), ("d", 1), ("e", 1)] }
      { marshalOk := fun _ => true, sendOk := fun i => decide (i ≠ 1), rand := fun _ => 7 }
      2 0 10 5 1 (fun _ => rfl) (by decide) (by decide)
      (fun t ht => by
        have h0 : t = 0 := by omega
        subst h0
        rfl)
      (by decide) (by decide) (by decide)).imp (fun _ h => ⟨h.1, h.2.2.1⟩),
    by decide⟩

/-- Claim C27. For the retaining log with capacity `N ≥ 1` and every `M`
(an index is a `uint64`, so `M < 2 ^ 64`), after `Store` with a non-nil
callback on the events with indices `1, ..., M` on a fresh log: every call
returned nil, the keys of the event map are, in order,
`max(1, M - N + 1), ..., M` (the last `min(M, N)` indices), the head pointer is
`M mod N`, every retained index `i` is held in slot `i mod N` and maps to its
event, the head pointer is below `N`, and the slot array has `N` slots. -/
theorem exact_retained_window {W : Type} (N M : Nat) (p : Nat → Nat)
    (cb : Nat → Nat → Event → W → W) (w : W) (hN : 1 ≤ N) (hM : M < 2 ^ 64) :
    (runStores LoggingEventCache.Store (NewLoggingEventCache N) w (storesUpTo p cb M)).2.2
        = List.replicate M StoreReturn.nil ∧
      GoMap.keys (runStores LoggingEventCache.Store (NewLoggingEventCache N) w
        (storesUpTo p cb M)).1.Events = List.range' (max 1 (M + 1 - N)) (min M N) ∧
      (runStores LoggingEventCache.Store (NewLoggingEventCache N) w
        (storesUpTo p cb M)).1.HeadLogIndex = M % N ∧
      (∀ i, max 1 (M + 1 - N) ≤ i → i ≤ M →
        (runStores LoggingEventCache.Store (NewLoggingEventCache N) w
          (storesUpTo p cb M)).1.Log[i % N]? = some i ∧
        GoMap.get (runStores LoggingEventCache.Store (NewLoggingEventCache N) w
          (storesUpTo p cb M)).1.Events i = some { Index := i, Payload := p i }) ∧
      (runStores LoggingEventCache.Store (NewLoggingEventCache N) w
        (storesUpTo p cb M)).1.HeadLogIndex < N ∧
      (runStores LoggingEventCache.Store (NewLoggingEventCache N) w
        (storesUpTo p cb M)).1.Log.length = N := by
  obtain ⟨hR, hres⟩ := retained_storesUpTo hN p cb w M hM
  refine ⟨hres, ?_, hR.head, ?_, ?_, hR.len⟩
  · have hlo : M + 1 - min M N = max 1 (M + 1 - N) := by omega
    rw [hR.events, hlo]
    simp [GoMap.keys, List.map_map, Function.comp_def]
  · intro i h1 h2
    refine ⟨hR.slot_of i (by omega) h2 (by omega), ?_⟩
    rw [hR.get_events]
    rw [if_pos (by omega)]
  · rw [hR.head]
    exact Nat.mod_lt _ hN

/-- Claim C27 at a concrete input: capacity 3 and the events 1..5. -/
theorem exact_retained_window_witness :
    (1 ≤ 3 ∧ 5 < 2 ^ 64) ∧
      GoMap.keys (runStores LoggingEventCache.Store (NewLoggingEventCache 3) ()
        (storesUpTo (fun j => 10 * j) (fun _ _ _ u => u) 5)).1.Events = [3, 4, 5] ∧
      (runStores LoggingEventCache.Store (NewLoggingEventCache 3) ()
        (storesUpTo (fun j => 10 * j) (fun _ _ _ u => u) 5)).1.HeadLogIndex = 2 :=
  ⟨by decide,
    (exact_retained_window 3 5 (fun j => 10 * j) (fun _ _ _ (u : Unit) => u) ()
      (by decide) (by decide)).2.1,
    (exact_retained_window 3 5 (fun j => 10 * j) (fun _ _ _ (u : Unit) => u) ()
      (by decide) (by decide)).2.2.1⟩

/-- Claim C28. For every set of tracked tokens, every environment and every
`chunkSize ≥ 1`, a pass of `ValidateSessions` ends within
`ceil(len / chunkSize)` loop iterations (it returns, possibly after a failed
marshal or send or a panic of the interval computation) and sends at most that
many chunks. With `chunkSize ≥ len` and a non-empty list one iteration
suffices, and when the marshal and the send succeed the pass is the single
send of the whole list. With `chunkSize = 0`, a non-empty list and every
marshal and send succeeding, the pass does not end within any number of
iterations. -/
theorem validate_sessions_terminates (sm : ManagerImpl) (env : ValidateEnv)
    (minInterval maxInterval : Int) :
    (∀ chunkSize fuel, 1 ≤ chunkSize →
      ((GoMap.keys sm.sessions).length + chunkSize - 1) / chunkSize ≤ fuel →
      ∃ steps, sm.ValidateSessions env chunkSize minInterval maxInterval fuel = some steps ∧
        (sentChunks steps).length
          ≤ ((GoMap.keys sm.sessions).length + chunkSize - 1) / chunkSize) ∧
    (∀ chunkSize, (GoMap.keys sm.sessions).length ≤ chunkSize → GoMap.keys sm.sessions ≠ [] →
      env.marshalOk (GoMap.keys sm.sessions) = true → env.sendOk 0 = true →
      sm.ValidateSessions env chunkSize minInterval maxInterval 1
        = some [ValidateStep.send (GoMap.keys sm.sessions) true]) ∧
    ((∀ chunk, env.marshalOk chunk = true) → (∀ i, env.sendOk i = true) →
      0 ≤ minInterval → maxInterval < 2 ^ 63 → GoMap.keys sm.sessions ≠ [] →
      ∀ fuel, sm.ValidateSessions env 0 minInterval maxInterval fuel = none) := by
  refine ⟨?_, ?_, ?_⟩
  · intro chunkSize fuel hc hfuel
    obtain ⟨steps, h1, h2⟩ := validateLoop_terminates env chunkSize minInterval maxInterval
      fuel 0 (GoMap.keys sm.sessions) (ceil_div_covers hc hfuel)
    exact ⟨steps, h1, h2 _ (ceil_div_covers hc (le_refl _))⟩
  · intro chunkSize hlen hne hm hs
    unfold ManagerImpl.ValidateSessions
    cases hk : GoMap.keys sm.sessions with
    | nil => exact absurd hk hne
    | cons tok toks =>
      rw [hk] at hlen hm
      unfold validateLoop
      have hgt : ¬ (tok :: toks).length > chunkSize := by omega
      simp only [hgt, if_false, hm, hs, Bool.not_true, Bool.false_eq_true, List.length_nil,
        gt_iff_lt, Nat.lt_irrefl]
      rfl
  · intro hm hs hmin hmax hne fuel
    exact validateLoop_zero_chunk env minInterval maxInterval hm hs hmin hmax fuel 0 _ hne

/-- Claim C28 at a concrete input: three tokens; with chunks of two the pass
ends within two iterations, with `chunkSize = 0` it does not end within five. -/
theorem validate_sessions_terminates_witness :
    (∃ steps,
      ({ NewManager with sessions := [("a", 1), ("b", 1), ("c", 1)] } : ManagerImpl).ValidateSessions
          { marshalOk := fun _ => true, sendOk := fun _ => true, rand := fun _ => 7 } 2 0 10 2
        = some steps ∧
      (sentChunks steps).length ≤ 2) ∧
    ({ NewManager with sessions := [("a", 1), ("b", 1), ("c", 1)] } : ManagerImpl).ValidateSessions
        { marshalOk := fun _ => true, sendOk := fun _ => true, rand := fun _ => 7 } 0 0 10 5
      = none :=
  ⟨(validate_sessions_terminates
      { NewManager with sessions := [("a", 1), ("b", 1), ("c", 1)] }
      { marshalOk := fun _ => true, sendOk := fun _ => true, rand := fun _ => 7 } 0 10).1 2 2
      (by decide) (by decide),
    (validate_sessions_terminates
      { NewManager with sessions := [("a", 1), ("b", 1), ("c", 1)] }
      { marshalOk := fun _ => true, sendOk := fun _ => true, rand := fun _ => 7 } 0 10).2.2
      (fun _ => rfl) (fun _ => rfl) (by decide) (by decide) (by decide) 5⟩

/-- Claim C29, evaluated on the code: for `0 ≤ minInterval < maxInterval`
(with `minInterval + maxInterval` an `int64`) and a raw random value `raw`,
the interval `ValidateSessions` sleeps between two chunks is
`minInterval + minInterval + raw mod (maxInterval - minInterval)`: the statement
`interval += minInterval + delta` adds `minInterval` to an interval that
already is `minInterval`. The interval is at least `minInterval`, but it is
`maxInterval` or more whenever the draw is at least
`maxInterval - 2 * minInterval`. -/
theorem jitter_interval_adds_min_twice (raw : Nat) (minInterval maxInterval : Int)
    (hmin : 0 ≤ minInterval) (hlt : minInterval < maxInterval)
    (hmax : minInterval + maxInterval < 2 ^ 63) :
    jitterInterval raw minInterval maxInterval
        = Go.ret (minInterval + minInterval + (raw : Int) % (maxInterval - minInterval)) ∧
      minInterval ≤ minInterval + minInterval + (raw : Int) % (maxInterval - minInterval) ∧
      (maxInterval - 2 * minInterval ≤ (raw : Int) % (maxInterval - minInterval) →
        maxInterval ≤ minInterval + minInterval + (raw : Int) % (maxInterval - minInterval)) := by
  have hpos : 0 < maxInterval - minInterval := by omega
  have h1 : 0 ≤ (raw : Int) % (maxInterval - minInterval) := Int.emod_nonneg _ (by omega)
  have h2 : (raw : Int) % (maxInterval - minInterval) < maxInterval - minInterval :=
    Int.emod_lt_of_pos _ hpos
  refine ⟨?_, by omega, by intro h; omega⟩
  unfold jitterInterval
  rw [if_pos hlt, wrap64_of_range _ (by omega) (by omega)]
  unfold Int63n
  rw [if_neg (by omega)]
  simp only
  rw [wrap64_of_range (minInterval + (raw : Int) % (maxInterval - minInterval)) (by omega)
    (by omega), wrap64_of_range _ (by omega) (by omega)]
  congr 1
  omega

/-- Claim C29 at a concrete input: `minInterval = 5`, `maxInterval = 10` and
the draw 4 give the interval 14. -/
theorem jitter_interval_adds_min_twice_witness :
    ((0 : Int) ≤ 5 ∧ (5 : Int) < 10 ∧ (5 : Int) + 10 < 2 ^ 63) ∧
      jitterInterval 4 5 10 = Go.ret 14 ∧ (10 : Int) ≤ 14 :=
  ⟨by decide, (jitter_interval_adds_min_twice 4 5 10 (by decide) (by decide) (by decide)).1,
    by decide⟩

/-- Claim C30, evaluated on the code: for a new session with claims of type
access, `UpdateChApiSession(ch, new)` panics with a nil dereference when no
session is bound to `ch`, and when the session bound to `ch` has nil claims. -/
theorem update_ch_api_session_nil_current (TokenTypeAccess : String) (sm : ManagerImpl)
    (ch : Channel) (new : ApiSession) (newClaims : AccessClaims)
    (hc : new.Claims = some newClaims) (ht : newClaims.Type_ = TokenTypeAccess) :
    (sm.GetApiSessionFromCh ch = none →
      sm.UpdateChApiSession TokenTypeAccess ch (some new)
        = (sm, Go.panic Panic.nilPointerDereference)) ∧
    (∀ current, sm.GetApiSessionFromCh ch = some current → current.Claims = none →
      sm.UpdateChApiSession TokenTypeAccess ch (some new)
        = (sm, Go.panic Panic.nilPointerDereference)) := by
  constructor
  · intro hcur
    unfold ManagerImpl.UpdateChApiSession
    simp [hc, ht, hcur]
  · intro current hcur hnil
    unfold ManagerImpl.UpdateChApiSession
    simp [hc, ht, hcur, hnil]

/-- Claim C30 at concrete inputs: a channel with no bound session on a new
manager, and a channel bound to a session without claims. -/
theorem update_ch_api_session_nil_current_witness :
    (NewManager.UpdateChApiSession "a" { ptr := 1, Id := "ch1" }
        (some { ApiSession := none, JwtToken := none,
                Claims := some { Type_ := "a", Subject := "s", ApiSessionId := "i" } })).2
      = Go.panic Panic.nilPointerDereference ∧
    ((NewManager.AddActiveChannel { ptr := 1, Id := "ch1" }
        (some { ApiSession := some { Token := "t", Id := "i", CertFingerprints := [] },
                JwtToken := none, Claims := none })).UpdateChApiSession "a"
        { ptr := 1, Id := "ch1" }
        (some { ApiSession := none, JwtToken := none,
                Claims := some { Type_ := "a", Subject := "s", ApiSessionId := "i" } })).2
      = Go.panic Panic.nilPointerDereference :=
  ⟨congrArg Prod.snd
      ((update_ch_api_session_nil_current "a" NewManager { ptr := 1, Id := "ch1" }
        { ApiSession := none, JwtToken := none,
          Claims := some { Type_ := "a", Subject := "s", ApiSessionId := "i" } }
        { Type_ := "a", Subject := "s", ApiSessionId := "i" } rfl rfl).1 (by decide)),
    congrArg Prod.snd
      ((update_ch_api_session_nil_current "a"
        (NewManager.AddActiveChannel { ptr := 1, Id := "ch1" }
          (some { ApiSession := some { Token := "t", Id := "i", CertFingerprints := [] },
                  JwtToken := none, Claims := none }))
        { ptr := 1, Id := "ch1" }
        { ApiSession := none, JwtToken := none,
          Claims := some { Type_ := "a", Subject := "s", ApiSessionId := "i" } }
        { Type_ := "a", Subject := "s", ApiSessionId := "i" } rfl rfl).2
        { ApiSession := some { Token := "t", Id := "i", CertFingerprints := [] },
          JwtToken := none, Claims := none } (by decide) rfl)⟩

end Ziti
